import Mathlib

/-!
# Structura trace compiler and replayer: a shallow embedding

This file embeds the core of the Structura visual interpreter
(src/structura/src/services/InterpreterService.js together with the
visualization reducer and the editor replay loop) in Lean 4 and proves the
specification claims about it.

The embedding models:
* the node-inspection interface over parsed syntax trees (a rose tree with
  per-child field names and named/unnamed flags),
* JavaScript values and the coercions the source relies on,
* the static unroller (the analyze* family plus expression and condition
  evaluation), written as a single fuel-indexed task interpreter so that all
  recursion is structural and all invariants follow by induction on fuel,
* the runtime executor (executeStep, the branch-skipping executeSteps loop
  and the replay-from-zero seek loop) against the visualization reducer.

JavaScript exceptions (TypeError on a missing child) are modelled as a
distinguished "crash" result, and exhaustion of the structural fuel as a
separate "fuelOut" result, so that termination of the unroller is the
theorem that fuelOut is unreachable for the fuel bound the entry point
computes.
-/

namespace Structura

/-! ## JavaScript-flavoured primitives -/

/-- Is a character in the JavaScript regex class w, i.e. a letter, digit or
underscore?  (ASCII only, which is all the source grammar produces.) -/
def isWordChar (c : Char) : Bool :=
  (('a' ≤ c && c ≤ 'z') || ('A' ≤ c && c ≤ 'Z') || ('0' ≤ c && c ≤ '9') || c = '_')

/-- Decimal digit test. -/
def isDigitChar (c : Char) : Bool := '0' ≤ c && c ≤ '9'

/-- Numeric value of a list of decimal digits (most significant first). -/
def digitsToNat (l : List Char) : Nat :=
  l.foldl (fun acc c => 10 * acc + (c.toNat - '0'.toNat)) 0

/-- Uppercase hexadecimal digit for a value below 16. -/
def hexDigitChar (n : Nat) : Char :=
  if n < 10 then Char.ofNat ('0'.toNat + n)
  else Char.ofNat ('A'.toNat + (n - 10))

/-- Worker for toHexUpper; the first argument is structural fuel, always
called with more fuel than hexadecimal digits. -/
def toHexUpperAux : Nat → Nat → List Char → List Char
  | 0, _, acc => acc
  | fuel+1, n, acc =>
    if n = 0 then acc else toHexUpperAux fuel (n / 16) (hexDigitChar (n % 16) :: acc)

/-- Uppercase hexadecimal rendering of a natural number, as produced by
JavaScript toString(16).toUpperCase(). -/
def toHexUpper (n : Nat) : String :=
  if n = 0 then "0" else String.mk (toHexUpperAux (n + 1) n [])

example : toHexUpper 0x7FFE1A00 = "7FFE1A00" := by decide

/-! ## JavaScript values

The interpreter stores numbers, strings, arrays, plain objects, null and
undefined in its maps and step payloads.  Numbers are modelled as exact
integers (the source only ever produces integer arithmetic via parseInt and
Math.floor); NaN and the two infinities get their own constructors since
parseInt failures and division by zero produce them. -/

inductive Value where
  | num (n : Int)
  | nan
  | inf (pos : Bool)
  | str (s : String)
  | bool (b : Bool)
  | arr (elems : List Value)
  | obj (fields : List (String × Value))
  | null
  | undef

/-- typeof v === number. -/
def Value.isNumber : Value → Bool
  | .num _ | .nan | .inf _ => true
  | _ => false

/-- typeof v === string. -/
def Value.isString : Value → Bool
  | .str _ => true
  | _ => false

/-- JavaScript truthiness. -/
def jsTruthy : Value → Bool
  | .num n => n ≠ 0
  | .nan => false
  | .inf _ => true
  | .str s => s ≠ ""
  | .bool b => b
  | .arr _ => true
  | .obj _ => true
  | .null => false
  | .undef => false

mutual

/-- The String(v) conversion. -/
def jsToString : Value → String
  | .num n => toString n
  | .nan => "NaN"
  | .inf b => if b then "Infinity" else "-Infinity"
  | .str s => s
  | .bool b => if b then "true" else "false"
  | .arr xs => String.intercalate "," (jsToStringList xs)
  | .obj _ => "[object Object]"
  | .null => "null"
  | .undef => "undefined"

/-- Array elements as rendered by Array.prototype.join: null and undefined
become empty strings. -/
def jsToStringList : List Value → List String
  | [] => []
  | .null :: rest => "" :: jsToStringList rest
  | .undef :: rest => "" :: jsToStringList rest
  | v :: rest => jsToString v :: jsToStringList rest

end

example : jsToString (.arr [.num 1, .num 9, .num 3]) = "1,9,3" := rfl

/-- JavaScript whitespace for trimming (the ASCII part, which is all the
source text contains). -/
def jsWs (c : Char) : Bool := c = ' ' || c = '\t' || c = '\n' || c = '\r'

/-- Drop leading JavaScript whitespace. -/
def dropWs : List Char → List Char
  | [] => []
  | c :: rest => if jsWs c then dropWs rest else c :: rest

/-- The String.prototype.trim operation. -/
def jsTrim (s : String) : String :=
  String.mk ((dropWs ((dropWs s.toList.reverse).reverse)))

example : jsTrim "  -7 " = "-7" := rfl

/-- Longest prefix of decimal digits. -/
def takeDigits : List Char → List Char × List Char
  | [] => ([], [])
  | c :: rest =>
    if isDigitChar c then
      let (d, r) := takeDigits rest
      (c :: d, r)
    else ([], c :: rest)

/-- JavaScript parseInt with radix 10 (with the automatic 0x hex detection):
trims whitespace, accepts an optional sign, then reads the longest digit
prefix; no digits gives NaN. -/
def parseIntJS (s : String) : Value :=
  let cs := (jsTrim s).toList
  let (sgn, cs) : Int × List Char :=
    match cs with
    | '-' :: rest => (-1, rest)
    | '+' :: rest => (1, rest)
    | _ => (1, cs)
  match cs with
  | '0' :: 'x' :: rest => hex sgn rest
  | '0' :: 'X' :: rest => hex sgn rest
  | _ =>
    match takeDigits cs with
    | ([], _) => .nan
    | (ds, _) => .num (sgn * (digitsToNat ds : Int))
where
  isHexDigit (c : Char) : Bool :=
    isDigitChar c || ('a' ≤ c && c ≤ 'f') || ('A' ≤ c && c ≤ 'F')
  hexVal (c : Char) : Nat :=
    if isDigitChar c then c.toNat - '0'.toNat
    else if 'a' ≤ c && c ≤ 'f' then c.toNat - 'a'.toNat + 10
    else c.toNat - 'A'.toNat + 10
  takeHex : List Char → List Nat
    | [] => []
    | c :: rest => if isHexDigit c then hexVal c :: takeHex rest else []
  hex (sgn : Int) (cs : List Char) : Value :=
    match takeHex cs with
    | [] => .nan
    | ds => .num (sgn * (ds.foldl (fun acc d => 16 * acc + d) 0 : Int))

example : parseIntJS "-7" = .num (-7) := rfl
example : parseIntJS "12ab" = .num 12 := rfl
example : parseIntJS "abc" = .nan := rfl

/-- The Number(s) conversion on a string: the whole trimmed string must be
numeric; the empty string is 0.  (Fractional literals are outside the model:
the embedded grammar subset only produces integers.) -/
def numberOfString (s : String) : Value :=
  let t := jsTrim s
  if t = "" then .num 0
  else if t = "Infinity" then .inf true
  else if t = "-Infinity" then .inf false
  else
    let cs := t.toList
    let (sgn, cs) : Int × List Char :=
      match cs with
      | '-' :: rest => (-1, rest)
      | '+' :: rest => (1, rest)
      | _ => (1, cs)
    match cs with
    | '0' :: 'x' :: rest =>
      if sgn = 1 then hexAll rest else .nan
    | '0' :: 'X' :: rest =>
      if sgn = 1 then hexAll rest else .nan
    | _ =>
      match takeDigits cs with
      | ([], _) => .nan
      | (ds, []) => .num (sgn * (digitsToNat ds : Int))
      | (_, _ :: _) => .nan
where
  hexAll (cs : List Char) : Value :=
    if cs ≠ [] && cs.all parseIntJS.isHexDigit then
      .num ((cs.map parseIntJS.hexVal).foldl (fun acc d => 16 * acc + d) 0 : Nat)
    else .nan

/-- The Number(v) coercion. -/
def jsToNumber : Value → Value
  | .num n => .num n
  | .nan => .nan
  | .inf b => .inf b
  | .str s => numberOfString s
  | .bool b => .num (if b then 1 else 0)
  | .arr xs => numberOfString (jsToString (.arr xs))
  | .obj _ => .nan
  | .null => .num 0
  | .undef => .nan

example : jsToNumber (.str "0x7FFE1A00") = .num 0x7FFE1A00 := rfl
example : jsToNumber (.arr [.num 5]) = .num 5 := rfl
example : jsToNumber (.arr [.num 1, .num 2]) = .nan := rfl

/-! ## Char-list string operations

The embedding implements the string searching the source does with regular
expressions and String.prototype methods directly over character lists, so
that everything evaluates inside the kernel. -/

/-- Is pre a prefix of l? -/
def listStartsWith : List Char → List Char → Bool
  | _, [] => true
  | [], _ :: _ => false
  | c :: rest, p :: ps => c = p && listStartsWith rest ps

/-- String.prototype.startsWith. -/
def strStartsWith (s pre : String) : Bool := listStartsWith s.toList pre.toList

/-- String.prototype.endsWith. -/
def strEndsWith (s suf : String) : Bool :=
  listStartsWith s.toList.reverse suf.toList.reverse

/-- Does l contain sub as a contiguous sublist? -/
def listContainsSub (sub : List Char) : List Char → Bool
  | [] => listStartsWith [] sub
  | c :: rest => listStartsWith (c :: rest) sub || listContainsSub sub rest

/-- String.prototype.includes. -/
def strContains (s sub : String) : Bool := listContainsSub sub.toList s.toList

example : strContains "cout << x" "cout" = true := rfl
example : strContains "*p = 9;" "cout" = false := rfl

/-- Worker for strSplitOn, with structural fuel (list length suffices). -/
def splitOnAux (sep : List Char) : Nat → List Char → List Char → List (List Char)
  | _, [], acc => [acc.reverse]
  | 0, l, acc => [(acc.reverse ++ l)]
  | fuel+1, c :: rest, acc =>
    if sep ≠ [] && listStartsWith (c :: rest) sep then
      acc.reverse :: splitOnAux sep fuel (List.drop sep.length (c :: rest)) []
    else
      splitOnAux sep fuel rest (c :: acc)

/-- String.prototype.split with a non-empty string separator. -/
def strSplitOn (s sep : String) : List String :=
  (splitOnAux sep.toList (s.toList.length + 1) s.toList []).map String.mk

example : strSplitOn "a<<b<<c" "<<" = ["a", "b", "c"] := rfl
example : strSplitOn "ab" "<<" = ["ab"] := rfl

/-- replace(/X$/, ""): drop one occurrence of a suffix. -/
def dropSuffixOnce (s suf : String) : String :=
  if strEndsWith s suf then
    String.mk (s.toList.take (s.toList.length - suf.toList.length))
  else s

example : dropSuffixOnce "endl;" ";" = "endl" := rfl

/-- Longest prefix of word characters. -/
def takeWord : List Char → List Char × List Char
  | [] => ([], [])
  | c :: rest =>
    if isWordChar c then
      let (w, r) := takeWord rest
      (c :: w, r)
    else ([], c :: rest)

/-- Remove every occurrence of the characters in the given set
(replace(/[()]/g, "") style). -/
def removeChars (bad : List Char) (s : String) : String :=
  String.mk (s.toList.filter (fun c => ¬ bad.contains c))

/-! ## JavaScript comparison and arithmetic operators -/

/-- ToPrimitive for the value shapes in play: arrays and objects go through
their string rendering, everything else is already primitive. -/
def toPrimitive : Value → Value
  | .arr xs => .str (jsToString (.arr xs))
  | .obj fs => .str (jsToString (.obj fs))
  | v => v

/-- Equality of two number-typed values (NaN is unequal to everything,
including itself). -/
def numEq : Value → Value → Bool
  | .num a, .num b => a = b
  | .inf a, .inf b => a = b
  | _, _ => false

/-- Less-than on two number-typed values (false whenever NaN is involved). -/
def numLt : Value → Value → Bool
  | .num a, .num b => a < b
  | .num _, .inf b => b
  | .inf a, .num _ => !a
  | .inf a, .inf b => !a && b
  | _, _ => false

/-- Lexicographic comparison of char lists by code point, as JavaScript
compares strings. -/
def listLt : List Char → List Char → Bool
  | [], [] => false
  | [], _ :: _ => true
  | _ :: _, [] => false
  | a :: as_, b :: bs => a < b || (a = b && listLt as_ bs)

/-- JavaScript loose equality for the value shapes in play.  Two distinct
arrays or objects compare by reference and are modelled as unequal. -/
def jsLooseEq (a b : Value) : Bool :=
  match a, b with
  | .arr _, .arr _ => false
  | .arr _, .obj _ => false
  | .obj _, .arr _ => false
  | .obj _, .obj _ => false
  | _, _ =>
    match toPrimitive a, toPrimitive b with
    | .null, .null => true
    | .null, .undef => true
    | .undef, .null => true
    | .undef, .undef => true
    | .null, _ => false
    | _, .null => false
    | .undef, _ => false
    | _, .undef => false
    | .str s, .str t => s = t
    | p, q => numEq (jsToNumber p) (jsToNumber q)

/-- JavaScript a < b. -/
def jsLess (a b : Value) : Bool :=
  match toPrimitive a, toPrimitive b with
  | .str s, .str t => listLt s.toList t.toList
  | p, q => numLt (jsToNumber p) (jsToNumber q)

/-- JavaScript a > b. -/
def jsGreater (a b : Value) : Bool := jsLess b a

/-- JavaScript a <= b: the negation of b < a unless a NaN makes the
comparison undefined. -/
def jsLe (a b : Value) : Bool :=
  match toPrimitive a, toPrimitive b with
  | .str s, .str t => !(listLt t.toList s.toList)
  | p, q =>
    match jsToNumber p, jsToNumber q with
    | .nan, _ => false
    | _, .nan => false
    | x, y => !(numLt y x)

/-- JavaScript a >= b. -/
def jsGe (a b : Value) : Bool := jsLe b a

/-- Negation of a number-typed value. -/
def numNeg : Value → Value
  | .num n => .num (-n)
  | .inf b => .inf (!b)
  | v => v

/-- JavaScript + on two number-typed values. -/
def jsAdd : Value → Value → Value
  | .num a, .num b => .num (a + b)
  | .inf a, .inf b => if a = b then .inf a else .nan
  | .inf a, .num _ => .inf a
  | .num _, .inf b => .inf b
  | _, _ => .nan

/-- JavaScript - on two number-typed values. -/
def jsSub (a b : Value) : Value := jsAdd a (numNeg b)

/-- JavaScript * on two number-typed values. -/
def jsMul : Value → Value → Value
  | .num a, .num b => .num (a * b)
  | .inf a, .inf b => .inf (a = b)
  | .inf s, .num n => if n = 0 then .nan else .inf (s = (0 < n))
  | .num n, .inf s => if n = 0 then .nan else .inf (s = (0 < n))
  | _, _ => .nan

/-- Math.floor(a / b) on two number-typed values: floor division, which for
nonzero integer operands is division rounding toward negative infinity. -/
def jsFloorDiv : Value → Value → Value
  | .num a, .num b =>
    if b = 0 then (if a = 0 then .nan else .inf (0 < a)) else .num (Int.fdiv a b)
  | .inf s, .num b => if b = 0 then .inf s else .inf (s = (0 ≤ b))
  | .num _, .inf _ => .num 0
  | _, _ => .nan

/-- JavaScript % on two number-typed values (remainder with the sign of the
dividend). -/
def jsMod : Value → Value → Value
  | .num a, .num b => if b = 0 then .nan else .num (Int.tmod a b)
  | .num a, .inf _ => .num a
  | _, _ => .nan

example : jsFloorDiv (.num (-7)) (.num 2) = .num (-4) := rfl

/-! ## Association-list maps (JavaScript Map with insertion order) -/

/-- Map lookup. -/
def alGet {κ a : Type} [DecidableEq κ] (m : List (κ × a)) (k : κ) : Option a :=
  (m.find? (fun p => p.1 = k)).map (fun p => p.2)

/-- Map.prototype.set: replace in place or append. -/
def alSet {κ a : Type} [DecidableEq κ] (m : List (κ × a)) (k : κ) (v : a) : List (κ × a) :=
  match m with
  | [] => [(k, v)]
  | (k2, v2) :: rest => if k2 = k then (k, v) :: rest else (k2, v2) :: alSet rest k v

/-- Map.prototype.has. -/
def alHas {κ a : Type} [DecidableEq κ] (m : List (κ × a)) (k : κ) : Bool :=
  (alGet m k).isSome

/-! ## The node-inspection interface

A parsed syntax-tree node: kind (the source calls it type), source text,
start and end rows, and the ordered children, each carrying an optional
field name and a named/unnamed flag (unnamed children are punctuation and
operator tokens, which the source occasionally searches). -/

inductive Node where
  | mk (kind : String) (text : String) (startRow : Nat) (endRow : Nat)
       (children : List (Option String × Bool × Node))

def Node.kind : Node → String
  | .mk k _ _ _ _ => k

def Node.text : Node → String
  | .mk _ t _ _ _ => t

def Node.startRow : Node → Nat
  | .mk _ _ r _ _ => r

def Node.endRow : Node → Nat
  | .mk _ _ _ r _ => r

def Node.children : Node → List (Option String × Bool × Node)
  | .mk _ _ _ _ cs => cs

/-- All children in order (node.children / node.child(i)). -/
def Node.childNodes (n : Node) : List Node := n.children.map (fun c => c.2.2)

/-- The named children in order (node.namedChild(i)). -/
def Node.namedChildren (n : Node) : List Node :=
  (n.children.filter (fun c => c.2.1)).map (fun c => c.2.2)

/-- node.namedChild(i), null when out of range. -/
def Node.namedChild (n : Node) (i : Nat) : Option Node := n.namedChildren.get? i

/-- node.childForFieldName(f), null when the field is absent. -/
def Node.childForFieldName (n : Node) (f : String) : Option Node :=
  (n.children.find? (fun c => c.1 = some f)).map (fun c => c.2.2)

mutual

/-- Number of nodes in a tree; the measure used by the fuel bounds. -/
def nodeSize : Node → Nat
  | .mk _ _ _ _ cs => 1 + childListSize cs

def childListSize : List (Option String × Bool × Node) → Nat
  | [] => 0
  | (_, _, n) :: rest => nodeSize n + childListSize rest

end

/-! ## Execution steps -/

/-- One conditional-branch tag: the step is live only if the decision point
at index parent selected the label branch. -/
structure BranchTag where
  branch : String
  parent : Nat

/-- Kind-specific payload of an execution step, one constructor per step
type string the source pushes. -/
inductive StepData where
  | pushFrame (name : String)
  | popFrame (name : String)
  | setVariable (name : String) (value : Value) (vtype : String) (address : String)
  | call (fname : String) (args : List (Value × String)) (targetVar : Option String)
  | paramInit (name : String) (value : Value) (vtype : String)
  | returnFromCall (fname : String) (targetVar : Option String)
  | allocateHeap (address : String) (value : Value) (vtype : String)
  | logOutput (text : String) (needsFrameContext : Bool)
  | updateVariable (name : String) (value : Value)
  | pointerIncrement (name : String) (delta : Int)
  | derefAssign (pointerName : Option String) (value : Value)
  | setHeapField (pointerName : String) (field : String) (value : Value)
  | updateArrayElement (arrayName : String) (index : Value) (value : Value)
  | ifStatement (condition : String) (hasTrueBranch : Bool) (hasFalseBranch : Bool)
  | switchStatement (varName : String)
  | enterCase (value : Option String)
  | evaluateLoopCondition (condition : String) (result : Value) (iteration : Nat)
  | enterLoop (iteration : Nat)
  | exitLoopIteration (iteration : Nat)
  | ret (value : Value)

/-- An execution step: payload, 1-based source line, and the conditional
branch tags attached by enclosing if/switch analyses. -/
structure Step where
  data : StepData
  line : Nat
  branches : List BranchTag

/-! ## Unroller state

The mutable fields of InterpreterService that the analysis phase touches.
functionMap is kept apart as a read-only parameter: it is filled once by
populateFunctionMap before unrolling starts and never written afterwards.
The rand field is an oracle supply standing in for the Math.random draws
used for heap addresses. -/

structure AState where
  steps : List Step
  counter : Nat
  rand : Nat
  variableAddresses : List (String × String)
  arraySizes : List (String × Value)
  analysisVariables : List (String × Value)

/-- Append one step. -/
def pushStep (st : AState) (s : Step) : AState :=
  { st with steps := st.steps ++ [s] }

/-- generateAddress: 0x + counter rendered in uppercase hex, post-increment. -/
def generateAddress (st : AState) : String × AState :=
  ("0x" ++ toHexUpper st.counter, { st with counter := st.counter + 1 })

/-- Left-pad with zeros to a given length (String.prototype.padStart). -/
def padStartZero (s : String) (n : Nat) : String :=
  String.mk (List.replicate (n - s.toList.length) '0' ++ s.toList)

/-- The heap-address generator: 0x5F followed by four hex digits of a
Math.random draw, modelled by the rand oracle supply. -/
def generateHeapAddress (st : AState) : String × AState :=
  ("0x5F" ++ padStartZero (toHexUpper (st.rand % 0xFFFF)) 4,
   { st with rand := st.rand + 1 })

/-! ## Regex matchers used by the source -/

/-- The anchored greedy pattern (.+)\[(\d+)\]$ used for array-element
references such as arr[2]: split at the last opening bracket, requiring a
nonempty name and a nonempty digit run. -/
def matchArrayRef (s : String) : Option (String × Int) :=
  match s.toList.reverse with
  | ']' :: rest =>
    let digitsRev := rest.takeWhile (fun c => isDigitChar c)
    if digitsRev = [] then none
    else
      match rest.drop digitsRev.length with
      | '[' :: nameRev =>
        if nameRev = [] then none
        else some (String.mk nameRev.reverse, (digitsToNat digitsRev.reverse : Int))
      | _ => none
  | _ => none

example : matchArrayRef "arr[2]" = some ("arr", 2) := rfl
example : matchArrayRef "a[1][12]" = some ("a[1]", 12) := rfl
example : matchArrayRef "&x" = none := rfl

/-- The anchored pattern ^&(\w+)$ for pointer-to-variable references. -/
def matchAmpName (s : String) : Option String :=
  match s.toList with
  | '&' :: rest =>
    if rest ≠ [] && rest.all (fun c => isWordChar c) then some (String.mk rest) else none
  | _ => none

/-- The anchored pattern ^(\w+)\[(\w+)\]$ used by runtime condition terms. -/
def matchWordBracketWord (s : String) : Option (String × String) :=
  match takeWord s.toList with
  | ([], _) => none
  | (nm, rest) =>
    match rest with
    | '[' :: rest2 =>
      match takeWord rest2 with
      | ([], _) => none
      | (idx, [']']) => some (String.mk nm, String.mk idx)
      | _ => none
    | _ => none

/-- The anchored pattern ^(\w+)\[(\d+)\]$ (word-named array reference). -/
def matchWordBracketDigits (s : String) : Option (String × String) :=
  match matchWordBracketWord s with
  | some (nm, idx) =>
    if idx.toList ≠ [] && idx.toList.all (fun c => isDigitChar c) then some (nm, idx) else none
  | none => none

/-- First unanchored occurrence of \[(\d+)\] in the string. -/
def firstBracketNum : List Char → Option Int
  | [] => none
  | '[' :: rest =>
    (match rest.takeWhile (fun c => isDigitChar c) with
     | [] => firstBracketNum rest
     | ds =>
       match rest.drop ds.length with
       | ']' :: _ => some (digitsToNat ds : Int)
       | _ => firstBracketNum rest)
  | _ :: rest => firstBracketNum rest

example : firstBracketNum "arr[2]".toList = some 2 := rfl
example : firstBracketNum "a[x][25]".toList = some 25 := rfl

/-- Leading pattern ^"([^"]*)" of a cout part. -/
def matchLeadingQuoted (s : String) : Option String :=
  match s.toList with
  | '"' :: rest =>
    let content := rest.takeWhile (fun c => c ≠ '"')
    (match rest.drop content.length with
     | '"' :: _ => some (String.mk content)
     | _ => none)
  | _ => none

/-- Leading pattern ^\*\*(\w+). -/
def matchLeadingStarStarWord (s : String) : Option String :=
  match s.toList with
  | '*' :: '*' :: rest =>
    (match takeWord rest with
     | ([], _) => none
     | (w, _) => some (String.mk w))
  | _ => none

/-- Leading pattern ^\*(\w+). -/
def matchLeadingStarWord (s : String) : Option String :=
  match s.toList with
  | '*' :: rest =>
    (match takeWord rest with
     | ([], _) => none
     | (w, _) => some (String.mk w))
  | _ => none

/-- Leading pattern ^(\w+). -/
def matchLeadingWord (s : String) : Option String :=
  match takeWord s.toList with
  | ([], _) => none
  | (w, _) => some (String.mk w)

/-! ## Pure unroller helpers -/

/-- getFunctionName. -/
def getFunctionName : Option Node → String
  | none => "unknown"
  | some d =>
    if d.kind = "function_declarator" then
      match d.childForFieldName "declarator" with
      | some f => f.text
      | none => "unknown"
    else d.text

/-- getVariableName.  The first argument is structural fuel; all call sites
pass nodeSize + 1, which strictly exceeds the recursion depth, so the
fuel-exhausted arm (returning the final fallback declarator.text) is
unreachable. -/
def getVariableName : Nat → Option Node → String
  | _, none => "unknown"
  | 0, some d => d.text
  | fuel+1, some d =>
    if d.kind = "pointer_declarator" then getVariableName fuel (d.namedChild 0)
    else if d.kind = "array_declarator" then
      getVariableName fuel (d.childForFieldName "declarator")
    else if d.kind = "identifier" then d.text
    else
      match d.childNodes.find? (fun c => c.kind = "identifier") with
      | some c => c.text
      | none => d.text

/-- getFullType, accumulating pointer stars.  Fuel as in getVariableName
(the fuel-exhausted arm returns the accumulated base type). -/
def getFullType : Nat → String → Option Node → String
  | _, base, none => base
  | 0, base, some _ => base
  | fuel+1, base, some d =>
    if d.kind = "pointer_declarator" then
      getFullType fuel (base ++ "*") (d.namedChild 0)
    else base

/-- evaluatePointerArithmetic: builds the __PTR_ARITH__ runtime marker for
identifier-plus-literal expressions, null otherwise. -/
def evaluatePointerArithmetic (expr : Node) : Option String :=
  let left := expr.childForFieldName "left"
  let right := expr.childForFieldName "right"
  let operator := expr.childNodes.find? (fun c =>
    c.kind = "+" || c.kind = "-" || c.text = "+" || c.text = "-")
  match left, right with
  | some l, some r =>
    if l.kind = "identifier" && r.kind = "number_literal" then
      let op := match operator with | some o => o.text | none => "+"
      some ("__PTR_ARITH__" ++ l.text ++ "__" ++ op ++ "__" ++
        jsToString (parseIntJS r.text))
    else none
  | _, _ => none

/-- One << part of a cout expression, turned into literal text or a
placeholder. -/
def coutPart (part : String) : String :=
  let trimmed := dropSuffixOnce (dropSuffixOnce (jsTrim part) ";") "endl"
  match matchLeadingQuoted trimmed with
  | some content => content
  | none =>
  match matchLeadingStarStarWord trimmed with
  | some w => "\x7b**" ++ w ++ "\x7d"
  | none =>
  match matchLeadingStarWord trimmed with
  | some w => "\x7b*" ++ w ++ "\x7d"
  | none =>
  match matchLeadingWord trimmed with
  | some w => "\x7b" ++ w ++ "\x7d"
  | none => ""

/-- extractCoutOutput: split on << , drop the cout part, render each part. -/
def extractCoutOutput (n : Node) : String :=
  let coutParts := (strSplitOn n.text "<<").drop 1
  let output := String.join (coutParts.map coutPart)
  if output = "" then "Output" else output

/-- analyzeUpdateExpression: emits POINTER_INCREMENT and mirrors the delta
into the analysis map for tracked numeric variables. -/
def analyzeUpdateExpression (expr : Node) (line : Nat) (st : AState) : AState :=
  let operator : Int := if strContains expr.text "++" then 1 else -1
  match expr.namedChild 0 with
  | some o =>
    if o.kind = "identifier" then
      let varName := o.text
      let st := pushStep st { data := .pointerIncrement varName operator, line := line, branches := [] }
      if alHas st.analysisVariables varName then
        match alGet st.analysisVariables varName with
        | some v =>
          if v.isNumber then
            { st with analysisVariables := alSet st.analysisVariables varName (jsAdd v (.num operator)) }
          else st
        | none => st
      else st
    else st
  | none => st

/-- populateFunctionMap: collect top-level function definitions by name. -/
def populateFunctionMap (root : Node) : List (String × Node) :=
  root.namedChildren.foldl (fun fm node =>
    if node.kind = "function_definition" then
      alSet fm (getFunctionName (node.childForFieldName "declarator")) node
    else fm) []

/-! ## Result type for the unroller

crash models a thrown JavaScript TypeError/RangeError; fuelOut models
exhaustion of the structural fuel and is what the termination theorem rules
out. -/

inductive Res (α : Type) where
  | ok (a : α)
  | crash
  | fuelOut

def Res.bind {α β : Type} : Res α → (α → Res β) → Res β
  | .ok a, f => f a
  | .crash, _ => .crash
  | .fuelOut, _ => .fuelOut

instance : Monad Res where
  pure := Res.ok
  bind := Res.bind

/-! ## Small value helpers used by the unroller -/

/-- Array.isArray. -/
def Value.isArr : Value → Bool
  | .arr _ => true
  | _ => false

/-- a > b on two number-typed values. -/
def numGt (a b : Value) : Bool := numLt b a

/-- a <= b on two number-typed values (false when NaN is involved). -/
def numLe (a b : Value) : Bool :=
  match a, b with
  | .nan, _ => false
  | _, .nan => false
  | _, _ => !(numLt b a)

/-- a >= b on two number-typed values. -/
def numGe (a b : Value) : Bool := numLe b a

/-- JavaScript arr[idx] for a number index: in-range integers index the
array, everything else yields undefined. -/
def arrayElemAt (xs : List Value) (idx : Value) : Value :=
  match idx with
  | .num n =>
    if h : 0 ≤ n ∧ n.toNat < xs.length then xs.get ⟨n.toNat, h.2⟩ else .undef
  | _ => Value.undef

/-- Array(n).fill(0): a zero-filled array; a NaN or negative length is a
RangeError, modelled as a crash. -/
def mkDefaultArray : Value → Res Value
  | .num n => if 0 ≤ n then .ok (.arr (List.replicate n.toNat (.num 0))) else .crash
  | _ => .crash

/-- The failed-evaluation test used after new-expression argument
evaluation: evaluateExpression signals failure with the string undefined
(or undefined itself). -/
def evalFailed : Value → Bool
  | .str s => s = "undefined"
  | .undef => true
  | _ => false

/-- nodeSize of an optional node. -/
def optSize : Option Node → Nat
  | none => 0
  | some n => nodeSize n

/-- Total size of a node list. -/
def listSizeN (ns : List Node) : Nat := (ns.map nodeSize).sum

/-- The sizeof-operand unwrap loop (parenthesized_expression); fuel as in
getVariableName. -/
def unwrapParens : Nat → Option Node → Option Node
  | _, none => none
  | 0, some n => some n
  | fuel+1, some n =>
    if n.kind = "parenthesized_expression" then unwrapParens fuel (n.namedChild 0)
    else some n

/-- The evaluateCondition unwrap loop (condition_clause and
parenthesized_expression wrappers); fuel as in getVariableName. -/
def unwrapCond : Nat → Option Node → Option Node
  | _, none => none
  | 0, some n => some n
  | fuel+1, some n =>
    if n.kind = "condition_clause" || n.kind = "parenthesized_expression" then
      unwrapCond fuel (n.namedChild 0)
    else some n

/-- Append a branch tag to every step whose index lies in [lo, hi). -/
def tagRange (st : AState) (lo hi : Nat) (tag : BranchTag) : AState :=
  { st with steps := st.steps.mapIdx (fun i s =>
      if lo ≤ i && i < hi then { s with branches := s.branches ++ [tag] } else s) }

/-- The parameter-binding loop of analyzeFunctionCall: one PARAM_INIT step
per formal parameter, matched positionally, stopping at the end of the
actuals. -/
def bindParams (line : Nat) : Nat → List Node → List (Value × String) → AState → AState
  | _, [], _, st => st
  | _, _ :: _, [], st => st
  | i, param :: ps, (argVal, _) :: as2, st =>
    let paramType := match param.childForFieldName "type" with
      | some t => if t.text = "" then "int" else t.text
      | none => "int"
    let paramName := match param.childForFieldName "declarator" with
      | some pd => getVariableName (nodeSize pd + 1) (some pd)
      | none => "p" ++ toString i
    let st := pushStep st { data := .paramInit paramName argVal paramType, line := line, branches := [] }
    let st :=
      if argVal.isNumber || argVal.isArr then
        { st with analysisVariables := alSet st.analysisVariables paramName argVal }
      else st
    bindParams line (i+1) ps as2 st

/-! ## The unroller

Each method of the analysis phase of InterpreterService becomes one
constructor of Task, and the single fuel-indexed function run interprets
them; every recursive call in the source becomes a run call at one less
fuel, so the whole unroller is structurally recursive and evaluates inside
the kernel.  The function map is the read-only parameter fm; callDepth is
the explicit depth argument (the source increments it before unrolling a
callee body and decrements it after, so it behaves as a reader value). -/

inductive Task where
  | tEvaluateExpression (n : Option Node)
  | tEvalList (ns : List Node)
  | tEvaluateCondition (n : Option Node)
  | tAnalyzeNode (d : Nat) (n : Node)
  | tNodeList (d : Nat) (ns : List Node)
  | tAnalyzeFunctionDefinition (d : Nat) (n : Node)
  | tAnalyzeFunctionBody (d : Nat) (n : Node)
  | tStmtList (d : Nat) (ns : List Node)
  | tAnalyzeStatement (d : Nat) (n : Node)
  | tAnalyzeDeclaration (d : Nat) (n : Node)
  | tDeclarators (d : Nat) (line : Nat) (typeTextOpt : Option String) (ns : List Node)
  | tAnalyzeFunctionCall (d : Nat) (n : Node) (targetVar : Option String)
  | tAnalyzeExpressionStatement (d : Nat) (n : Node)
  | tAnalyzeAssignment (n : Node) (line : Nat)
  | tAnalyzeReturnStatement (n : Node)
  | tAnalyzeIfStatement (d : Nat) (n : Node)
  | tAnalyzeSwitchStatement (d : Nat) (n : Node)
  | tCaseList (d : Nat) (swIdx : Nat) (cs : List (Node × Option String))
  | tCaseStmts (d : Nat) (ns : List Node)
  | tDefaultStmts (d : Nat) (ns : List Node)
  | tAnalyzeWhileStatement (d : Nat) (n : Node)
  | tWhileIter (d : Nat) (n : Node) (iteration : Nat)
  | tAnalyzeForStatement (d : Nat) (n : Node)
  | tForIter (d : Nat) (n : Node) (iteration : Nat)
  | tAnalyzeCompoundOrStatement (d : Nat) (n : Node)

/-- The unroller.  Statement-shaped tasks return undef as their value;
expression and condition tasks return the evaluated value. -/
def run (fm : List (String × Node)) : Nat → Task → AState → Res (Value × AState)
  | 0, _, _ => .fuelOut
  | fuel+1, t, st =>
    match t with
    /- evaluateExpression -/
    | .tEvaluateExpression n =>
      match n with
      | none => .ok (.str "undefined", st)
      | some node =>
        if node.kind = "parenthesized_expression" then
          run fm fuel (.tEvaluateExpression (node.namedChild 0)) st
        else if node.kind = "number_literal" then
          .ok (parseIntJS node.text, st)
        else if node.kind = "string_literal" then
          .ok (.str node.text, st)
        else if node.kind = "pointer_expression" then
          match node.namedChild 0 with
          | some target =>
            if target.kind = "identifier" then
              let (a, st) := generateAddress st
              .ok (.str a, st)
            else .ok (.str "0x0", st)
          | none => .ok (.str "0x0", st)
        else if node.kind = "binary_expression" then do
          let (left, st) ← run fm fuel (.tEvaluateExpression (node.childForFieldName "left")) st
          let (right, st) ← run fm fuel (.tEvaluateExpression (node.childForFieldName "right")) st
          match node.childForFieldName "operator" with
          | none => .crash
          | some opNode =>
            let operator := opNode.text
            if left.isNumber && right.isNumber then
              if operator = "+" then .ok (jsAdd left right, st)
              else if operator = "-" then .ok (jsSub left right, st)
              else if operator = "*" then .ok (jsMul left right, st)
              else if operator = "/" then .ok (jsFloorDiv left right, st)
              else if operator = "%" then .ok (jsMod left right, st)
              else if operator = "==" then .ok (.num (if numEq left right then 1 else 0), st)
              else if operator = "!=" then .ok (.num (if numEq left right then 0 else 1), st)
              else if operator = "<" then .ok (.num (if numLt left right then 1 else 0), st)
              else if operator = ">" then .ok (.num (if numGt left right then 1 else 0), st)
              else if operator = "<=" then .ok (.num (if numLe left right then 1 else 0), st)
              else if operator = ">=" then .ok (.num (if numGe left right then 1 else 0), st)
              else .ok (.str (jsToString left ++ " " ++ operator ++ " " ++ jsToString right), st)
            else .ok (.str (jsToString left ++ " " ++ operator ++ " " ++ jsToString right), st)
        else if node.kind = "sizeof_expression" then
          match unwrapParens (optSize (node.namedChild 0) + 1) (node.namedChild 0) with
          | none => .ok (.num 4, st)
          | some operand =>
            let targetText := operand.text
            if targetText = "int" || targetText = "float" || strContains targetText "*" then
              .ok (.num 4, st)
            else if targetText = "char" || targetText = "bool" then .ok (.num 1, st)
            else if targetText = "double" then .ok (.num 8, st)
            else if operand.kind = "subscript_expression" then .ok (.num 4, st)
            else
              match alGet st.arraySizes targetText with
              | some size => .ok (size, st)
              | none => .ok (.num 4, st)
        else if node.kind = "subscript_expression" then
          let arrayNode := node.childForFieldName "argument"
          let indexExpr0 := node.childForFieldName "index"
          let indexExpr1 := match indexExpr0 with
            | some e => some e
            | none => node.childForFieldName "subscript"
          let indexExpr2 := match indexExpr1 with
            | some e => some e
            | none =>
              if node.namedChildren.length ≥ 2 then node.namedChild 1 else none
          let indexExpr3 := match indexExpr2 with
            | some ie =>
              if ie.kind = "subscript_argument" || strStartsWith ie.text "[" then
                if ie.namedChildren.length > 0 then ie.namedChild 0 else some ie
              else some ie
            | none => none
          do
            let (arrayVal, st) ← run fm fuel (.tEvaluateExpression arrayNode) st
            let (idxVal, st) ← run fm fuel (.tEvaluateExpression indexExpr3) st
            match arrayVal with
            | .arr xs =>
              if idxVal.isNumber then .ok (arrayElemAt xs idxVal, st)
              else .ok (.num 0, st)
            | _ => .ok (.num 0, st)
        else if node.kind = "identifier" then
          match alGet st.analysisVariables node.text with
          | some v => .ok (v, st)
          | none => .ok (.str node.text, st)
        else .ok (.str node.text, st)
    /- the argument-list and initializer-list evaluation loops -/
    | .tEvalList ns =>
      match ns with
      | [] => .ok (.arr [], st)
      | x :: rest => do
        let (v, st) ← run fm fuel (.tEvaluateExpression (some x)) st
        let (restArr, st) ← run fm fuel (.tEvalList rest) st
        match restArr with
        | .arr vs => .ok (.arr (v :: vs), st)
        | _ => .ok (.arr [v], st)
    /- evaluateCondition -/
    | .tEvaluateCondition n =>
      match n with
      | none => .ok (.bool false, st)
      | some c0 =>
        match unwrapCond (nodeSize c0 + 1) (some c0) with
        | none => .ok (.bool false, st)
        | some condition =>
          if condition.kind = "binary_expression" then
            let operator := condition.childNodes.find? (fun c =>
              c.text = ">" || c.text = "<" || c.text = "==" || c.text = "!=" ||
              c.text = ">=" || c.text = "<=" || c.text = "&&" || c.text = "||")
            match operator with
            | none => .ok (.bool false, st)
            | some op => do
              let (leftValue, st) ← run fm fuel (.tEvaluateExpression (condition.childForFieldName "left")) st
              let (rightValue, st) ← run fm fuel (.tEvaluateExpression (condition.childForFieldName "right")) st
              let lNum := jsToNumber leftValue
              let rNum := jsToNumber rightValue
              let useNum := !(lNum matches .nan) && !(rNum matches .nan)
              if op.text = ">" then
                .ok (.bool (if useNum then numGt lNum rNum else jsGreater leftValue rightValue), st)
              else if op.text = "<" then
                .ok (.bool (if useNum then numLt lNum rNum else jsLess leftValue rightValue), st)
              else if op.text = ">=" then
                .ok (.bool (if useNum then numGe lNum rNum else jsGe leftValue rightValue), st)
              else if op.text = "<=" then
                .ok (.bool (if useNum then numLe lNum rNum else jsLe leftValue rightValue), st)
              else if op.text = "==" then .ok (.bool (jsLooseEq leftValue rightValue), st)
              else if op.text = "!=" then .ok (.bool (!(jsLooseEq leftValue rightValue)), st)
              else if op.text = "&&" then
                .ok ((if jsTruthy leftValue then rightValue else leftValue), st)
              else if op.text = "||" then
                .ok ((if jsTruthy leftValue then leftValue else rightValue), st)
              else .ok (.bool false, st)
          else if condition.kind = "unary_expression" &&
              (condition.childNodes.find? (fun c => c.text = "!")).isSome then do
            let (v, st) ← run fm fuel (.tEvaluateCondition (condition.namedChild 0)) st
            .ok (.bool (!(jsTruthy v)), st)
          else if condition.kind = "identifier" then do
            let (v, st) ← run fm fuel (.tEvaluateExpression (some condition)) st
            .ok (.bool (jsTruthy v), st)
          else if condition.kind = "true" || condition.text = "true" then .ok (.bool true, st)
          else if condition.kind = "false" || condition.text = "false" then .ok (.bool false, st)
          else if condition.kind = "number_literal" then
            .ok (.bool (!(numEq (parseIntJS condition.text) (.num 0))), st)
          else .ok (.bool false, st)
    /- analyzeNode -/
    | .tAnalyzeNode d n =>
      if n.kind = "translation_unit" then run fm fuel (.tNodeList d n.namedChildren) st
      else if n.kind = "function_definition" then
        run fm fuel (.tAnalyzeFunctionDefinition d n) st
      else run fm fuel (.tNodeList d n.namedChildren) st
    | .tNodeList d ns =>
      match ns with
      | [] => .ok (.undef, st)
      | x :: rest => do
        let (_, st) ← run fm fuel (.tAnalyzeNode d x) st
        run fm fuel (.tNodeList d rest) st
    /- analyzeFunctionDefinition -/
    | .tAnalyzeFunctionDefinition d n =>
      let functionName := getFunctionName (n.childForFieldName "declarator")
      match n.childForFieldName "body" with
      | none => .ok (.undef, st)
      | some body => do
        let st := pushStep st { data := .pushFrame functionName, line := n.startRow + 1, branches := [] }
        let (_, st) ← run fm fuel (.tAnalyzeFunctionBody d body) st
        let st := pushStep st { data := .popFrame functionName, line := n.endRow + 1, branches := [] }
        .ok (.undef, st)
    /- analyzeFunctionBody -/
    | .tAnalyzeFunctionBody d n =>
      run fm fuel (.tStmtList d n.namedChildren) st
    | .tStmtList d ns =>
      match ns with
      | [] => .ok (.undef, st)
      | x :: rest => do
        let (_, st) ← run fm fuel (.tAnalyzeStatement d x) st
        run fm fuel (.tStmtList d rest) st
    /- analyzeStatement -/
    | .tAnalyzeStatement d n =>
      if n.kind = "declaration" then run fm fuel (.tAnalyzeDeclaration d n) st
      else if n.kind = "expression_statement" then
        match n.namedChild 0 with
        | some c =>
          if c.kind = "call_expression" then run fm fuel (.tAnalyzeFunctionCall d c none) st
          else run fm fuel (.tAnalyzeExpressionStatement d n) st
        | none => run fm fuel (.tAnalyzeExpressionStatement d n) st
      else if n.kind = "if_statement" then run fm fuel (.tAnalyzeIfStatement d n) st
      else if n.kind = "switch_statement" then run fm fuel (.tAnalyzeSwitchStatement d n) st
      else if n.kind = "while_statement" then run fm fuel (.tAnalyzeWhileStatement d n) st
      else if n.kind = "for_statement" then run fm fuel (.tAnalyzeForStatement d n) st
      else if n.kind = "return_statement" then run fm fuel (.tAnalyzeReturnStatement n) st
      else run fm fuel (.tStmtList d n.namedChildren) st
    /- analyzeDeclaration -/
    | .tAnalyzeDeclaration d n =>
      let typeTextOpt := (n.childForFieldName "type").map Node.text
      run fm fuel (.tDeclarators d (n.startRow + 1) typeTextOpt n.namedChildren) st
    | .tDeclarators d line typeTextOpt ns =>
      match ns with
      | [] => .ok (.undef, st)
      | child :: rest =>
        if child.kind = "init_declarator" then
          let declarator := child.childForFieldName "declarator"
          let value := child.childForFieldName "value"
          let varName := getVariableName (optSize declarator + 1) declarator
          let varType := getFullType (optSize declarator + 1)
            (match typeTextOpt with | some t => t | none => "unknown") declarator
          do
            let (varValue0, st) ←
              match value with
              | some v => run fm fuel (.tEvaluateExpression (some v)) st
              | none => pure (Value.str "undefined", st)
            let (address, st) := generateAddress st
            let isArray : Bool := match declarator with
              | some dd => dd.kind == "array_declarator"
              | none => false
            if isArray then do
              let sizeNode := match declarator with
                | some dd => dd.childForFieldName "size"
                | none => none
              let arraySizeV := match sizeNode with
                | some sn => parseIntJS sn.text
                | none => Value.num 0
              let (varValue, st) ←
                match value with
                | some v =>
                  if v.kind = "initializer_list" then
                    run fm fuel (.tEvalList v.namedChildren) st
                  else do
                    let a ← mkDefaultArray arraySizeV
                    pure (a, st)
                | none => do
                  let a ← mkDefaultArray arraySizeV
                  pure (a, st)
              let st := { st with variableAddresses := alSet st.variableAddresses varName address }
              let finalSize : Value :=
                if jsTruthy varValue && varValue.isArr then
                  match varValue with
                  | .arr xs => .num (xs.length : Int)
                  | _ => arraySizeV
                else arraySizeV
              let st := { st with arraySizes := alSet st.arraySizes varName (jsMul finalSize (.num 4)) }
              let vtype := match typeTextOpt with
                | some tt => tt ++ "[" ++ jsToString finalSize ++ "]"
                | none => "int[" ++ jsToString finalSize ++ "]"
              let st := pushStep st { data := .setVariable varName varValue vtype address, line := line, branches := [] }
              let st := { st with analysisVariables := alSet st.analysisVariables varName varValue }
              run fm fuel (.tDeclarators d line typeTextOpt rest) st
            else if strContains varType "*" && value.isSome then
              let finishPtr := fun (varValue : Value) (st : AState) => do
                let st := { st with variableAddresses := alSet st.variableAddresses varName address }
                let st := pushStep st { data := .setVariable varName varValue varType address, line := line, branches := [] }
                run fm fuel (.tDeclarators d line typeTextOpt rest) st
              match value with
              | none => finishPtr varValue0 st
              | some v =>
                if v.kind = "new_expression" then do
                  let argsNode := v.childForFieldName "arguments"
                  let allocType := match v.childForFieldName "type" with
                    | some tt => tt.text
                    | none => "unknown"
                  let (heapAddress, st) := generateHeapAddress st
                  let (initialValue, st) ←
                    match argsNode with
                    | some an =>
                      if an.namedChildren.length > 0 then do
                        let (val, st) ← run fm fuel (.tEvaluateExpression (an.namedChild 0)) st
                        pure ((if evalFailed val then Value.num 0 else val), st)
                      else pure (Value.num 0, st)
                    | none => pure (Value.num 0, st)
                  let (initialValue, st) ←
                    if allocType = "Node" then
                      match argsNode with
                      | some an =>
                        if an.namedChildren.length > 0 then do
                          let (val2, st) ← run fm fuel (.tEvaluateExpression (an.namedChild 0)) st
                          pure (Value.obj [("data", val2), ("next", Value.str "nullptr")], st)
                        else pure (Value.obj [("data", Value.num 0), ("next", Value.str "nullptr")], st)
                      | none => pure (Value.obj [("data", Value.num 0), ("next", Value.str "nullptr")], st)
                    else pure (initialValue, st)
                  let st := pushStep st { data := .allocateHeap heapAddress initialValue allocType, line := line, branches := [] }
                  finishPtr (Value.str heapAddress) st
                else if v.kind = "pointer_expression" then
                  match v.namedChild 0 with
                  | some target =>
                    if target.kind = "subscript_expression" then do
                      let arrayName0 := (target.childForFieldName "argument").map Node.text
                      let indexNode0 := target.childForFieldName "index"
                      let anFalsy := match arrayName0 with
                        | none => true
                        | some s => s = ""
                      let arrayName :=
                        if anFalsy && target.namedChildren.length ≥ 1 then
                          (target.namedChild 0).map Node.text
                        else arrayName0
                      let indexNode :=
                        if indexNode0.isNone && target.namedChildren.length ≥ 2 then
                          target.namedChild 1
                        else indexNode0
                      let (index, st) ←
                        match firstBracketNum target.text.toList with
                        | some i => pure (Value.num i, st)
                        | none =>
                          match indexNode with
                          | some idxN =>
                            if idxN.kind = "number_literal" then pure (parseIntJS idxN.text, st)
                            else
                              let p := parseIntJS idxN.text
                              if jsTruthy p then pure (p, st)
                              else run fm fuel (.tEvaluateExpression (some idxN)) st
                          | none => pure (Value.num 0, st)
                      match arrayName with
                      | some an2 =>
                        if an2 ≠ "" then
                          finishPtr (Value.str (an2 ++ "[" ++ jsToString index ++ "]")) st
                        else finishPtr varValue0 st
                      | none => finishPtr varValue0 st
                    else if target.kind = "identifier" then
                      finishPtr (Value.str ("&" ++ target.text)) st
                    else finishPtr varValue0 st
                  | none => finishPtr varValue0 st
                else if v.kind = "identifier" then
                  finishPtr (Value.str (v.text ++ "[0]")) st
                else finishPtr varValue0 st
            else
              match value with
              | some v =>
                if v.kind = "call_expression" then do
                  let st := { st with variableAddresses := alSet st.variableAddresses varName address }
                  let st := pushStep st { data := .setVariable varName (.str "?") varType address, line := line, branches := [] }
                  let (_, st) ← run fm fuel (.tAnalyzeFunctionCall d v (some varName)) st
                  run fm fuel (.tDeclarators d line typeTextOpt rest) st
                else do
                  let st := { st with variableAddresses := alSet st.variableAddresses varName address }
                  let st := pushStep st { data := .setVariable varName varValue0 varType address, line := line, branches := [] }
                  let st :=
                    if varValue0.isNumber then
                      { st with analysisVariables := alSet st.analysisVariables varName varValue0 }
                    else st
                  run fm fuel (.tDeclarators d line typeTextOpt rest) st
              | none => do
                let st := { st with variableAddresses := alSet st.variableAddresses varName address }
                let st := pushStep st { data := .setVariable varName varValue0 varType address, line := line, branches := [] }
                let st :=
                  if varValue0.isNumber then
                    { st with analysisVariables := alSet st.analysisVariables varName varValue0 }
                  else st
                run fm fuel (.tDeclarators d line typeTextOpt rest) st
        else run fm fuel (.tDeclarators d line typeTextOpt rest) st
    /- analyzeFunctionCall -/
    | .tAnalyzeFunctionCall d n targetVar =>
      let functionName := match n.childForFieldName "function" with
        | some f => f.text
        | none => "unknown"
      let argsNode := n.childForFieldName "arguments"
      if d > 20 then .ok (.undef, st)
      else
        match alGet fm functionName with
        | none => .ok (.undef, st)
        | some funcDef => do
          let argNodes := match argsNode with
            | some a => a.namedChildren
            | none => []
          let (argVals, st) ← run fm fuel (.tEvalList argNodes) st
          let args := match argVals with
            | .arr vs => vs.zip (argNodes.map Node.text)
            | _ => []
          let st := pushStep st { data := .call functionName args targetVar, line := n.startRow + 1, branches := [] }
          match funcDef.childForFieldName "declarator" with
          | none => .crash
          | some decl => do
            let st :=
              match decl.childForFieldName "parameters" with
              | some ps => bindParams (funcDef.startRow + 1) 0 ps.namedChildren args st
              | none => st
            let (_, st) ←
              match funcDef.childForFieldName "body" with
              | some body => run fm fuel (.tAnalyzeFunctionBody (d+1) body) st
              | none => pure (Value.undef, st)
            let st := pushStep st { data := .returnFromCall functionName targetVar, line := n.endRow + 1, branches := [] }
            .ok (.undef, st)
    /- analyzeExpressionStatement -/
    | .tAnalyzeExpressionStatement _d n =>
      if strContains n.text "cout" then
        let output := extractCoutOutput n
        .ok (.undef, pushStep st { data := .logOutput output (strContains output "\x7b"), line := n.startRow + 1, branches := [] })
      else
        match n.namedChild 0 with
        | none => .ok (.undef, st)
        | some expr =>
          if expr.kind = "assignment_expression" then
            run fm fuel (.tAnalyzeAssignment expr (n.startRow + 1)) st
          else if expr.kind = "update_expression" then
            .ok (.undef, analyzeUpdateExpression expr (n.startRow + 1) st)
          else .ok (.undef, st)
    /- analyzeAssignment -/
    | .tAnalyzeAssignment expr line =>
      match expr.childForFieldName "left", expr.childForFieldName "right" with
      | some left, some right =>
        if left.kind = "subscript_expression" then
          let arrayNode := left.childForFieldName "argument"
          let indexExpr1 := match left.childForFieldName "index" with
            | some e => some e
            | none => left.childForFieldName "subscript"
          let indexExpr2 := match indexExpr1 with
            | some e => some e
            | none =>
              if left.namedChildren.length ≥ 2 then left.namedChild 1 else none
          let indexExpr3 := match indexExpr2 with
            | some ie =>
              if ie.kind = "subscript_argument" || strStartsWith ie.text "[" then
                if ie.namedChildren.length > 0 then ie.namedChild 0 else some ie
              else some ie
            | none => none
          match arrayNode, indexExpr3 with
          | some an, some ie => do
            let (indexVal, st) ← run fm fuel (.tEvaluateExpression (some ie)) st
            let (newValue, st) ← run fm fuel (.tEvaluateExpression (some right)) st
            .ok (.undef, pushStep st { data := .updateArrayElement an.text indexVal newValue, line := line, branches := [] })
          | _, _ => .ok (.undef, st)
        else if left.kind = "pointer_expression" && strStartsWith left.text "*" then do
          let ptrName := (left.namedChild 0).map Node.text
          let (newValue, st) ← run fm fuel (.tEvaluateExpression (some right)) st
          .ok (.undef, pushStep st { data := .derefAssign ptrName newValue, line := line, branches := [] })
        else if left.kind = "field_expression" then
          match left.childForFieldName "argument", left.childForFieldName "field" with
          | some objectArg, some fieldArg => do
            let (rhsValue, st) ← run fm fuel (.tEvaluateExpression (some right)) st
            .ok (.undef, pushStep st { data := .setHeapField objectArg.text fieldArg.text rhsValue, line := line, branches := [] })
          | _, _ => .ok (.undef, st)
        else if left.kind = "identifier" then
          let varName := left.text
          let pushUpd := fun (v : Value) (st : AState) =>
            Res.ok ((Value.undef : Value), pushStep st { data := .updateVariable varName v, line := line, branches := [] })
          if right.kind = "pointer_expression" && strStartsWith right.text "&" then
            match right.namedChild 0 with
            | some targetExpr =>
              if targetExpr.kind = "subscript_expression" then
                match matchWordBracketDigits targetExpr.text with
                | some (nm, digits) => pushUpd (.str (nm ++ "[" ++ digits ++ "]")) st
                | none => .ok (.undef, st)
              else if targetExpr.kind = "identifier" then
                pushUpd (.str ("&" ++ targetExpr.text)) st
              else .ok (.undef, st)
            | none => .ok (.undef, st)
          else if right.kind = "number_literal" then
            let newValue := parseIntJS right.text
            let st :=
              if alHas st.analysisVariables varName then
                { st with analysisVariables := alSet st.analysisVariables varName newValue }
              else st
            pushUpd newValue st
          else if right.kind = "identifier" then
            pushUpd (.str (right.text ++ "[0]")) st
          else if right.kind = "binary_expression" then
            if alHas st.analysisVariables varName then
              let op := (right.childNodes.find? (fun c =>
                c.text = "+" || c.text = "-" || c.text = "*" || c.text = "/")).map Node.text
              match right.childForFieldName "left", right.childForFieldName "right", op with
              | some lo, some ro, some opv => do
                let (currentVal, st) ← run fm fuel (.tEvaluateExpression (some lo)) st
                let (delta, st) ← run fm fuel (.tEvaluateExpression (some ro)) st
                if currentVal.isNumber && delta.isNumber then
                  let nv :=
                    if opv = "+" then jsAdd currentVal delta
                    else if opv = "-" then jsSub currentVal delta
                    else if opv = "*" then jsMul currentVal delta
                    else jsFloorDiv currentVal delta
                  let st := { st with analysisVariables := alSet st.analysisVariables varName nv }
                  pushUpd nv st
                else
                  match evaluatePointerArithmetic right with
                  | some marker => pushUpd (.str marker) st
                  | none => .ok (.undef, st)
              | _, _, _ => .ok (.undef, st)
            else
              match evaluatePointerArithmetic right with
              | some marker => pushUpd (.str marker) st
              | none => .ok (.undef, st)
          else .ok (.undef, st)
        else .ok (.undef, st)
      | _, _ => .ok (.undef, st)
    /- analyzeReturnStatement -/
    | .tAnalyzeReturnStatement n => do
      let (returnValue, st) ←
        if n.namedChildren.length > 0 then
          run fm fuel (.tEvaluateExpression (n.namedChild 0)) st
        else pure (Value.null, st)
      .ok (.undef, pushStep st { data := .ret returnValue, line := n.startRow + 1, branches := [] })
    /- analyzeIfStatement -/
    | .tAnalyzeIfStatement d n => do
      let condition := n.childForFieldName "condition"
      let consequence := n.childForFieldName "consequence"
      let alternative := n.childForFieldName "alternative"
      let (conditionResult, st) ← run fm fuel (.tEvaluateCondition condition) st
      let preBranchState := st.analysisVariables
      let ifStatementIndex := st.steps.length
      let condText := match condition with | some c => c.text | none => ""
      let st := pushStep st { data := .ifStatement condText consequence.isSome alternative.isSome, line := n.startRow + 1, branches := [] }
      let st ←
        match consequence with
        | some cq => do
          let trueBranchStart := st.steps.length
          let (_, st) ← run fm fuel (.tAnalyzeCompoundOrStatement d cq) st
          pure (tagRange st trueBranchStart st.steps.length { branch := "if-true", parent := ifStatementIndex })
        | none => pure st
      let postTrueState := st.analysisVariables
      let st :=
        if conditionResult matches Value.bool false then
          { st with analysisVariables := preBranchState }
        else st
      let st ←
        match alternative with
        | some alt => do
          let falseBranchStart := st.steps.length
          let (_, st) ← run fm fuel (.tAnalyzeCompoundOrStatement d alt) st
          pure (tagRange st falseBranchStart st.steps.length { branch := "if-false", parent := ifStatementIndex })
        | none => pure st
      let st :=
        if conditionResult matches Value.bool true then
          { st with analysisVariables := postTrueState }
        else st
      .ok (.undef, st)
    /- analyzeSwitchStatement -/
    | .tAnalyzeSwitchStatement d n =>
      let condition := n.childForFieldName "condition"
      let switchVarName := match condition with
        | some c =>
          match c.namedChild 0 with
          | some v => if v.text = "" then "" else v.text
          | none => ""
        | none => ""
      let switchStepIndex := st.steps.length
      let st := pushStep st { data := .switchStatement switchVarName, line := n.startRow + 1, branches := [] }
      match n.childForFieldName "body" with
      | none => .ok (.undef, st)
      | some b => do
        let cases := b.namedChildren.filterMap (fun cn =>
          if cn.kind = "case_statement" then
            some (cn, (cn.childForFieldName "value").map Node.text)
          else none)
        let defaultCaseNode := (b.namedChildren.filter (fun cn => cn.kind = "default_statement")).getLast?
        let (_, st) ← run fm fuel (.tCaseList d switchStepIndex cases) st
        match defaultCaseNode with
        | some dn => do
          let defaultStart := st.steps.length
          let st := pushStep st { data := .enterCase (some "default"), line := dn.startRow + 1, branches := [] }
          let (_, st) ← run fm fuel (.tDefaultStmts d dn.namedChildren) st
          let st := tagRange st defaultStart st.steps.length { branch := "case-default", parent := switchStepIndex }
          .ok (.undef, st)
        | none => .ok (.undef, st)
    | .tCaseList d swIdx cs =>
      match cs with
      | [] => .ok (.undef, st)
      | (cn, caseValue) :: rest => do
        let branchStart := st.steps.length
        let st := pushStep st { data := .enterCase caseValue, line := cn.startRow + 1, branches := [] }
        let (_, st) ← run fm fuel (.tCaseStmts d cn.namedChildren) st
        let caseLabel := "case-" ++ (match caseValue with | some v => v | none => "null")
        let st := tagRange st branchStart st.steps.length { branch := caseLabel, parent := swIdx }
        run fm fuel (.tCaseList d swIdx rest) st
    | .tCaseStmts d ns =>
      match ns with
      | [] => .ok (.undef, st)
      | x :: rest =>
        if x.kind ≠ "number_literal" && x.kind ≠ "identifier" then
          if x.kind = "break_statement" then run fm fuel (.tCaseStmts d rest) st
          else do
            let (_, st) ← run fm fuel (.tAnalyzeStatement d x) st
            run fm fuel (.tCaseStmts d rest) st
        else run fm fuel (.tCaseStmts d rest) st
    | .tDefaultStmts d ns =>
      match ns with
      | [] => .ok (.undef, st)
      | x :: rest =>
        if x.kind = "break_statement" then run fm fuel (.tDefaultStmts d rest) st
        else do
          let (_, st) ← run fm fuel (.tAnalyzeStatement d x) st
          run fm fuel (.tDefaultStmts d rest) st
    /- analyzeWhileStatement -/
    | .tAnalyzeWhileStatement d n => run fm fuel (.tWhileIter d n 0) st
    | .tWhileIter d n iteration =>
      if iteration ≥ 10 then .ok (.undef, st)
      else do
        let condition := n.childForFieldName "condition"
        let (conditionResult, st) ← run fm fuel (.tEvaluateCondition condition) st
        let condText := match condition with | some c => c.text | none => ""
        let st := pushStep st { data := .evaluateLoopCondition condText conditionResult iteration, line := n.startRow + 1, branches := [] }
        if !(jsTruthy conditionResult) then .ok (.undef, st)
        else do
          let st := pushStep st { data := .enterLoop iteration, line := n.startRow + 1, branches := [] }
          let (_, st) ←
            match n.childForFieldName "body" with
            | some body => run fm fuel (.tAnalyzeCompoundOrStatement d body) st
            | none => pure (Value.undef, st)
          let exitLine := match n.childForFieldName "body" with
            | some body => body.endRow + 1
            | none => n.startRow + 1
          let st := pushStep st { data := .exitLoopIteration iteration, line := exitLine, branches := [] }
          run fm fuel (.tWhileIter d n (iteration + 1)) st
    /- analyzeForStatement -/
    | .tAnalyzeForStatement d n => do
      let st ←
        match n.childForFieldName "initializer" with
        | some ini => do
          let (_, st) ← run fm fuel (.tAnalyzeStatement d ini) st
          pure st
        | none => pure st
      run fm fuel (.tForIter d n 0) st
    | .tForIter d n iteration =>
      if iteration ≥ 10 then .ok (.undef, st)
      else do
        let condition := n.childForFieldName "condition"
        let (conditionResult, st) ←
          match condition with
          | some _ => run fm fuel (.tEvaluateCondition condition) st
          | none => pure (Value.bool true, st)
        let condText := match condition with | some c => c.text | none => "true"
        let st := pushStep st { data := .evaluateLoopCondition condText conditionResult iteration, line := n.startRow + 1, branches := [] }
        if !(jsTruthy conditionResult) then .ok (.undef, st)
        else do
          let st := pushStep st { data := .enterLoop iteration, line := n.startRow + 1, branches := [] }
          let (_, st) ←
            match n.childForFieldName "body" with
            | some body => run fm fuel (.tAnalyzeCompoundOrStatement d body) st
            | none => pure (Value.undef, st)
          let st ←
            match n.childForFieldName "update" with
            | some u =>
              if u.kind = "update_expression" then
                pure (analyzeUpdateExpression u (n.startRow + 1) st)
              else if u.kind = "assignment_expression" then do
                let (_, st) ← run fm fuel (.tAnalyzeAssignment u (n.startRow + 1)) st
                pure st
              else do
                let (_, st) ← run fm fuel (.tAnalyzeExpressionStatement d u) st
                pure st
            | none => pure st
          let exitLine := match n.childForFieldName "body" with
            | some body => body.endRow + 1
            | none => n.startRow + 1
          let st := pushStep st { data := .exitLoopIteration iteration, line := exitLine, branches := [] }
          run fm fuel (.tForIter d n (iteration + 1)) st
    /- analyzeCompoundOrStatement -/
    | .tAnalyzeCompoundOrStatement d n =>
      if n.kind = "compound_statement" then run fm fuel (.tStmtList d n.namedChildren) st
      else run fm fuel (.tAnalyzeStatement d n) st

/-- A fuel amount that strictly dominates the task measure of every task
reachable from a tree of the given size (established by the termination
theorem below). -/
def genFuel (root : Node) : Nat :=
  let S := nodeSize root
  ((21 * (S + 1) + S) * 8 + 7) * 16 + 16

/-- The state generateSteps resets before unrolling. -/
def initialAState (rand : Nat) : AState :=
  { steps := [], counter := 0x7FFE1A00, rand := rand,
    variableAddresses := [], arraySizes := [], analysisVariables := [] }

/-- generateSteps: build the function map, locate main (falling back to a
top-level traversal), unroll, and return the step list.  The rand argument
is the oracle supply for the Math.random heap-address draws. -/
def generateSteps (rand : Nat) (root : Node) : Res (List Step) :=
  let fm := populateFunctionMap root
  let fuel := genFuel root
  let result := match alGet fm "main" with
    | some mainNode => run fm fuel (.tAnalyzeNode 0 mainNode) (initialAState rand)
    | none => run fm fuel (.tAnalyzeNode 0 root) (initialAState rand)
  match result with
  | .ok (_, st) => .ok st.steps
  | .crash => .crash
  | .fuelOut => .fuelOut

/-! ## Concrete syntax trees for the witness programs -/

/-- Single-row node constructor. -/
def nd (kind text : String) (row : Nat) (cs : List (Option String × Bool × Node)) : Node :=
  Node.mk kind text row row cs

/-- A named child without a field name. -/
def nch (n : Node) : Option String × Bool × Node := (none, true, n)

/-- A named child carrying a field name. -/
def fch (f : String) (n : Node) : Option String × Bool × Node := (some f, true, n)

/-- An unnamed token child (operators and punctuation). -/
def tok (s : String) : Option String × Bool × Node := (none, false, Node.mk s s 0 0 [])

/-- A function definition named main with the given body statements. -/
def mkMain (bodyStmts : List Node) (endRow : Nat) : Node :=
  Node.mk "function_definition" "int main()" 0 endRow [
    fch "type" (nd "primitive_type" "int" 0 []),
    fch "declarator" (nd "function_declarator" "main()" 0 [
      fch "declarator" (nd "identifier" "main" 0 []),
      fch "parameters" (nd "parameter_list" "()" 0 [])]),
    fch "body" (Node.mk "compound_statement" "" 1 endRow (bodyStmts.map nch))]

/-- A translation unit. -/
def mkProgram (fns : List Node) : Node :=
  nd "translation_unit" "" 0 (fns.map nch)

/- The pointer walk-through program of C5:
   int arr[3] = {1,2,3}; int* p = arr; p++; *p = 9; -/

def c5ArrDecl : Node :=
  nd "declaration" "int arr[3] = \x7b1, 2, 3\x7d;" 1 [
    fch "type" (nd "primitive_type" "int" 1 []),
    nch (nd "init_declarator" "arr[3] = \x7b1, 2, 3\x7d" 1 [
      fch "declarator" (nd "array_declarator" "arr[3]" 1 [
        fch "declarator" (nd "identifier" "arr" 1 []),
        fch "size" (nd "number_literal" "3" 1 [])]),
      fch "value" (nd "initializer_list" "\x7b1, 2, 3\x7d" 1 [
        nch (nd "number_literal" "1" 1 []),
        nch (nd "number_literal" "2" 1 []),
        nch (nd "number_literal" "3" 1 [])])])]

def c5PtrDecl : Node :=
  nd "declaration" "int* p = arr;" 2 [
    fch "type" (nd "primitive_type" "int" 2 []),
    nch (nd "init_declarator" "p = arr" 2 [
      fch "declarator" (nd "pointer_declarator" "*p" 2 [
        nch (nd "identifier" "p" 2 [])]),
      fch "value" (nd "identifier" "arr" 2 [])])]

def c5Inc : Node :=
  nd "expression_statement" "p++;" 3 [
    nch (nd "update_expression" "p++" 3 [nch (nd "identifier" "p" 3 []), tok "++"])]

def c5Deref : Node :=
  nd "expression_statement" "*p = 9;" 4 [
    nch (nd "assignment_expression" "*p = 9" 4 [
      fch "left" (nd "pointer_expression" "*p" 4 [tok "*", nch (nd "identifier" "p" 4 [])]),
      tok "=",
      fch "right" (nd "number_literal" "9" 4 [])])]

def c5Tree : Node := mkProgram [mkMain [c5ArrDecl, c5PtrDecl, c5Inc, c5Deref] 5]

/-- The step list the unroller produces for the C5 program. -/
def c5Steps : List Step :=
  [ { data := .pushFrame "main", line := 1, branches := [] },
    { data := .setVariable "arr" (.arr [.num 1, .num 2, .num 3]) "int[3]" "0x7FFE1A00", line := 2, branches := [] },
    { data := .setVariable "p" (.str "arr[0]") "int*" "0x7FFE1A01", line := 3, branches := [] },
    { data := .pointerIncrement "p" 1, line := 4, branches := [] },
    { data := .derefAssign (some "p") (.num 9), line := 5, branches := [] },
    { data := .popFrame "main", line := 6, branches := [] } ]

example : generateSteps 0 c5Tree = .ok c5Steps := rfl

/-! ## The runtime executor

Models executeStep together with the visualization reducer it notifies
(the Effect Sink).  The sink offers reset, setStatus, pushFrame, popFrame,
setVariable, allocateHeap, freeHeap, logOutput, setLine, setStatus; it has
no updateHeap action, so the two executor branches that are guarded by
vizActions.updateHeap never fire.  Frame ids are Date.now() stamps,
modelled by the monotone clock field which survives reset (time does not
rewind). -/

structure Binding where
  value : Value
  vtype : String
  address : String

structure Frame where
  id : Nat
  name : String
  vars : List (String × Binding)

structure HeapCell where
  value : Value
  vtype : String

structure SinkState where
  stack : List Frame
  heap : List (String × HeapCell)
  output : List String
  status : String
  clock : Nat

inductive Effect where
  | reset
  | setStatus (s : String)
  | pushFrame (name : String)
  | popFrame
  | setVariable (name : String) (value : Value) (vtype : String) (address : String)
  | allocateHeap (address : String) (cell : HeapCell)
  | logOutput (text : String)

/-- The visualization reducer. -/
def applyEffect (s : SinkState) : Effect → SinkState
  | .reset => { stack := [], heap := [], output := [], status := "IDLE", clock := s.clock }
  | .setStatus st => { s with status := st }
  | .pushFrame name =>
    { s with stack := s.stack ++ [{ id := s.clock, name := name, vars := [] }],
             clock := s.clock + 1 }
  | .popFrame => { s with stack := s.stack.dropLast }
  | .setVariable name v t a =>
    match s.stack.getLast? with
    | none => s
    | some top =>
      { s with stack := s.stack.dropLast ++ [{ top with vars := alSet top.vars name ⟨v, t, a⟩ }] }
  | .allocateHeap addr cell => { s with heap := alSet s.heap addr cell }
  | .logOutput text => { s with output := s.output ++ [text] }

/-- The executor-side mutable state of InterpreterService.  The call stack
is kept most-recent-first (the source pushes and pops at the array end). -/
structure ExecState where
  rv : List (String × Binding)
  callStack : List (List (String × Binding))
  lastReturnValue : Value
  isReturning : Bool
  counter : Nat

/-- The executor shares generateAddress with the unroller (one counter). -/
def execGenAddr (es : ExecState) : String × ExecState :=
  ("0x" ++ toHexUpper es.counter, { es with counter := es.counter + 1 })

/-! ### Output-template resolution (LOG_OUTPUT) -/

/-- The double-dereference resolver for a single captured name; none means
the placeholder is left in place. -/
def doubleResolve (frame : Frame) (s : SinkState) (ptrName : String) : Option String :=
  match alGet frame.vars ptrName with
  | none => none
  | some ptrData =>
    if !(strContains ptrData.vtype "**") then none
    else
      match matchAmpName (jsToString ptrData.value) with
      | none => none
      | some intermediateVarName =>
        match alGet frame.vars intermediateVarName with
        | none => none
        | some intermediateVar =>
          if !(strContains intermediateVar.vtype "*") then none
          else
            match alGet s.heap (jsToString intermediateVar.value) with
            | some heapObj => some (jsToString heapObj.value)
            | none =>
              match matchArrayRef (jsToString intermediateVar.value) with
              | some (arrayName, index) =>
                match alGet frame.vars arrayName with
                | some arrayVar =>
                  (match arrayVar.value with
                   | .arr xs =>
                     let elem := arrayElemAt xs (.num index)
                     if elem matches .undef then none else some (jsToString elem)
                   | _ => none)
                | none => none
              | none => none

/-- The single-dereference resolver. -/
def singleResolve (frame : Frame) (s : SinkState) (ptrName : String) : Option String :=
  match alGet frame.vars ptrName with
  | none => none
  | some ptrData =>
    if strContains ptrData.vtype "*" then
      match matchArrayRef (jsToString ptrData.value) with
      | some (arrayName, index) =>
        match alGet frame.vars arrayName with
        | some arrayVar =>
          (match arrayVar.value with
           | .arr xs =>
             let elem := arrayElemAt xs (.num index)
             if elem matches .undef then none else some (jsToString elem)
           | _ => none)
        | none => none
      | none =>
        match matchAmpName (jsToString ptrData.value) with
        | some targetVarName =>
          (match alGet frame.vars targetVarName with
           | some targetVar => some (jsToString targetVar.value)
           | none => none)
        | none =>
          let found := frame.vars.find? (fun p =>
            match ptrData.value with
            | .str str => p.2.address = str
            | _ => false)
          match found with
          | some p => some (jsToString p.2.value)
          | none =>
            match alGet s.heap (jsToString ptrData.value) with
            | some heapObj => some (jsToString heapObj.value)
            | none => none
    else none

/-- The bare-name resolver. -/
def bareResolve (frame : Frame) (varName : String) : Option String :=
  (alGet frame.vars varName).map (fun b => jsToString b.value)

/-- One global regex-replace pass for a placeholder opened by pre, followed
by a word and a closing brace; unresolved placeholders are reinserted
verbatim and scanning continues after them, as String.prototype.replace
does.  The Nat argument is structural fuel (input length suffices). -/
def replacePass (pre : List Char) (res : String → Option String) : Nat → List Char → List Char
  | 0, cs => cs
  | _, [] => []
  | fuel+1, c :: rest =>
    if pre ≠ [] && listStartsWith (c :: rest) pre then
      match takeWord ((c :: rest).drop pre.length) with
      | ([], _) => c :: replacePass pre res fuel rest
      | (w, rest3) =>
        match rest3 with
        | '\x7d' :: rest4 =>
          (match res (String.mk w) with
           | some repl => repl.toList ++ replacePass pre res fuel rest4
           | none => (pre ++ w ++ ['\x7d']) ++ replacePass pre res fuel rest4)
        | _ => c :: replacePass pre res fuel rest
    else c :: replacePass pre res fuel rest

/-- The opening delimiter of a double-dereference placeholder. -/
def preDouble : List Char := ['\x7b', '*', '*']

/-- The opening delimiter of a single-dereference placeholder. -/
def preSingle : List Char := ['\x7b', '*']

/-- The opening delimiter of a bare-name placeholder. -/
def preBare : List Char := ['\x7b']

/-- The LOG_OUTPUT template resolution: double-dereference placeholders
first, then single, then bare names, against the top sink frame and the
heap. -/
def resolveLogOutput (s : SinkState) (text : String) : String :=
  if strContains text "\x7b" then
    match s.stack.getLast? with
    | some currentFrame =>
      let cs0 := text.toList
      let cs1 := replacePass preDouble (doubleResolve currentFrame s) (cs0.length + 1) cs0
      let cs2 := replacePass preSingle (singleResolve currentFrame s) (cs1.length + 1) cs1
      let cs3 := replacePass preBare (bareResolve currentFrame) (cs2.length + 1) cs2
      String.mk cs3
    | none => text
  else text

/-! ### Runtime string condition evaluation -/

/-- Characters matched by the term class [\w\[\]] of the condition regex. -/
def isTermChar (c : Char) : Bool := isWordChar c || c = '[' || c = ']'

/-- Longest prefix of term characters. -/
def takeTermChars : List Char → List Char × List Char
  | [] => ([], [])
  | c :: rest =>
    if isTermChar c then
      let (w, r) := takeTermChars rest
      (c :: w, r)
    else ([], c :: rest)

/-- Try the comparison operators in the alternation order of the source
regex. -/
def tryOps (cs : List Char) : Option (String × List Char) :=
  if listStartsWith cs ">=".toList then some (">=", cs.drop 2)
  else if listStartsWith cs "<=".toList then some ("<=", cs.drop 2)
  else if listStartsWith cs ">".toList then some (">", cs.drop 1)
  else if listStartsWith cs "<".toList then some ("<", cs.drop 1)
  else if listStartsWith cs "==".toList then some ("==", cs.drop 2)
  else if listStartsWith cs "!=".toList then some ("!=", cs.drop 2)
  else none

/-- Try to match term-operator-term at this exact position. -/
def tryCompAt (cs : List Char) : Option (String × String × String) :=
  match takeTermChars cs with
  | ([], _) => none
  | (lhs, rest1) =>
    let rest2 := rest1.dropWhile (fun c => jsWs c)
    match tryOps rest2 with
    | none => none
    | some (op, rest3) =>
      let rest4 := rest3.dropWhile (fun c => jsWs c)
      let (neg, rest5) := match rest4 with
        | '-' :: r => (true, r)
        | _ => (false, rest4)
      match takeTermChars rest5 with
      | ([], _) => none
      | (rhs, _) =>
        some (String.mk lhs, op, String.mk ((if neg then ['-'] else []) ++ rhs))

/-- Leftmost match of the comparison regex. -/
def findComparison : List Char → Option (String × String × String)
  | [] => none
  | c :: rest =>
    match tryCompAt (c :: rest) with
    | some r => some r
    | none => findComparison rest

/-- JavaScript array indexing by an arbitrary value (canonical numeric
string keys index the array). -/
def jsIndex (xs : List Value) (v : Value) : Value :=
  match v with
  | .num n => arrayElemAt xs (.num n)
  | _ =>
    let key := jsToString v
    match parseIntJS key with
    | .num n => if 0 ≤ n && toString n = key then arrayElemAt xs (.num n) else .undef
    | _ => Value.undef

/-- The evaluateTerm helper of evaluateConditionFromState; none models the
undefined result. -/
def evalTermFromState (rv : List (String × Binding)) (term : String) : Option Value :=
  match matchWordBracketWord term with
  | some (arrayName, indexTerm) =>
    match alGet rv arrayName with
    | some arrayData =>
      (match arrayData.value with
       | .arr xs =>
         (match parseIntJS indexTerm with
          | .num i => some (arrayElemAt xs (.num i))
          | _ =>
            match alGet rv indexTerm with
            | some indexVar => some (jsIndex xs indexVar.value)
            | none => none)
       | _ => none)
    | none => none
  | none =>
    match alGet rv term with
    | some varData => some varData.value
    | none =>
      match parseIntJS term with
      | .num k => some (.num k)
      | _ => none

/-- evaluateConditionFromState: strip parentheses, find the first binary
comparison, evaluate both terms against the runtime variable map. -/
def evaluateConditionFromState (es : ExecState) (conditionString : String) : Bool :=
  if es.rv.length = 0 then false
  else
    let cond := jsTrim (removeChars ['(', ')'] conditionString)
    match findComparison cond.toList with
    | some (leftExpr, op, rightExpr) =>
      (match evalTermFromState es.rv leftExpr, evalTermFromState es.rv rightExpr with
       | some lv, some rv2 =>
         if (lv matches .undef) || (rv2 matches .undef) then false
         else
           if op = ">" then numGt (jsToNumber lv) (jsToNumber rv2)
           else if op = "<" then numLt (jsToNumber lv) (jsToNumber rv2)
           else if op = ">=" then numGe (jsToNumber lv) (jsToNumber rv2)
           else if op = "<=" then numLe (jsToNumber lv) (jsToNumber rv2)
           else if op = "==" then jsLooseEq lv rv2
           else if op = "!=" then !(jsLooseEq lv rv2)
           else false
       | _, _ => false)
    | none => false

/-! ### executeStep -/

/-- JavaScript array assignment at a nonnegative index, extending a short
array with undefined holes. -/
def setElem (xs : List Value) (idx : Int) (v : Value) : List Value :=
  let i := idx.toNat
  if i < xs.length then xs.set i v
  else xs ++ List.replicate (i - xs.length) Value.undef ++ [v]

/-- Resolution of the __PTR_ARITH__ marker inside UPDATE_VARIABLE. -/
def resolvePtrArith (es : ExecState) (newValue : Value) : Value :=
  match newValue with
  | .str str =>
    if strStartsWith str "__PTR_ARITH__" then
      let parts := strSplitOn str "__"
      match parts.get? 2, parts.get? 3, parts.get? 4 with
      | some ptrName, some op, some offStr =>
        let offset := parseIntJS offStr
        (match alGet es.rv ptrName with
         | some ptrData =>
           (match matchArrayRef (jsToString ptrData.value) with
            | some (arrayName, currentIndex) =>
              let newIndex :=
                if op = "+" then jsAdd (.num currentIndex) offset
                else jsSub (.num currentIndex) offset
              .str (arrayName ++ "[" ++ jsToString newIndex ++ "]")
            | none => newValue)
         | none => newValue)
      | _, _, _ => newValue
    else newValue
  | _ => newValue

/-- One executor step: updates the interpreter state, applies the emitted
effects to the sink, and reports the emitted effect list. -/
def executeStep (step : Step) (es : ExecState) (s : SinkState) :
    ExecState × SinkState × List Effect :=
  match step.data with
  | .pushFrame name =>
    (es, applyEffect s (.pushFrame name), [.pushFrame name])
  | .call name _args _tv =>
    ({ es with callStack := es.rv :: es.callStack, rv := [] },
     applyEffect s (.pushFrame name), [.pushFrame name])
  | .paramInit name value vtype =>
    let (a1, es) := execGenAddr es
    let es := { es with rv := alSet es.rv name ⟨value, vtype, a1⟩ }
    let (a2, es) := execGenAddr es
    (es, applyEffect s (.setVariable name value vtype a2),
     [.setVariable name value vtype a2])
  | .returnFromCall _name targetVar =>
    let s := applyEffect s .popFrame
    let es := match es.callStack with
      | top :: rest => { es with rv := top, callStack := rest }
      | [] => es
    let finish := fun (es : ExecState) (s : SinkState) (effs : List Effect) =>
      ({ es with lastReturnValue := .null, isReturning := false }, s, Effect.popFrame :: effs)
    (match targetVar with
     | some tv =>
       if tv ≠ "" && !(es.lastReturnValue matches .undef) then
         match alGet es.rv tv with
         | some existingVar =>
           let es := { es with rv := alSet es.rv tv { existingVar with value := es.lastReturnValue } }
           let eff := Effect.setVariable tv es.lastReturnValue existingVar.vtype existingVar.address
           finish es (applyEffect s eff) [eff]
         | none => finish es s []
       else finish es s []
     | none => finish es s [])
  | .popFrame _ =>
    (es, applyEffect s .popFrame, [.popFrame])
  | .setVariable name value vtype address =>
    let es := { es with rv := alSet es.rv name ⟨value, vtype, address⟩ }
    (es, applyEffect s (.setVariable name value vtype address),
     [.setVariable name value vtype address])
  | .logOutput text _needs =>
    let resolved := resolveLogOutput s text
    (es, applyEffect s (.logOutput resolved), [.logOutput resolved])
  | .updateVariable name value =>
    (match alGet es.rv name with
     | none => (es, s, [])
     | some varData =>
       let newValue := resolvePtrArith es value
       let es := { es with rv := alSet es.rv name { varData with value := newValue } }
       let eff := Effect.setVariable name newValue varData.vtype varData.address
       (es, applyEffect s eff, [eff]))
  | .allocateHeap address value vtype =>
    (es, applyEffect s (.allocateHeap address ⟨value, vtype⟩),
     [.allocateHeap address ⟨value, vtype⟩])
  | .pointerIncrement name delta =>
    (match alGet es.rv name with
     | none => (es, s, [])
     | some ptrData =>
       match matchArrayRef (jsToString ptrData.value) with
       | some (arrayName, currentIndex) =>
         let newValue := Value.str (arrayName ++ "[" ++ toString (currentIndex + delta) ++ "]")
         let es := { es with rv := alSet es.rv name { ptrData with value := newValue } }
         let eff := Effect.setVariable name newValue ptrData.vtype ptrData.address
         (es, applyEffect s eff, [eff])
       | none =>
         match ptrData.value with
         | .num v =>
           let newValue := Value.num (v + delta)
           let es := { es with rv := alSet es.rv name { ptrData with value := newValue } }
           let eff := Effect.setVariable name newValue ptrData.vtype ptrData.address
           (es, applyEffect s eff, [eff])
         | _ => (es, s, []))
  | .derefAssign ptrNameOpt value =>
    (match ptrNameOpt with
     | none => (es, s, [])
     | some pn =>
       match alGet es.rv pn with
       | none => (es, s, [])
       | some ptrData =>
         match matchArrayRef (jsToString ptrData.value) with
         | some (arrayName, index) =>
           (match alGet es.rv arrayName with
            | some arrayVar =>
              (match arrayVar.value with
               | .arr xs =>
                 let newArray := Value.arr (setElem xs index value)
                 let es := { es with rv := alSet es.rv arrayName { arrayVar with value := newArray } }
                 let eff := Effect.setVariable arrayName newArray arrayVar.vtype arrayVar.address
                 (es, applyEffect s eff, [eff])
               | _ => (es, s, []))
            | none => (es, s, []))
         | none =>
           if strStartsWith (jsToString ptrData.value) "&" then
             let targetVarName := String.mk ((jsToString ptrData.value).toList.drop 1)
             match alGet es.rv targetVarName with
             | some targetVar =>
               let es := { es with rv := alSet es.rv targetVarName { targetVar with value := value } }
               let eff := Effect.setVariable targetVarName value targetVar.vtype targetVar.address
               (es, applyEffect s eff, [eff])
             | none => (es, s, [])
           else (es, s, []))
  | .setHeapField _ _ _ => (es, s, [])
  | .updateArrayElement _ _ _ => (es, s, [])
  | .ifStatement _ _ _ => (es, s, [])
  | .switchStatement _ => (es, s, [])
  | .enterCase _ => (es, s, [])
  | .evaluateLoopCondition _ _ _ => (es, s, [])
  | .enterLoop _ => (es, s, [])
  | .exitLoopIteration _ => (es, s, [])
  | .ret value =>
    if !(value matches .undef) then
      ({ es with lastReturnValue := value, isReturning := true }, s, [])
    else ({ es with isReturning := true }, s, [])

/-! ### The two replay loops -/

/-- The editor replay loop: execute the steps in order, no suppression. -/
def replaySteps : List Step → ExecState → SinkState → ExecState × SinkState × List Effect
  | [], es, s => (es, s, [])
  | stp :: rest, es, s =>
    let (es2, s2, effs) := executeStep stp es s
    let (es3, s3, effs2) := replaySteps rest es2 s2
    (es3, s3, effs ++ effs2)

/-- handleStepBack seek-to-index: reset the sink (interpreter state is NOT
reset), set status, replay steps 0..k-1. -/
def seek (steps : List Step) (k : Nat) (es : ExecState) (s : SinkState) :
    ExecState × SinkState × List Effect :=
  replaySteps (steps.take k)
    es (applyEffect (applyEffect s .reset) (.setStatus "RUNNING"))

/-- A freshly constructed interpreter. -/
def cleanExec (counter : Nat) : ExecState :=
  { rv := [], callStack := [], lastReturnValue := .null, isReturning := false, counter := counter }

/-- An initial sink (the clock parameter is the current wall time). -/
def initialSink (clock : Nat) : SinkState :=
  { stack := [], heap := [], output := [], status := "IDLE", clock := clock }

/-! ### The autoplay loop with branch suppression (executeSteps) -/

/-- Should this step be skipped, given the branch decisions so far?  A
step with tags is skipped when any tag names the branch recorded as
skipped for its owner. -/
def shouldSkip (branches : List BranchTag) (skip : List (Nat × String)) : Bool :=
  branches.length > 0 &&
    branches.any (fun t =>
      match alGet skip t.parent with
      | some b => b = t.branch
      | none => false)

/-- State of the executeSteps loop. -/
structure AutoState where
  skip : List (Nat × String)
  es : ExecState
  sink : SinkState
  executed : List Nat
  effects : List Effect

/-- One iteration of executeSteps: skip check, then IF_STATEMENT branch
decision, then executeStep. -/
def autoStep (steps : List Step) (i : Nat) (a : AutoState) : AutoState :=
  match steps.get? i with
  | none => a
  | some step =>
    if shouldSkip step.branches a.skip then a
    else
      let skip2 := match step.data with
        | .ifStatement cond _ _ =>
          if evaluateConditionFromState a.es cond then alSet a.skip i "if-false"
          else alSet a.skip i "if-true"
        | _ => a.skip
      let (es2, s2, effs) := executeStep step a.es a.sink
      { skip := skip2, es := es2, sink := s2,
        executed := a.executed ++ [i], effects := a.effects ++ effs }

/-- The loop state after the first n iterations of executeSteps. -/
def autoPrefix (steps : List Step) (es0 : ExecState) (s0 : SinkState) : Nat → AutoState
  | 0 => { skip := [], es := es0, sink := s0, executed := [], effects := [] }
  | n+1 => autoStep steps n (autoPrefix steps es0 s0 n)

/-- The completed executeSteps run. -/
def runAuto (steps : List Step) (es0 : ExecState) (s0 : SinkState) : AutoState :=
  autoPrefix steps es0 s0 steps.length

example :
    (alGet (replaySteps c5Steps (cleanExec 0x7FFE1A02) (initialSink 0)).1.rv "arr").map Binding.value
      = some (.arr [.num 1, .num 9, .num 3]) := rfl

example :
    (alGet (replaySteps c5Steps (cleanExec 0x7FFE1A02) (initialSink 0)).1.rv "p").map Binding.value
      = some (.str "arr[1]") := rfl

/-! ## Claim C5 -/

/-- The executor run over the C5 step list from a clean interpreter whose
address counter sits where unrolling left it; like the editor autoplay
loop, the run stops before the final POP_FRAME so the frame stays
visible. -/
def c5Run : ExecState × SinkState × List Effect :=
  replaySteps c5Steps.dropLast (cleanExec 0x7FFE1A02) (initialSink 0)

/-- C5: for the program int arr[3]=\x7b1,2,3\x7d; int* p=arr; p++; *p=9; the
unroller decays the bare array initializer to the element reference arr[0],
the pointer-increment step moves p from arr[0] to arr[1], and the
deref-store step mutates exactly index 1, leaving the recorded state of arr
as [1,9,3] both in the runtime variable map and in the Effect Sink frame. -/
theorem C5_pointer_walkthrough :
    generateSteps 0 c5Tree = .ok c5Steps ∧
    (c5Steps.map Step.data).get? 2 = some (.setVariable "p" (.str "arr[0]") "int*" "0x7FFE1A01") ∧
    (alGet c5Run.1.rv "p").map Binding.value = some (.str "arr[1]") ∧
    (alGet c5Run.1.rv "arr").map Binding.value = some (.arr [.num 1, .num 9, .num 3]) ∧
    (c5Run.2.1.stack.getLast?).map (fun f => (alGet f.vars "arr").map Binding.value)
      = some (some (.arr [.num 1, .num 9, .num 3])) :=
  ⟨rfl, rfl, rfl, rfl, rfl⟩

/-! ## Claim C9 -/

/-- Division of a by negSucc n is euclidean division of the negations. -/
theorem fdiv_negSucc (a : Int) (n : Nat) :
    Int.fdiv a (Int.negSucc n) = (-a) / (Int.ofNat (n+1)) := by
  rcases a with (_ | m) | m
  · simp [Int.fdiv]
  · rfl
  · show Int.fdiv (Int.negSucc m) (Int.negSucc n) = -(Int.negSucc m) / Int.ofNat (n+1)
    simp only [Int.fdiv, Int.neg_negSucc]
    rfl

/-- Int.fdiv is the floor of the rational quotient. -/
theorem fdiv_eq_rat_floor (a b : Int) (h : b ≠ 0) :
    Int.fdiv a b = ⌊(a : ℚ) / (b : ℚ)⌋ := by
  rcases b with (_ | n) | n
  · exact absurd rfl h
  · rw [Int.fdiv_eq_ediv _ (by exact Int.ofNat_nonneg _)]
    have h2 : ((Int.ofNat (n+1) : Int) : ℚ) = ((n+1 : ℕ) : ℚ) := by norm_cast
    rw [h2, Rat.floor_intCast_div_natCast]
    rfl
  · rw [fdiv_negSucc]
    have h3 : ((a : ℚ) / ((Int.negSucc n : Int) : ℚ)) = ((-a : ℤ) : ℚ) / ((n+1 : ℕ) : ℚ) := by
      rw [Int.negSucc_eq]
      push_cast
      rw [div_eq_div_iff (by nlinarith) (by positivity)]
      ring
    rw [h3, Rat.floor_intCast_div_natCast]
    rfl

/-- The expression (-7) / 2 as a syntax tree. -/
def c9DivNode : Node :=
  nd "binary_expression" "-7 / 2" 0 [
    fch "left" (nd "number_literal" "-7" 0 []),
    (some "operator", false, Node.mk "/" "/" 0 0 []),
    fch "right" (nd "number_literal" "2" 0 [])]

/-- The assignment x = x / 2 as a syntax tree. -/
def c9AssignNode : Node :=
  nd "assignment_expression" "x = x / 2" 0 [
    fch "left" (nd "identifier" "x" 0 []),
    tok "=",
    fch "right" (nd "binary_expression" "x / 2" 0 [
      fch "left" (nd "identifier" "x" 0 []),
      tok "/",
      fch "right" (nd "number_literal" "2" 0 [])])]

/-- Analysis state tracking x = -7. -/
def c9State : AState :=
  { initialAState 0 with analysisVariables := [("x", .num (-7))] }

/-- C9: every division the expression evaluator and the assignment
arithmetic perform on two numeric operands goes through jsFloorDiv, which
on integer operands with a nonzero divisor is the floor of the real
quotient (rounding toward negative infinity); evaluating (-7)/2 therefore
yields -4, both in evaluateExpression and in analyzeAssignment, whereas
C-style truncating division of the same operands yields -3. -/
theorem C9_division_is_floor (a b : Int) (h : b ≠ 0) :
    jsFloorDiv (.num a) (.num b) = .num ⌊(a : ℚ) / (b : ℚ)⌋ ∧
    run [] 9 (.tEvaluateExpression (some c9DivNode)) (initialAState 0)
      = .ok (.num (-4), initialAState 0) ∧
    (match run [] 9 (.tAnalyzeAssignment c9AssignNode 5) c9State with
     | .ok (_, st2) => st2.steps.map Step.data
     | _ => []) = [.updateVariable "x" (.num (-4))] ∧
    Int.tdiv (-7) 2 = -3 ∧ Int.fdiv (-7) 2 = -4 := by
  refine ⟨?_, rfl, rfl, rfl, rfl⟩
  simp only [jsFloorDiv, if_neg h, fdiv_eq_rat_floor a b h]

/-- Witness for C9 at the concrete operands (-7, 2). -/
theorem C9_division_is_floor_witness :
    jsFloorDiv (.num (-7)) (.num 2) = .num ⌊((-7 : Int) : ℚ) / ((2 : Int) : ℚ)⌋ ∧
    run [] 9 (.tEvaluateExpression (some c9DivNode)) (initialAState 0)
      = .ok (.num (-4), initialAState 0) ∧
    (match run [] 9 (.tAnalyzeAssignment c9AssignNode 5) c9State with
     | .ok (_, st2) => st2.steps.map Step.data
     | _ => []) = [.updateVariable "x" (.num (-4))] ∧
    Int.tdiv (-7) 2 = -3 ∧ Int.fdiv (-7) 2 = -4 :=
  C9_division_is_floor (-7) 2 (by decide)

/-! ## Claim C10 -/

/-- A call to the undefined function foo. -/
def c10CallStmt : Node :=
  nd "expression_statement" "foo();" 1 [
    nch (nd "call_expression" "foo()" 1 [
      fch "function" (nd "identifier" "foo" 1 []),
      fch "arguments" (nd "argument_list" "()" 1 [])])]

/-- int x = 1; -/
def c10Decl : Node :=
  nd "declaration" "int x = 1;" 2 [
    fch "type" (nd "primitive_type" "int" 2 []),
    nch (nd "init_declarator" "x = 1" 2 [
      fch "declarator" (nd "identifier" "x" 2 []),
      fch "value" (nd "number_literal" "1" 2 [])])]

/-- main() \x7b foo(); int x = 1; \x7d  (foo is never defined). -/
def c10TreeWithCall : Node := mkProgram [mkMain [c10CallStmt, c10Decl] 3]

/-- main() \x7b int x = 1; \x7d -/
def c10TreeNoCall : Node := mkProgram [mkMain [c10Decl] 3]

/-- C10: a call expression whose callee has no entry in the function symbol
table unrolls to nothing: analyzeFunctionCall returns with the state (and
so the step list) exactly as it was, and unrolling continues with the
following statement, so the program with the unknown call produces exactly
the steps of the program without it. -/
theorem C10_unknown_call_no_steps :
    (∀ (fm : List (String × Node)) (fuel d : Nat) (n : Node) (tv : Option String) (st : AState),
       alGet fm (match n.childForFieldName "function" with
                 | some f => f.text
                 | none => "unknown") = none →
       run fm (fuel+1) (.tAnalyzeFunctionCall d n tv) st = .ok (.undef, st)) ∧
    generateSteps 0 c10TreeWithCall = generateSteps 0 c10TreeNoCall ∧
    (match generateSteps 0 c10TreeWithCall with
     | .ok l => l.map Step.data
     | _ => []) =
      [.pushFrame "main",
       .setVariable "x" (.num 1) "int" "0x7FFE1A00",
       .popFrame "main"] := by
  refine ⟨?_, ?_, rfl⟩
  · intro fm fuel d n tv st h
    simp only [run]
    split
    · rfl
    · rw [h]
  · have h1 : generateSteps 0 c10TreeWithCall = .ok
      [{ data := .pushFrame "main", line := 1, branches := [] },
       { data := .setVariable "x" (.num 1) "int" "0x7FFE1A00", line := 3, branches := [] },
       { data := .popFrame "main", line := 4, branches := [] }] := rfl
    have h2 : generateSteps 0 c10TreeNoCall = .ok
      [{ data := .pushFrame "main", line := 1, branches := [] },
       { data := .setVariable "x" (.num 1) "int" "0x7FFE1A00", line := 3, branches := [] },
       { data := .popFrame "main", line := 4, branches := [] }] := rfl
    rw [h1, h2]

/-- Witness for C10 at the concrete unknown call node foo(). -/
theorem C10_unknown_call_no_steps_witness :
    run [] 6 (.tAnalyzeFunctionCall 0
        (nd "call_expression" "foo()" 1 [
          fch "function" (nd "identifier" "foo" 1 []),
          fch "arguments" (nd "argument_list" "()" 1 [])]) none) (initialAState 0)
      = .ok (.undef, initialAState 0) :=
  C10_unknown_call_no_steps.1 [] 5 0 _ none (initialAState 0) rfl

/-! ## Replace-pass lemmas shared by C6 and C7 -/

/-- A pass whose opening delimiter is a brace leaves brace-free text
unchanged. -/
theorem replacePass_no_open {pre2 : List Char} {res : String → Option String} :
    ∀ {fuel : Nat} {cs : List Char}, (∀ c ∈ cs, c ≠ '\x7b') →
    replacePass ('\x7b' :: pre2) res fuel cs = cs := by
  intro fuel
  induction fuel with
  | zero => intro cs _; cases cs <;> rfl
  | succ f ih =>
    intro cs h
    cases cs with
    | nil => rfl
    | cons c rest =>
      have hc : c ≠ '\x7b' := h c (List.mem_cons_self _ _)
      have hs : listStartsWith (c :: rest) ('\x7b' :: pre2) = false := by
        simp [listStartsWith, hc]
      simp only [replacePass, hs, Bool.and_false, Bool.false_eq_true, ite_false]
      rw [ih (fun c2 hc2 => h c2 (List.mem_cons_of_mem _ hc2))]

/-- Word characters are not braces or stars. -/
theorem isWordChar_ne (c : Char) (h : isWordChar c = true) :
    c ≠ '\x7b' ∧ c ≠ '\x7d' ∧ c ≠ '*' := by
  refine ⟨?_, ?_, ?_⟩ <;> rintro rfl <;> simp [isWordChar] at h

/-- takeWord splits an all-word prefix at the first non-word character. -/
theorem takeWord_append_stop {w rest : List Char} (hw : ∀ c ∈ w, isWordChar c = true)
    (hr : ∀ c, rest.head? = some c → isWordChar c = false) :
    takeWord (w ++ rest) = (w, rest) := by
  induction w with
  | nil =>
    cases rest with
    | nil => rfl
    | cons c r => simp [takeWord, hr c rfl]
  | cons c w2 ih =>
    have h1 : isWordChar c = true := hw c (List.mem_cons_self _ _)
    have h2 := ih (fun c2 hc2 => hw c2 (List.mem_cons_of_mem _ hc2))
    simp [takeWord, h1, h2]

/-- replacePass on an empty list. -/
theorem replacePass_nil (pre : List Char) (res : String → Option String) (fuel : Nat) :
    replacePass pre res fuel [] = [] := by
  cases fuel <;> rfl

/-! ## Claim C7 -/

/-- A sink frame used by the C6/C7 output-resolution statements. -/
def c6Frame : Frame :=
  { id := 0, name := "main",
    vars := [("arr", ⟨.arr [.num 10, .num 20, .num 30], "int[3]", "0x7FFE1A00"⟩),
             ("p", ⟨.str "arr[1]", "int*", "0x7FFE1A01"⟩),
             ("handle", ⟨.str "&p", "int**", "0x7FFE1A02"⟩)] }

/-- A sink whose stack holds that frame. -/
def c6Sink : SinkState :=
  { stack := [c6Frame], heap := [], output := [], status := "RUNNING", clock := 1 }

/-- C7: the four mutation step kinds (variable update, pointer increment,
deref-store, heap-field set) whose named pointer or variable is absent from
the runtime map leave the interpreter state, the scope stack and the heap
untouched and forward nothing to the Effect Sink — executeStep is a total
function, so nothing is thrown and execution proceeds with the next step —
and an output placeholder naming an unbound variable is reinserted
verbatim. -/
theorem C7_unresolved_references_nonfatal :
    (∀ (es : ExecState) (s : SinkState) (name : String) (v : Value) (line : Nat)
       (br : List BranchTag),
       alGet es.rv name = none →
       executeStep { data := .updateVariable name v, line := line, branches := br } es s
         = (es, s, [])) ∧
    (∀ (es : ExecState) (s : SinkState) (name : String) (delta : Int) (line : Nat)
       (br : List BranchTag),
       alGet es.rv name = none →
       executeStep { data := .pointerIncrement name delta, line := line, branches := br } es s
         = (es, s, [])) ∧
    (∀ (es : ExecState) (s : SinkState) (pn : String) (v : Value) (line : Nat)
       (br : List BranchTag),
       alGet es.rv pn = none →
       executeStep { data := .derefAssign (some pn) v, line := line, branches := br } es s
         = (es, s, [])) ∧
    (∀ (es : ExecState) (s : SinkState) (pn fieldName : String) (v : Value) (line : Nat)
       (br : List BranchTag),
       alGet es.rv pn = none →
       executeStep { data := .setHeapField pn fieldName v, line := line, branches := br } es s
         = (es, s, [])) ∧
    resolveLogOutput c6Sink "\x7bq\x7d = \x7bw\x7d" = "\x7bq\x7d = \x7bw\x7d" := by
  refine ⟨?_, ?_, ?_, ?_, rfl⟩
  · intro es s name v line br h
    simp [executeStep, h]
  · intro es s name delta line br h
    simp [executeStep, h]
  · intro es s pn v line br h
    simp [executeStep, h]
  · intro es s pn fieldName v line br _h
    simp [executeStep]

/-- Witness for C7: a clean interpreter has no binding for ptr, so each of
the four mutation steps is a no-op. -/
theorem C7_unresolved_references_nonfatal_witness :
    executeStep { data := .updateVariable "ptr" (.num 5), line := 1, branches := [] }
        (cleanExec 0) (initialSink 0) = (cleanExec 0, initialSink 0, []) ∧
    executeStep { data := .pointerIncrement "ptr" 1, line := 1, branches := [] }
        (cleanExec 0) (initialSink 0) = (cleanExec 0, initialSink 0, []) ∧
    executeStep { data := .derefAssign (some "ptr") (.num 5), line := 1, branches := [] }
        (cleanExec 0) (initialSink 0) = (cleanExec 0, initialSink 0, []) ∧
    executeStep { data := .setHeapField "ptr" "data" (.num 5), line := 1, branches := [] }
        (cleanExec 0) (initialSink 0) = (cleanExec 0, initialSink 0, []) :=
  ⟨C7_unresolved_references_nonfatal.1 (cleanExec 0) (initialSink 0) "ptr" (.num 5) 1 [] rfl,
   C7_unresolved_references_nonfatal.2.1 (cleanExec 0) (initialSink 0) "ptr" 1 1 [] rfl,
   C7_unresolved_references_nonfatal.2.2.1 (cleanExec 0) (initialSink 0) "ptr" (.num 5) 1 [] rfl,
   C7_unresolved_references_nonfatal.2.2.2.1 (cleanExec 0) (initialSink 0) "ptr" "data" (.num 5) 1 [] rfl⟩

/-! ## Claim C6 -/

/-- The double pass of the LOG_OUTPUT resolution, as a string function. -/
def doublePassStr (f : Frame) (s : SinkState) (t : String) : String :=
  String.mk (replacePass preDouble (doubleResolve f s) (t.toList.length + 1) t.toList)

/-- The single pass. -/
def singlePassStr (f : Frame) (s : SinkState) (t : String) : String :=
  String.mk (replacePass preSingle (singleResolve f s) (t.toList.length + 1) t.toList)

/-- The bare-name pass. -/
def barePassStr (f : Frame) (t : String) : String :=
  String.mk (replacePass preBare (bareResolve f) (t.toList.length + 1) t.toList)

/-- C6: LOG_OUTPUT resolution is the bare pass after the single pass after
the double pass (double-dereference placeholders are substituted first,
then single, then bare names), and a double placeholder is never consumed
by the later rules: the single and bare passes return it untouched.  On the
concrete double-pointer state, the double placeholder resolves through the
pointer chain. -/
theorem C6_placeholder_order (f : Frame) (s : SinkState) (x : String)
    (hw : ∀ c ∈ x.toList, isWordChar c = true) :
    (∀ t, strContains t "\x7b" = true → s.stack.getLast? = some f →
       resolveLogOutput s t = barePassStr f (singlePassStr f s (doublePassStr f s t))) ∧
    singlePassStr f s ("\x7b**" ++ x ++ "\x7d") = "\x7b**" ++ x ++ "\x7d" ∧
    barePassStr f ("\x7b**" ++ x ++ "\x7d") = "\x7b**" ++ x ++ "\x7d" ∧
    resolveLogOutput c6Sink "Value: \x7b**handle\x7d" = "Value: 20" := by
  have hlist : ("\x7b**" ++ x ++ "\x7d").toList
      = '\x7b' :: '*' :: '*' :: (x.toList ++ ['\x7d']) := by
    simp [String.toList, String.data_append]
  have hnob : ∀ c ∈ '*' :: '*' :: (x.toList ++ ['\x7d']), c ≠ '\x7b' := by
    intro c hc
    rcases hc with _ | ⟨_, hc⟩
    · decide
    rcases hc with _ | ⟨_, hc⟩
    · decide
    · rcases List.mem_append.mp hc with h1 | h1
      · exact (isWordChar_ne c (hw c h1)).1
      · simp at h1
        subst h1
        decide
  refine ⟨?_, ?_, ?_, rfl⟩
  · intro t hc htop
    unfold resolveLogOutput
    rw [hc, if_pos rfl, htop]
    rfl
  · unfold singlePassStr
    rw [hlist]
    have h1 : ∀ (N : Nat) (T : List Char),
        replacePass preSingle (singleResolve f s) (N+1) ('\x7b' :: '*' :: '*' :: T)
          = '\x7b' :: replacePass preSingle (singleResolve f s) N ('*' :: '*' :: T) :=
      fun N T => rfl
    rw [h1, show preSingle = '\x7b' :: ['*'] from rfl, replacePass_no_open hnob, ← hlist]
    rfl
  · unfold barePassStr
    rw [hlist]
    have h1 : ∀ (N : Nat) (T : List Char),
        replacePass preBare (bareResolve f) (N+1) ('\x7b' :: '*' :: '*' :: T)
          = '\x7b' :: replacePass preBare (bareResolve f) N ('*' :: '*' :: T) :=
      fun N T => rfl
    rw [h1, show preBare = '\x7b' :: [] from rfl, replacePass_no_open hnob, ← hlist]
    rfl

/-- Witness for C6 at the concrete double-pointer frame. -/
theorem C6_placeholder_order_witness :
    resolveLogOutput c6Sink "\x7bp\x7d"
      = barePassStr c6Frame (singlePassStr c6Frame c6Sink (doublePassStr c6Frame c6Sink "\x7bp\x7d")) ∧
    singlePassStr c6Frame c6Sink "\x7b**handle\x7d" = "\x7b**handle\x7d" ∧
    barePassStr c6Frame "\x7b**handle\x7d" = "\x7b**handle\x7d" :=
  ⟨(C6_placeholder_order c6Frame c6Sink "handle" (by decide)).1 "\x7bp\x7d" rfl rfl,
   (C6_placeholder_order c6Frame c6Sink "handle" (by decide)).2.1,
   (C6_placeholder_order c6Frame c6Sink "handle" (by decide)).2.2.1⟩

/-! ## Claim C2 -/

/-- Does this step payload mark an if decision point? -/
def isIfMarker : StepData → Bool
  | .ifStatement _ _ _ => true
  | _ => false

/-- Membership in an association map after a set: the pair is the new
binding or was already present. -/
theorem alSet_mem {κ a : Type} [DecidableEq κ] {m : List (κ × a)} {k p : κ} {v b : a}
    (h : (p, b) ∈ alSet m k v) : (p = k ∧ b = v) ∨ (p, b) ∈ m := by
  induction m with
  | nil =>
    simp [alSet] at h
    exact Or.inl ⟨h.1, h.2⟩
  | cons hd tl ih =>
    obtain ⟨k2, v2⟩ := hd
    rw [alSet] at h
    by_cases hk : k2 = k
    · rw [if_pos hk] at h
      rcases List.mem_cons.mp h with h1 | h2
      · exact Or.inl ⟨congrArg Prod.fst h1, congrArg Prod.snd h1⟩
      · exact Or.inr (List.mem_cons_of_mem _ h2)
    · rw [if_neg hk] at h
      rcases List.mem_cons.mp h with h1 | h2
      · exact Or.inr (List.mem_cons.mpr (Or.inl h1))
      · rcases ih h2 with h3 | h4
        · exact Or.inl h3
        · exact Or.inr (List.mem_cons_of_mem _ h4)

/-- Every entry the executeSteps loop ever records in its skip map names an
if branch and points at an IF_STATEMENT step: the loop has no arm that
records case labels. -/
theorem skip_entries_from_if (steps : List Step) (es0 : ExecState) (s0 : SinkState) :
    ∀ (n p : Nat) (b : String), (p, b) ∈ (autoPrefix steps es0 s0 n).skip →
      (b = "if-true" ∨ b = "if-false") ∧
        ∃ stp, steps.get? p = some stp ∧ isIfMarker stp.data = true := by
  intro n
  induction n with
  | zero =>
    intro p b h
    simp [autoPrefix] at h
  | succ n ih =>
    intro p b h
    rw [autoPrefix, autoStep] at h
    split at h
    · exact ih p b h
    · rename_i step heq
      split at h
      · exact ih p b h
      · rcases hE : executeStep step (autoPrefix steps es0 s0 n).es (autoPrefix steps es0 s0 n).sink
          with ⟨es2, s2, effs⟩
        rw [hE] at h
        simp only [] at h
        split at h
        · rename_i cond hT hF heq2
          split at h
          · rcases alSet_mem h with ⟨rfl, rfl⟩ | h2
            · exact ⟨Or.inr rfl, step, heq, by rw [heq2]; rfl⟩
            · exact ih p b h2
          · rcases alSet_mem h with ⟨rfl, rfl⟩ | h2
            · exact ⟨Or.inl rfl, step, heq, by rw [heq2]; rfl⟩
            · exact ih p b h2
        · exact ih p b h

/- The C2 program:
   int x = 2; switch (x) { case 1: x = 10; break; default: x = 99; } -/

def c2Decl : Node :=
  nd "declaration" "int x = 2;" 1 [
    fch "type" (nd "primitive_type" "int" 1 []),
    nch (nd "init_declarator" "x = 2" 1 [
      fch "declarator" (nd "identifier" "x" 1 []),
      fch "value" (nd "number_literal" "2" 1 [])])]

def c2Case1 : Node :=
  nd "case_statement" "case 1: x = 10; break;" 3 [
    fch "value" (nd "number_literal" "1" 3 []),
    nch (nd "expression_statement" "x = 10;" 4 [
      nch (nd "assignment_expression" "x = 10" 4 [
        fch "left" (nd "identifier" "x" 4 []),
        tok "=",
        fch "right" (nd "number_literal" "10" 4 [])])]),
    nch (nd "break_statement" "break;" 4 [])]

def c2Default : Node :=
  nd "default_statement" "default: x = 99;" 5 [
    nch (nd "expression_statement" "x = 99;" 6 [
      nch (nd "assignment_expression" "x = 99" 6 [
        fch "left" (nd "identifier" "x" 6 []),
        tok "=",
        fch "right" (nd "number_literal" "99" 6 [])])])]

def c2Switch : Node :=
  nd "switch_statement" "switch (x)" 2 [
    fch "condition" (nd "condition_clause" "(x)" 2 [nch (nd "identifier" "x" 2 [])]),
    fch "body" (Node.mk "compound_statement" "" 2 7 [nch c2Case1, nch c2Default])]

def c2Tree : Node := mkProgram [mkMain [c2Decl, c2Switch] 8]

/-- The step list the unroller produces for the C2 program. -/
def c2Steps : List Step :=
  [ { data := .pushFrame "main", line := 1, branches := [] },
    { data := .setVariable "x" (.num 2) "int" "0x7FFE1A00", line := 2, branches := [] },
    { data := .switchStatement "x", line := 3, branches := [] },
    { data := .enterCase (some "1"), line := 4, branches := [⟨"case-1", 2⟩] },
    { data := .updateVariable "x" (.num 10), line := 5, branches := [⟨"case-1", 2⟩] },
    { data := .enterCase (some "default"), line := 6, branches := [⟨"case-default", 2⟩] },
    { data := .updateVariable "x" (.num 99), line := 7, branches := [⟨"case-default", 2⟩] },
    { data := .popFrame "main", line := 9, branches := [] } ]

/-- The completed executeSteps run over the C2 step list. -/
def c2Auto : AutoState := runAuto c2Steps (cleanExec 0x7FFE1A01) (initialSink 0)

/-- C2 is false of the code: the executeSteps loop only ever records
if-true/if-false entries keyed by IF_STATEMENT steps in its skip map, so a
case-<value> tag can never be suppressed.  For the program
int x = 2; switch (x) \x7b case 1: x = 10; break; default: x = 99; \x7d the
runtime value 2 matches no case, yet every step executes: the step tagged
case-1 is index 4, x is 2 when the switch marker runs, all eight step
indices are executed, the case-1 UPDATE_VARIABLE forwards a setVariable
call to the Effect Sink, and x ends at 99 because the default body also
ran. -/
theorem C2_switch_suppression_unimplemented :
    (∀ (steps : List Step) (es0 : ExecState) (s0 : SinkState) (n p : Nat) (b : String),
        (p, b) ∈ (autoPrefix steps es0 s0 n).skip →
          (b = "if-true" ∨ b = "if-false") ∧
            ∃ stp, steps.get? p = some stp ∧ isIfMarker stp.data = true) ∧
    generateSteps 0 c2Tree = .ok c2Steps ∧
    c2Steps.get? 4 = some { data := .updateVariable "x" (.num 10), line := 5,
                            branches := [⟨"case-1", 2⟩] } ∧
    (alGet (autoPrefix c2Steps (cleanExec 0x7FFE1A01) (initialSink 0) 3).es.rv "x").map
        Binding.value = some (.num 2) ∧
    c2Auto.executed = [0, 1, 2, 3, 4, 5, 6, 7] ∧
    c2Auto.effects.get? 2 = some (.setVariable "x" (.num 10) "int" "0x7FFE1A00") ∧
    (alGet c2Auto.es.rv "x").map Binding.value = some (.num 99) :=
  ⟨skip_entries_from_if, rfl, rfl, rfl, rfl, rfl, rfl⟩

/-- An if-marker step used to witness the skip-map lemma. -/
def c2IfStep : Step :=
  { data := .ifStatement "x" true false, line := 1, branches := [] }

/-- Witness for C2: running the loop over a single if-marker step records
the skip entry (0, if-true), and the universal conjunct applies to it. -/
theorem C2_switch_suppression_unimplemented_witness :
    ("if-true" = "if-true" ∨ "if-true" = "if-false") ∧
      ∃ stp, [c2IfStep].get? 0 = some stp ∧ isIfMarker stp.data = true :=
  C2_switch_suppression_unimplemented.1 [c2IfStep] (cleanExec 0) (initialSink 0) 1 0 "if-true"
    (show ((0 : Nat), "if-true") ∈ [((0 : Nat), "if-true")] from List.mem_singleton.mpr rfl)

/-! ## Claim C8 -/

/-- A binary_expression node of the node-inspection interface that lacks an
operator field child. -/
def c8BadBinary : Node :=
  nd "binary_expression" "a @ b" 1 [
    fch "left" (nd "identifier" "a" 1 []),
    fch "right" (nd "identifier" "b" 1 [])]

/-- int y = a @ b;  with the operatorless binary expression as initializer. -/
def c8Decl : Node :=
  nd "declaration" "int y = a @ b;" 1 [
    fch "type" (nd "primitive_type" "int" 1 []),
    nch (nd "init_declarator" "y = a @ b" 1 [
      fch "declarator" (nd "identifier" "y" 1 []),
      fch "value" c8BadBinary])]

def c8Tree : Node := mkProgram [mkMain [c8Decl] 2]

/-- C8 counterexample: expression evaluation dereferences the operator field
of a binary_expression without checking it, so a binary node with no
operator field crashes the evaluator (TypeError on .text), and the crash
surfaces through whole-program unrolling; the unroller is therefore not
total over arbitrary trees of the node-inspection interface. -/
theorem C8_binary_operator_crash :
    run [] 2 (.tEvaluateExpression (some c8BadBinary)) (initialAState 0) = .crash ∧
    generateSteps 0 c8Tree = .crash :=
  ⟨rfl, rfl⟩

/-- An unrecognized expression node with no children. -/
def c8CastNode : Node := nd "cast_expression" "(float)q" 1 []

/-- A statement of unrecognized kind wrapping an ordinary declaration. -/
def c8LabeledDecl : Node :=
  nd "labeled_statement" "here: int z = 7;" 1 [
    nch (nd "declaration" "int z = 7;" 1 [
      fch "type" (nd "primitive_type" "int" 1 []),
      nch (nd "init_declarator" "z = 7" 1 [
        fch "declarator" (nd "identifier" "z" 1 []),
        fch "value" (nd "number_literal" "7" 1 [])])])]

def c8GracefulTree : Node := mkProgram [mkMain [c8LabeledDecl] 2]

/-- The steps the unroller produces for the graceful-recursion program. -/
def c8GracefulSteps : List Step :=
  [ { data := .pushFrame "main", line := 1, branches := [] },
    { data := .setVariable "z" (.num 7) "int" "0x7FFE1A00", line := 2, branches := [] },
    { data := .popFrame "main", line := 3, branches := [] } ]

/-- C8 amended: unknown node shapes degrade gracefully everywhere except
the binary-operator crash point: expression evaluation returns the node's
raw text as a string value for every unrecognized expression kind, and
statement dispatch recurses into the node's named children for every
unrecognized statement kind; concretely, a declaration wrapped in an
unknown labeled_statement still yields its setVariable step. -/
theorem C8_unknown_shapes_degrade_gracefully :
    (∀ (fm : List (String × Node)) (fuel : Nat) (st : AState) (node : Node),
        node.kind ∉ ["parenthesized_expression", "number_literal", "string_literal",
          "pointer_expression", "binary_expression", "sizeof_expression",
          "subscript_expression", "identifier"] →
        run fm (fuel+1) (.tEvaluateExpression (some node)) st = .ok (.str node.text, st)) ∧
    (∀ (fm : List (String × Node)) (fuel d : Nat) (st : AState) (node : Node),
        node.kind ∉ ["declaration", "expression_statement", "if_statement",
          "switch_statement", "while_statement", "for_statement", "return_statement"] →
        run fm (fuel+1) (.tAnalyzeStatement d node) st
          = run fm fuel (.tStmtList d node.namedChildren) st) ∧
    generateSteps 0 c8GracefulTree = .ok c8GracefulSteps := by
  refine ⟨?_, ?_, rfl⟩
  · intro fm fuel st node h
    simp only [List.mem_cons, List.not_mem_nil, or_false, not_or] at h
    obtain ⟨h1, h2, h3, h4, h5, h6, h7, h8⟩ := h
    simp [run, h1, h2, h3, h4, h5, h6, h7, h8]
  · intro fm fuel d st node h
    simp only [List.mem_cons, List.not_mem_nil, or_false, not_or] at h
    obtain ⟨h1, h2, h3, h4, h5, h6, h7⟩ := h
    simp [run, h1, h2, h3, h4, h5, h6, h7]

/-- Witness for C8: the unrecognized cast_expression node falls back to its
raw text in expression position and to child recursion in statement
position. -/
theorem C8_unknown_shapes_degrade_gracefully_witness :
    run [] 1 (.tEvaluateExpression (some c8CastNode)) (initialAState 0)
        = .ok (.str c8CastNode.text, (initialAState 0)) ∧
    run [] 2 (.tAnalyzeStatement 0 c8CastNode) (initialAState 0)
        = run [] 1 (.tStmtList 0 c8CastNode.namedChildren) (initialAState 0) :=
  ⟨C8_unknown_shapes_degrade_gracefully.1 [] 0 (initialAState 0) c8CastNode (by decide),
   C8_unknown_shapes_degrade_gracefully.2.1 [] 1 0 (initialAState 0) c8CastNode (by decide)⟩

/-! ## Claim C3 -/

/-- What a sink frame shows apart from its Date.now() id. -/
def frameShape (f : Frame) : String × List (String × Binding) := (f.name, f.vars)

/-- Two sink states that agree on everything the executor and the user can
observe; frame ids and the clock may differ. -/
structure SRel (s1 s2 : SinkState) : Prop where
  stack : s1.stack.map frameShape = s2.stack.map frameShape
  heap : s1.heap = s2.heap
  output : s1.output = s2.output
  status : s1.status = s2.status

/-- getLast? commutes with map. -/
theorem getLast?_map_my {α β : Type} (f : α → β) (l : List α) :
    (l.map f).getLast? = l.getLast?.map f := by
  induction l with
  | nil => rfl
  | cons a t ih =>
    cases t with
    | nil => rfl
    | cons b t2 =>
      simp only [List.map_cons] at ih ⊢
      rw [List.getLast?_cons_cons, List.getLast?_cons_cons]
      exact ih

/-- dropLast commutes with map. -/
theorem dropLast_map_my {α β : Type} (f : α → β) (l : List α) :
    (l.map f).dropLast = l.dropLast.map f := by
  induction l with
  | nil => rfl
  | cons a t ih =>
    cases t with
    | nil => rfl
    | cons b t2 =>
      simp only [List.map_cons, List.dropLast_cons₂] at ih ⊢
      rw [ih]

/-- The visualization reducer preserves observable agreement: the same
effect applied to two sinks that differ only in ids and clock yields sinks
that differ only in ids and clock. -/
theorem applyEffect_congr {s1 s2 : SinkState} (h : SRel s1 s2) (e : Effect) :
    SRel (applyEffect s1 e) (applyEffect s2 e) := by
  obtain ⟨hst, hh, ho, hsta⟩ := h
  cases e with
  | reset => exact ⟨rfl, rfl, rfl, rfl⟩
  | setStatus st => exact ⟨hst, hh, ho, rfl⟩
  | pushFrame name =>
    refine ⟨?_, hh, ho, hsta⟩
    show (s1.stack ++ [Frame.mk s1.clock name []]).map frameShape
        = (s2.stack ++ [Frame.mk s2.clock name []]).map frameShape
    simp only [List.map_append, List.map_cons, List.map_nil, hst]
    rfl
  | popFrame =>
    refine ⟨?_, hh, ho, hsta⟩
    show s1.stack.dropLast.map frameShape = s2.stack.dropLast.map frameShape
    rw [← dropLast_map_my, ← dropLast_map_my, hst]
  | setVariable name v t a =>
    have hl : s1.stack.getLast?.map frameShape = s2.stack.getLast?.map frameShape := by
      rw [← getLast?_map_my, ← getLast?_map_my, hst]
    show SRel (match s1.stack.getLast? with
      | none => s1
      | some top =>
        { s1 with stack := s1.stack.dropLast ++ [{ top with vars := alSet top.vars name ⟨v, t, a⟩ }] })
      (match s2.stack.getLast? with
      | none => s2
      | some top =>
        { s2 with stack := s2.stack.dropLast ++ [{ top with vars := alSet top.vars name ⟨v, t, a⟩ }] })
    cases hc1 : s1.stack.getLast? with
    | none =>
      cases hc2 : s2.stack.getLast? with
      | none => exact ⟨hst, hh, ho, hsta⟩
      | some f2 => rw [hc1, hc2] at hl; simp at hl
    | some f1 =>
      cases hc2 : s2.stack.getLast? with
      | none => rw [hc1, hc2] at hl; simp at hl
      | some f2 =>
        rw [hc1, hc2] at hl
        have hfs : frameShape f1 = frameShape f2 := by simpa using hl
        have hv : f1.vars = f2.vars := congrArg Prod.snd hfs
        have hn : f1.name = f2.name := congrArg Prod.fst hfs
        refine ⟨?_, hh, ho, hsta⟩
        show (s1.stack.dropLast ++ [{ f1 with vars := alSet f1.vars name ⟨v, t, a⟩ }]).map frameShape
            = (s2.stack.dropLast ++ [{ f2 with vars := alSet f2.vars name ⟨v, t, a⟩ }]).map frameShape
        simp only [List.map_append, List.map_cons, List.map_nil]
        rw [← dropLast_map_my, ← dropLast_map_my, hst]
        simp [frameShape, hv, hn]
  | allocateHeap addr cell =>
    refine ⟨hst, ?_, ho, hsta⟩
    show alSet s1.heap addr cell = alSet s2.heap addr cell
    rw [hh]
  | logOutput text =>
    refine ⟨hst, hh, ?_, hsta⟩
    show s1.output ++ [text] = s2.output ++ [text]
    rw [ho]

/-- doubleResolve reads only the frame variables and the heap. -/
theorem doubleResolve_congr {f1 f2 : Frame} {s1 s2 : SinkState}
    (hv : f1.vars = f2.vars) (hh : s1.heap = s2.heap) (p : String) :
    doubleResolve f1 s1 p = doubleResolve f2 s2 p := by
  unfold doubleResolve
  rw [hv, hh]

/-- singleResolve reads only the frame variables and the heap. -/
theorem singleResolve_congr {f1 f2 : Frame} {s1 s2 : SinkState}
    (hv : f1.vars = f2.vars) (hh : s1.heap = s2.heap) (p : String) :
    singleResolve f1 s1 p = singleResolve f2 s2 p := by
  unfold singleResolve
  rw [hv, hh]

/-- bareResolve reads only the frame variables. -/
theorem bareResolve_congr {f1 f2 : Frame} (hv : f1.vars = f2.vars) (p : String) :
    bareResolve f1 p = bareResolve f2 p := by
  unfold bareResolve
  rw [hv]

/-- Output resolution reads only the observable sink: the top frame shape
and the heap. -/
theorem resolveLogOutput_congr {s1 s2 : SinkState}
    (hst : s1.stack.map frameShape = s2.stack.map frameShape)
    (hh : s1.heap = s2.heap) (t : String) :
    resolveLogOutput s1 t = resolveLogOutput s2 t := by
  unfold resolveLogOutput
  by_cases hc : strContains t "\x7b" = true
  · rw [if_pos hc, if_pos hc]
    have hl : s1.stack.getLast?.map frameShape = s2.stack.getLast?.map frameShape := by
      rw [← getLast?_map_my, ← getLast?_map_my, hst]
    cases hc1 : s1.stack.getLast? with
    | none =>
      cases hc2 : s2.stack.getLast? with
      | none => rfl
      | some f2 => rw [hc1, hc2] at hl; simp at hl
    | some f1 =>
      cases hc2 : s2.stack.getLast? with
      | none => rw [hc1, hc2] at hl; simp at hl
      | some f2 =>
        rw [hc1, hc2] at hl
        have hfs : frameShape f1 = frameShape f2 := by simpa using hl
        have hv : f1.vars = f2.vars := congrArg Prod.snd hfs
        have hd : doubleResolve f1 s1 = doubleResolve f2 s2 :=
          funext fun p => doubleResolve_congr hv hh p
        have hs : singleResolve f1 s1 = singleResolve f2 s2 :=
          funext fun p => singleResolve_congr hv hh p
        have hb : bareResolve f1 = bareResolve f2 :=
          funext fun p => bareResolve_congr hv p
        dsimp only
        rw [hd, hs, hb]
  · rw [if_neg hc, if_neg hc]

/-- The interpreter-state half of one executor step; mirrors executeStep
arm for arm. -/
def stepEs (stp : Step) (es : ExecState) : ExecState :=
  match stp.data with
  | .pushFrame _ => es
  | .call _ _ _ => { es with callStack := es.rv :: es.callStack, rv := [] }
  | .paramInit name value vtype =>
    let (a1, es) := execGenAddr es
    let es := { es with rv := alSet es.rv name ⟨value, vtype, a1⟩ }
    let (_, es) := execGenAddr es
    es
  | .returnFromCall _ targetVar =>
    let es := match es.callStack with
      | top :: rest => { es with rv := top, callStack := rest }
      | [] => es
    let es :=
      match targetVar with
      | some tv =>
        if tv ≠ "" && !(es.lastReturnValue matches .undef) then
          match alGet es.rv tv with
          | some existingVar =>
            { es with rv := alSet es.rv tv { existingVar with value := es.lastReturnValue } }
          | none => es
        else es
      | none => es
    { es with lastReturnValue := .null, isReturning := false }
  | .popFrame _ => es
  | .setVariable name value vtype address =>
    { es with rv := alSet es.rv name ⟨value, vtype, address⟩ }
  | .logOutput _ _ => es
  | .updateVariable name value =>
    (match alGet es.rv name with
     | none => es
     | some varData =>
       { es with rv := alSet es.rv name { varData with value := resolvePtrArith es value } })
  | .allocateHeap _ _ _ => es
  | .pointerIncrement name delta =>
    (match alGet es.rv name with
     | none => es
     | some ptrData =>
       match matchArrayRef (jsToString ptrData.value) with
       | some (arrayName, currentIndex) =>
         let nv : Value := .str (arrayName ++ "[" ++ toString (currentIndex + delta) ++ "]")
         { es with rv := alSet es.rv name { ptrData with value := nv } }
       | none =>
         match ptrData.value with
         | .num v => { es with rv := alSet es.rv name { ptrData with value := .num (v + delta) } }
         | _ => es)
  | .derefAssign ptrNameOpt value =>
    (match ptrNameOpt with
     | none => es
     | some pn =>
       match alGet es.rv pn with
       | none => es
       | some ptrData =>
         match matchArrayRef (jsToString ptrData.value) with
         | some (arrayName, index) =>
           (match alGet es.rv arrayName with
            | some arrayVar =>
              (match arrayVar.value with
               | .arr xs =>
                 let na : Value := .arr (setElem xs index value)
                 { es with rv := alSet es.rv arrayName { arrayVar with value := na } }
               | _ => es)
            | none => es)
         | none =>
           if strStartsWith (jsToString ptrData.value) "&" then
             let targetVarName := String.mk ((jsToString ptrData.value).toList.drop 1)
             match alGet es.rv targetVarName with
             | some targetVar =>
               { es with rv := alSet es.rv targetVarName { targetVar with value := value } }
             | none => es
           else es)
  | .setHeapField _ _ _ => es
  | .updateArrayElement _ _ _ => es
  | .ifStatement _ _ _ => es
  | .switchStatement _ => es
  | .enterCase _ => es
  | .evaluateLoopCondition _ _ _ => es
  | .enterLoop _ => es
  | .exitLoopIteration _ => es
  | .ret value =>
    if !(value matches .undef) then { es with lastReturnValue := value, isReturning := true }
    else { es with isReturning := true }

/-- The effects half of one executor step; r is the output resolver, the
only thing the effects read from the sink. -/
def stepEffs (stp : Step) (es : ExecState) (r : String → String) : List Effect :=
  match stp.data with
  | .pushFrame name => [.pushFrame name]
  | .call name _ _ => [.pushFrame name]
  | .paramInit name value vtype =>
    let (_, es) := execGenAddr es
    let (a2, _) := execGenAddr es
    [.setVariable name value vtype a2]
  | .returnFromCall _ targetVar =>
    let es := match es.callStack with
      | top :: rest => { es with rv := top, callStack := rest }
      | [] => es
    Effect.popFrame ::
      (match targetVar with
       | some tv =>
         if tv ≠ "" && !(es.lastReturnValue matches .undef) then
           match alGet es.rv tv with
           | some existingVar =>
             [.setVariable tv es.lastReturnValue existingVar.vtype existingVar.address]
           | none => []
         else []
       | none => [])
  | .popFrame _ => [.popFrame]
  | .setVariable name value vtype address => [.setVariable name value vtype address]
  | .logOutput text _ => [.logOutput (r text)]
  | .updateVariable name value =>
    (match alGet es.rv name with
     | none => []
     | some varData =>
       [.setVariable name (resolvePtrArith es value) varData.vtype varData.address])
  | .allocateHeap address value vtype => [.allocateHeap address ⟨value, vtype⟩]
  | .pointerIncrement name delta =>
    (match alGet es.rv name with
     | none => []
     | some ptrData =>
       match matchArrayRef (jsToString ptrData.value) with
       | some (arrayName, currentIndex) =>
         let newValue := Value.str (arrayName ++ "[" ++ toString (currentIndex + delta) ++ "]")
         [.setVariable name newValue ptrData.vtype ptrData.address]
       | none =>
         match ptrData.value with
         | .num v => [.setVariable name (.num (v + delta)) ptrData.vtype ptrData.address]
         | _ => [])
  | .derefAssign ptrNameOpt value =>
    (match ptrNameOpt with
     | none => []
     | some pn =>
       match alGet es.rv pn with
       | none => []
       | some ptrData =>
         match matchArrayRef (jsToString ptrData.value) with
         | some (arrayName, index) =>
           (match alGet es.rv arrayName with
            | some arrayVar =>
              (match arrayVar.value with
               | .arr xs =>
                 [.setVariable arrayName (.arr (setElem xs index value)) arrayVar.vtype arrayVar.address]
               | _ => [])
            | none => [])
         | none =>
           if strStartsWith (jsToString ptrData.value) "&" then
             let targetVarName := String.mk ((jsToString ptrData.value).toList.drop 1)
             match alGet es.rv targetVarName with
             | some targetVar => [.setVariable targetVarName value targetVar.vtype targetVar.address]
             | none => []
           else [])
  | .setHeapField _ _ _ => []
  | .updateArrayElement _ _ _ => []
  | .ifStatement _ _ _ => []
  | .switchStatement _ => []
  | .enterCase _ => []
  | .evaluateLoopCondition _ _ _ => []
  | .enterLoop _ => []
  | .exitLoopIteration _ => []
  | .ret _ => []

/-- Fold a list of effects into the sink. -/
def applyEffs (s : SinkState) : List Effect → SinkState
  | [] => s
  | e :: rest => applyEffs (applyEffect s e) rest

/-- One executor step factors into its interpreter-state half and its
effects half; the sink result is the fold of the emitted effects, and the
sink is read only through the output resolver. -/
theorem executeStep_factors (stp : Step) (es : ExecState) (s : SinkState) :
    executeStep stp es s
      = (stepEs stp es,
         applyEffs s (stepEffs stp es (fun t => resolveLogOutput s t)),
         stepEffs stp es (fun t => resolveLogOutput s t)) := by
  obtain ⟨d, line, br⟩ := stp
  cases d <;> dsimp only [executeStep, stepEs, stepEffs, applyEffs] <;>
    (repeat' split) <;> rfl

/-- Folding the same effects preserves observable agreement. -/
theorem applyEffs_congr {s1 s2 : SinkState} (h : SRel s1 s2) (l : List Effect) :
    SRel (applyEffs s1 l) (applyEffs s2 l) := by
  induction l generalizing s1 s2 with
  | nil => exact h
  | cons e t ih => exact ih (applyEffect_congr h e)

/-- One executor step on observably equal sinks: the same interpreter
state, the same effects, observably equal sinks. -/
theorem executeStep_congr (stp : Step) (es : ExecState) {s1 s2 : SinkState} (h : SRel s1 s2) :
    (executeStep stp es s1).1 = (executeStep stp es s2).1 ∧
    (executeStep stp es s1).2.2 = (executeStep stp es s2).2.2 ∧
    SRel (executeStep stp es s1).2.1 (executeStep stp es s2).2.1 := by
  have hr : (fun t => resolveLogOutput s1 t) = (fun t => resolveLogOutput s2 t) :=
    funext fun t => resolveLogOutput_congr h.stack h.heap t
  rw [executeStep_factors stp es s1, executeStep_factors stp es s2, hr]
  exact ⟨rfl, rfl, applyEffs_congr h _⟩

/-- Replay on observably equal sinks: the same final interpreter state, the
same effect-call sequence, observably equal final sinks. -/
theorem replaySteps_congr (steps : List Step) (es : ExecState) {s1 s2 : SinkState}
    (h : SRel s1 s2) :
    (replaySteps steps es s1).1 = (replaySteps steps es s2).1 ∧
    (replaySteps steps es s1).2.2 = (replaySteps steps es s2).2.2 ∧
    SRel (replaySteps steps es s1).2.1 (replaySteps steps es s2).2.1 := by
  induction steps generalizing es s1 s2 with
  | nil => exact ⟨rfl, rfl, h⟩
  | cons stp rest ih =>
    have h1 := executeStep_congr stp es h
    rw [replaySteps, replaySteps]
    rcases hE1 : executeStep stp es s1 with ⟨esA, sA, effsA⟩
    rcases hE2 : executeStep stp es s2 with ⟨esB, sB, effsB⟩
    rw [hE1, hE2] at h1
    have hes : esA = esB := h1.1
    have heffs : effsA = effsB := h1.2.1
    have hsrel : SRel sA sB := h1.2.2
    subst hes
    have h2 := ih esA hsrel
    rcases hR1 : replaySteps rest esA sA with ⟨esC, sC, effsC⟩
    rcases hR2 : replaySteps rest esA sB with ⟨esD, sD, effsD⟩
    rw [hR1, hR2] at h2
    have h3 : esC = esD := h2.1
    have h4 : effsC = effsD := h2.2.1
    have h5 : SRel sC sD := h2.2.2
    dsimp only
    rw [hR1, hR2]
    exact ⟨h3, by dsimp only; rw [heffs, h4], h5⟩

/-- The address carried by a setVariable effect. -/
def effAddr : Effect → String
  | .setVariable _ _ _ a => a
  | _ => ""

/-- A two-step prefix whose PARAM_INIT leaks the interpreter address
counter across replays. -/
def c3Steps : List Step :=
  [ { data := .call "f" [] none, line := 1, branches := [] },
    { data := .paramInit "a" (.num 1) "int", line := 1, branches := [] } ]

/-- First seek to index 2 from a clean interpreter. -/
def c3Seek1 : ExecState × SinkState × List Effect :=
  seek c3Steps 2 (cleanExec 0x7FFE1A00) (initialSink 5)

/-- Second seek to index 2, exactly as handleStepBack repeats it: the sink
was reset but the interpreter object persists. -/
def c3Seek2 : ExecState × SinkState × List Effect :=
  seek c3Steps 2 c3Seek1.1 c3Seek1.2.1

/-- C3 counterexample: seeking to the same index twice is not idempotent.
handleStepBack resets only the sink; the interpreter address counter and
the wall clock persist, so the second replay of a PARAM_INIT prefix
records a different variable address and a different frame id than the
first: the Effect Sink call sequences differ and the scope stacks differ. -/
theorem C3_seek_not_idempotent :
    c3Seek1.2.2.map effAddr = ["", "0x7FFE1A01"] ∧
    c3Seek2.2.2.map effAddr = ["", "0x7FFE1A03"] ∧
    c3Seek1.2.2 ≠ c3Seek2.2.2 ∧
    c3Seek1.2.1.stack.map (fun f => (f.id, f.vars.map fun p => p.2.address))
      = [(5, ["0x7FFE1A01"])] ∧
    c3Seek2.2.1.stack.map (fun f => (f.id, f.vars.map fun p => p.2.address))
      = [(6, ["0x7FFE1A03"])] ∧
    c3Seek1.2.1.stack ≠ c3Seek2.2.1.stack := by
  refine ⟨rfl, rfl, ?_, rfl, rfl, ?_⟩
  · intro h
    have h2 := congrArg (List.map effAddr) h
    rw [show c3Seek1.2.2.map effAddr = ["", "0x7FFE1A01"] from rfl,
        show c3Seek2.2.2.map effAddr = ["", "0x7FFE1A03"] from rfl] at h2
    exact absurd h2 (by decide)
  · intro h
    have h2 := congrArg (List.map Frame.id) h
    rw [show c3Seek1.2.1.stack.map Frame.id = [5] from rfl,
        show c3Seek2.2.1.stack.map Frame.id = [6] from rfl] at h2
    exact absurd h2 (by decide)

/-- C3 amended: replay is deterministic given the interpreter state: two
full replays from the same interpreter state at different wall-clock times
make identical Effect Sink call sequences; and whenever the replayed
prefix restores the interpreter state (in particular it contains no
PARAM_INIT), seeking twice yields the same call sequence, scope stacks
identical up to Date.now() frame ids, and identical heaps. -/
theorem C3_replay_deterministic_up_to_ids :
    (∀ (steps : List Step) (es : ExecState) (c1 c2 : Nat),
        (replaySteps steps es (initialSink c1)).2.2
          = (replaySteps steps es (initialSink c2)).2.2) ∧
    (∀ (steps : List Step) (k : Nat) (es0 : ExecState) (s0 : SinkState),
        (seek steps k es0 s0).1 = es0 →
          (seek steps k (seek steps k es0 s0).1 (seek steps k es0 s0).2.1).2.2
            = (seek steps k es0 s0).2.2 ∧
          (seek steps k (seek steps k es0 s0).1 (seek steps k es0 s0).2.1).2.1.stack.map frameShape
            = (seek steps k es0 s0).2.1.stack.map frameShape ∧
          (seek steps k (seek steps k es0 s0).1 (seek steps k es0 s0).2.1).2.1.heap
            = (seek steps k es0 s0).2.1.heap) := by
  constructor
  · intro steps es c1 c2
    exact (@replaySteps_congr steps es (initialSink c1) (initialSink c2) ⟨rfl, rfl, rfl, rfl⟩).2.1
  · intro steps k es0 s0 h
    rw [h]
    have hrel : SRel
        (applyEffect (applyEffect ((seek steps k es0 s0).2.1) .reset) (.setStatus "RUNNING"))
        (applyEffect (applyEffect s0 .reset) (.setStatus "RUNNING")) := ⟨rfl, rfl, rfl, rfl⟩
    have hc := replaySteps_congr (steps.take k) es0 hrel
    exact ⟨hc.2.1, hc.2.2.stack, hc.2.2.heap⟩

/-- A balanced prefix: the replay restores the clean interpreter state. -/
def c3WSteps : List Step :=
  [ { data := .call "g" [] none, line := 1, branches := [] },
    { data := .returnFromCall "g" none, line := 2, branches := [] } ]

/-- Witness for C3: the balanced call/return prefix restores the clean
interpreter, so seeking to index 2 twice repeats the calls and the
observable sink. -/
theorem C3_replay_deterministic_up_to_ids_witness :
    ((seek c3WSteps 2 (seek c3WSteps 2 (cleanExec 7) (initialSink 3)).1
        (seek c3WSteps 2 (cleanExec 7) (initialSink 3)).2.1).2.2
      = (seek c3WSteps 2 (cleanExec 7) (initialSink 3)).2.2) ∧
    ((seek c3WSteps 2 (seek c3WSteps 2 (cleanExec 7) (initialSink 3)).1
        (seek c3WSteps 2 (cleanExec 7) (initialSink 3)).2.1).2.1.stack.map frameShape
      = (seek c3WSteps 2 (cleanExec 7) (initialSink 3)).2.1.stack.map frameShape) ∧
    ((seek c3WSteps 2 (seek c3WSteps 2 (cleanExec 7) (initialSink 3)).1
        (seek c3WSteps 2 (cleanExec 7) (initialSink 3)).2.1).2.1.heap
      = (seek c3WSteps 2 (cleanExec 7) (initialSink 3)).2.1.heap) :=
  C3_replay_deterministic_up_to_ids.2 c3WSteps 2 (cleanExec 7) (initialSink 3) rfl

/-! ## Claim C1 -/

/-- Branch tags point strictly backward: every tag on a step names a
decision point at an earlier index. -/
def WellTagged (steps : List Step) : Prop :=
  ∀ (j : Nat) (stp : Step) (tag : BranchTag),
    steps.get? j = some stp → tag ∈ stp.branches → tag.parent < j

/-- Appending an untagged step preserves backward tagging. -/
theorem wellTagged_append {steps : List Step} (h : WellTagged steps) {x : Step}
    (hx : x.branches = []) : WellTagged (steps ++ [x]) := by
  intro j stp tag hget htag
  rcases Nat.lt_or_ge j steps.length with hj | hj
  · exact h j stp tag (by rwa [List.get?_append hj] at hget) htag
  · rw [List.get?_append_right hj] at hget
    rcases hd : j - steps.length with _ | k
    · rw [hd] at hget
      simp only [List.get?] at hget
      cases hget
      rw [hx] at htag
      simp at htag
    · rw [hd] at hget
      simp [List.get?] at hget

/-- get? through mapIdx. -/
theorem get?_mapIdx_my {α β : Type} (f : Nat → α → β) (l : List α) (j : Nat) :
    (l.mapIdx f).get? j = (l.get? j).map (f j) := by
  rcases Nat.lt_or_ge j l.length with hj | hj
  · have hj2 : j < (l.mapIdx f).length := by rw [List.length_mapIdx]; exact hj
    rw [List.get?_eq_get hj2, List.get?_eq_get hj, List.get_mapIdx l f j hj]
    rfl
  · have h1 : l.get? j = none := List.get?_eq_none.mpr hj
    have h2 : (l.mapIdx f).get? j = none :=
      List.get?_eq_none.mpr (by rw [List.length_mapIdx]; exact hj)
    rw [h1, h2]
    rfl

/-- tagRange preserves the step count. -/
theorem tagRange_length (st : AState) (lo hi : Nat) (tag : BranchTag) :
    (tagRange st lo hi tag).steps.length = st.steps.length := by
  simp [tagRange]

/-- Tagging a range with a tag whose parent sits before the range preserves
backward tagging. -/
theorem wellTagged_tagRange {st : AState} (h : WellTagged st.steps) {lo hi : Nat}
    {tag : BranchTag} (hlo : tag.parent < lo) :
    WellTagged (tagRange st lo hi tag).steps := by
  intro j stp tg hget htg
  rw [tagRange] at hget
  simp only [] at hget
  rw [get?_mapIdx_my] at hget
  cases hsj : st.steps.get? j with
  | none => rw [hsj] at hget; simp at hget
  | some s0 =>
    rw [hsj] at hget
    have hget2 :
        (if lo ≤ j && j < hi then { s0 with branches := s0.branches ++ [tag] } else s0) = stp := by
      injection hget
    subst hget2
    by_cases hr : (lo ≤ j && j < hi) = true
    · rw [if_pos hr] at htg
      simp only [List.mem_append, List.mem_singleton] at htg
      rcases htg with htg | rfl
      · exact h j s0 tg hsj htg
      · exact Nat.lt_of_lt_of_le hlo (by simpa using (Bool.and_elim_left hr))
    · rw [if_neg hr] at htg
      exact h j s0 tg hsj htg

/-- The invariant one unroller call preserves: steps only grow, and
backward tagging is preserved. -/
def StepsOK (st st2 : AState) : Prop :=
  st.steps.length ≤ st2.steps.length ∧ (WellTagged st.steps → WellTagged st2.steps)

theorem SOK_rfl {st : AState} : StepsOK st st := ⟨Nat.le_refl _, fun h => h⟩

theorem SOK_trans {a b c : AState} (h1 : StepsOK a b) (h2 : StepsOK b c) : StepsOK a c :=
  ⟨Nat.le_trans h1.1 h2.1, fun h => h2.2 (h1.2 h)⟩

theorem SOK_push {st st2 : AState} (h : StepsOK st st2) (d : StepData) (ln : Nat) :
    StepsOK st (pushStep st2 { data := d, line := ln, branches := [] }) := by
  refine SOK_trans h ⟨?_, ?_⟩
  · show st2.steps.length ≤ (st2.steps ++ [_]).length
    simp
  · intro hwt
    exact wellTagged_append hwt rfl

theorem SOK_tagRange {st st2 : AState} {lo hi : Nat} {tag : BranchTag}
    (h : StepsOK st st2) (hlo : tag.parent < lo) : StepsOK st (tagRange st2 lo hi tag) :=
  SOK_trans h ⟨Nat.le_of_eq (tagRange_length st2 lo hi tag).symm,
    fun hwt => wellTagged_tagRange hwt hlo⟩

theorem SOK_steps_eq {st st2 st3 : AState} (h : StepsOK st st2) (he : st3.steps = st2.steps) :
    StepsOK st st3 :=
  SOK_trans h ⟨Nat.le_of_eq (congrArg List.length he.symm), fun hwt => he ▸ hwt⟩

theorem SOK_av {st st2 : AState} (X : List (String × Value)) (h : StepsOK st st2) :
    StepsOK st { st2 with analysisVariables := X } := SOK_steps_eq h rfl

theorem SOK_va {st st2 : AState} (X : List (String × String)) (h : StepsOK st st2) :
    StepsOK st { st2 with variableAddresses := X } := SOK_steps_eq h rfl

theorem SOK_as {st st2 : AState} (X : List (String × Value)) (h : StepsOK st st2) :
    StepsOK st { st2 with arraySizes := X } := SOK_steps_eq h rfl

theorem SOK_genAddr {st st2 : AState} (h : StepsOK st st2) :
    StepsOK st (generateAddress st2).2 := SOK_steps_eq h rfl

theorem SOK_genHeap {st st2 : AState} (h : StepsOK st st2) :
    StepsOK st (generateHeapAddress st2).2 := SOK_steps_eq h rfl

theorem bindParams_sok (line : Nat) :
    ∀ (ps : List Node) (i : Nat) (args : List (Value × String)) (st2 : AState),
      StepsOK st2 (bindParams line i ps args st2) := by
  intro ps
  induction ps with
  | nil => intro i args st2; cases args <;> exact SOK_rfl
  | cons p ps ih =>
    intro i args st2
    cases args with
    | nil => exact SOK_rfl
    | cons a as2 =>
      obtain ⟨argVal, argT⟩ := a
      rw [bindParams]
      refine SOK_trans ?_ (ih _ _ _)
      split
      · exact SOK_av _ (SOK_push SOK_rfl _ _)
      · exact SOK_push SOK_rfl _ _

theorem SOK_bindParams {st st2 : AState} (h : StepsOK st st2) (line i : Nat)
    (ps : List Node) (args : List (Value × String)) :
    StepsOK st (bindParams line i ps args st2) :=
  SOK_trans h (bindParams_sok line ps i args st2)

theorem upd_steps (expr : Node) (line : Nat) (st2 : AState) :
    (analyzeUpdateExpression expr line st2).steps = st2.steps ∨
    ∃ d, (analyzeUpdateExpression expr line st2).steps
        = st2.steps ++ [{ data := d, line := line, branches := [] }] := by
  unfold analyzeUpdateExpression
  dsimp only
  repeat' split
  all_goals
    first
      | exact Or.inl rfl
      | exact Or.inr ⟨_, rfl⟩

theorem SOK_upd {st st2 : AState} (h : StepsOK st st2) (expr : Node) (line : Nat) :
    StepsOK st (analyzeUpdateExpression expr line st2) := by
  refine SOK_trans h ?_
  rcases upd_steps expr line st2 with he | ⟨d, he⟩
  · exact ⟨Nat.le_of_eq (congrArg List.length he).symm, fun hwt => by rw [he]; exact hwt⟩
  · refine ⟨?_, fun hwt => by rw [he]; exact wellTagged_append hwt rfl⟩
    rw [he]
    simp

/-- The postcondition of a state-returning unroller computation. -/
structure Ok (x : Res (Value × AState)) (st : AState) : Prop where
  out : ∀ (v : Value) (st2 : AState), x = .ok (v, st2) → StepsOK st st2

/-- The postcondition of an AState-returning unroller computation. -/
structure OkSt (x : Res AState) (st : AState) : Prop where
  out : ∀ (st2 : AState), x = .ok st2 → StepsOK st st2

theorem Ok_pure {st st2 : AState} (h : StepsOK st st2) (v : Value) :
    Ok (.ok (v, st2)) st :=
  ⟨fun v2 st3 he => by cases he; exact h⟩

theorem Ok_crash {st : AState} : Ok .crash st := ⟨fun _ _ he => Res.noConfusion he⟩

theorem Ok_fuelOut {st : AState} : Ok .fuelOut st := ⟨fun _ _ he => Res.noConfusion he⟩

theorem OkSt_pure {st st2 : AState} (h : StepsOK st st2) : OkSt (.ok st2) st :=
  ⟨fun st3 he => by cases he; exact h⟩

theorem Ok_weaken {x : Res (Value × AState)} {st st2 : AState}
    (h : StepsOK st st2) (h2 : Ok x st2) : Ok x st :=
  ⟨fun v st3 he => SOK_trans h (h2.out v st3 he)⟩

theorem OkSt_weaken {x : Res AState} {st st2 : AState}
    (h : StepsOK st st2) (h2 : OkSt x st2) : OkSt x st :=
  ⟨fun st3 he => SOK_trans h (h2.out st3 he)⟩

theorem Ok_bind {x : Res (Value × AState)} {f : Value × AState → Res (Value × AState)}
    {st : AState} (h1 : Ok x st)
    (h2 : ∀ (v : Value) (st1 : AState), x = .ok (v, st1) → StepsOK st st1 → Ok (f (v, st1)) st1) :
    Ok (x >>= f) st := by
  refine ⟨fun v2 st2 he => ?_⟩
  cases x with
  | ok a =>
    obtain ⟨v1, st1⟩ := a
    exact SOK_trans (h1.out v1 st1 rfl) ((h2 v1 st1 rfl (h1.out v1 st1 rfl)).out v2 st2 he)
  | crash => exact Res.noConfusion he
  | fuelOut => exact Res.noConfusion he

theorem Ok_bindst {x : Res AState} {f : AState → Res (Value × AState)}
    {st : AState} (h1 : OkSt x st)
    (h2 : ∀ (st1 : AState), x = .ok st1 → StepsOK st st1 → Ok (f st1) st1) :
    Ok (x >>= f) st := by
  refine ⟨fun v2 st2 he => ?_⟩
  cases x with
  | ok st1 => exact SOK_trans (h1.out st1 rfl) ((h2 st1 rfl (h1.out st1 rfl)).out v2 st2 he)
  | crash => exact Res.noConfusion he
  | fuelOut => exact Res.noConfusion he

theorem OkSt_bind {x : Res (Value × AState)} {f : Value × AState → Res AState}
    {st : AState} (h1 : Ok x st)
    (h2 : ∀ (v : Value) (st1 : AState), x = .ok (v, st1) → StepsOK st st1 → OkSt (f (v, st1)) st1) :
    OkSt (x >>= f) st := by
  refine ⟨fun st2 he => ?_⟩
  cases x with
  | ok a =>
    obtain ⟨v1, st1⟩ := a
    exact SOK_trans (h1.out v1 st1 rfl) ((h2 v1 st1 rfl (h1.out v1 st1 rfl)).out st2 he)
  | crash => exact Res.noConfusion he
  | fuelOut => exact Res.noConfusion he

theorem Ok_ite {c : Prop} [Decidable c] {A B : Res (Value × AState)} {st : AState}
    (hA : Ok A st) (hB : Ok B st) : Ok (if c then A else B) st := by
  split
  exacts [hA, hB]

theorem Ok_bindv {α : Type} {x : Res α} {f : α → Res (Value × AState)}
    {st : AState} (h : ∀ a, x = .ok a → Ok (f a) st) :
    Ok (x >>= f) st := by
  refine ⟨fun v2 st2 he => ?_⟩
  cases x with
  | ok a => exact ((h a rfl).out v2 st2 he)
  | crash => exact Res.noConfusion he
  | fuelOut => exact Res.noConfusion he

/-- Precondition a task needs for backward tagging: a case-list unrolling
must name a switch marker that already sits in the step list. -/
def taskOK : Task → AState → Prop
  | .tCaseList _ swIdx _, st => swIdx < st.steps.length
  | _, _ => True

/-- The analysis-state snapshot restore of analyzeIfStatement only touches
analysisVariables. -/
theorem SOK_restore {st st2 : AState} (c : Prop) [Decidable c]
    (X : List (String × Value)) (h : StepsOK st st2) :
    StepsOK st (if c then { st2 with analysisVariables := X } else st2) := by
  split
  · exact SOK_av _ h
  · exact h

/-- Restoring the snapshot does not change the step count. -/
theorem lt_restore_len {a : Nat} {st2 : AState} (c : Prop) [Decidable c]
    (X : List (String × Value)) (h : a < st2.steps.length) :
    a < (if c then { st2 with analysisVariables := X } else st2).steps.length := by
  split
  · exact h
  · exact h

/-- A state whose steps equal the start state's is StepsOK. -/
theorem SOK_of_eq {st T : AState} (he : T.steps = st.steps) : StepsOK st T :=
  ⟨Nat.le_of_eq (congrArg List.length he).symm, fun hwt => by rw [he]; exact hwt⟩

/-- A state that appended one untagged step is StepsOK. -/
theorem SOK_of_append {st T : AState} (x : Step) (he : T.steps = st.steps ++ [x])
    (hx : x.branches = []) : StepsOK st T := by
  refine ⟨?_, fun hwt => by rw [he]; exact wellTagged_append hwt hx⟩
  rw [he]
  simp

/-- A state that appended two untagged steps is StepsOK. -/
theorem SOK_of_append2 {st T : AState} (x y : Step)
    (he : T.steps = (st.steps ++ [x]) ++ [y])
    (hx : x.branches = []) (hy : y.branches = []) : StepsOK st T := by
  refine ⟨?_, fun hwt => by
    rw [he]
    exact wellTagged_append (wellTagged_append hwt hx) hy⟩
  rw [he]
  simp

set_option maxHeartbeats 2000000 in
/-- The unroller only appends steps, and keeps every tag it attaches
pointing strictly backward at its decision point. -/
theorem run_stepsOK (fm : List (String × Node)) :
    ∀ (fuel : Nat) (t : Task) (st : AState), taskOK t st → Ok (run fm fuel t st) st := by
  intro fuel
  induction fuel with
  | zero => exact fun t st _ => ⟨fun v st2 he => Res.noConfusion he⟩
  | succ fuel ih =>
    intro t st hpre
    cases t
    case tEvaluateExpression nn =>
      simp only [run]
      cases nn with
      | none => exact Ok_pure SOK_rfl _
      | some node =>
        dsimp only
        by_cases h1 : node.kind = "parenthesized_expression"
        · rw [if_pos h1]
          exact ih (.tEvaluateExpression _) _ True.intro
        rw [if_neg h1]
        by_cases h2 : node.kind = "number_literal"
        · rw [if_pos h2]
          exact Ok_pure SOK_rfl _
        rw [if_neg h2]
        by_cases h3 : node.kind = "string_literal"
        · rw [if_pos h3]
          exact Ok_pure SOK_rfl _
        rw [if_neg h3]
        by_cases h4 : node.kind = "pointer_expression"
        · rw [if_pos h4]
          split
          · split
            · refine Ok_pure ?_ _
              exact SOK_of_eq rfl
            · exact Ok_pure SOK_rfl _
          · exact Ok_pure SOK_rfl _
        rw [if_neg h4]
        by_cases h5 : node.kind = "binary_expression"
        · rw [if_pos h5]
          refine Ok_bind (ih (.tEvaluateExpression _) _ True.intro) ?_
          intro v1 st1 hx1 hsok1
          dsimp only
          refine Ok_bind (ih (.tEvaluateExpression _) _ True.intro) ?_
          intro v2 st2 hx2 hsok2
          dsimp only
          repeat'
            (first
              | exact Ok_crash
              | exact Ok_pure SOK_rfl _
              | refine Ok_ite ?_ ?_
              | split)
        rw [if_neg h5]
        by_cases h6 : node.kind = "sizeof_expression"
        · rw [if_pos h6]
          repeat' split
          all_goals exact Ok_pure SOK_rfl _
        rw [if_neg h6]
        by_cases h7 : node.kind = "subscript_expression"
        · rw [if_pos h7]
          try dsimp only
          refine Ok_bind (ih (.tEvaluateExpression _) _ True.intro) ?_
          intro v1 st1 hx1 hsok1
          dsimp only
          refine Ok_bind (ih (.tEvaluateExpression _) _ True.intro) ?_
          intro v2 st2 hx2 hsok2
          dsimp only
          repeat' split
          all_goals exact Ok_pure SOK_rfl _
        rw [if_neg h7]
        by_cases h8 : node.kind = "identifier"
        · rw [if_pos h8]
          split
          all_goals exact Ok_pure SOK_rfl _
        rw [if_neg h8]
        exact Ok_pure SOK_rfl _
    case tAnalyzeIfStatement d n =>
      simp only [run]
      refine Ok_bind (ih (.tEvaluateCondition _) _ True.intro) ?_
      intro cr st1 hx1 hsok1
      try dsimp only
      cases hcq : n.childForFieldName "consequence" with
      | some cq =>
        try dsimp only
        refine Ok_bind
          (Ok_weaken (SOK_push SOK_rfl _ _) (ih (.tAnalyzeCompoundOrStatement _ _) _ True.intro)) ?_
        intro v2 st2 hx2 hsok2
        try dsimp only
        have hpu : StepsOK (pushStep st1 _) st2 :=
          (ih (.tAnalyzeCompoundOrStatement _ _) _ True.intro).out v2 st2 hx2
        refine Ok_bindst (OkSt_pure ?_) ?_
        · refine SOK_tagRange SOK_rfl ?_
          show st1.steps.length < (pushStep st1 _).steps.length
          simp [pushStep]
        · intro y hy hsoky
          have hyE := Res.ok.inj hy
          subst hyE
          try dsimp only
          have h1y : st1.steps.length < st2.steps.length := by
            have a1 := hpu.1
            simp [pushStep] at a1
            omega
          cases halt : n.childForFieldName "alternative" with
          | none =>
            try dsimp only
            refine Ok_bindst (OkSt_pure (SOK_restore _ _ SOK_rfl)) ?_
            intro y1 hy1 hsoky1
            try dsimp only
            exact Ok_pure (SOK_restore _ _ SOK_rfl) _
          | some alt =>
            try dsimp only
            refine Ok_bind
              (Ok_weaken (SOK_restore _ _ SOK_rfl)
                (ih (.tAnalyzeCompoundOrStatement _ _) _ True.intro)) ?_
            intro v3 st3 hx3 hsok3
            try dsimp only
            refine Ok_bindst
              (OkSt_pure (SOK_tagRange SOK_rfl
                (lt_restore_len _ _ (by rw [tagRange_length]; exact h1y)))) ?_
            intro y1 hy1 hsoky1
            try dsimp only
            exact Ok_pure (SOK_restore _ _ SOK_rfl) _
      | none =>
        try dsimp only
        refine Ok_bindst (OkSt_pure (SOK_push SOK_rfl _ _)) ?_
        intro y hy hsoky
        have hyE := Res.ok.inj hy
        subst hyE
        try dsimp only
        cases halt : n.childForFieldName "alternative" with
        | none =>
          try dsimp only
          refine Ok_bindst (OkSt_pure (SOK_restore _ _ SOK_rfl)) ?_
          intro y1 hy1 hsoky1
          try dsimp only
          exact Ok_pure (SOK_restore _ _ SOK_rfl) _
        | some alt =>
          try dsimp only
          refine Ok_bind
            (Ok_weaken (SOK_restore _ _ SOK_rfl)
              (ih (.tAnalyzeCompoundOrStatement _ _) _ True.intro)) ?_
          intro v3 st3 hx3 hsok3
          try dsimp only
          refine Ok_bindst
            (OkSt_pure (SOK_tagRange SOK_rfl
              (lt_restore_len _ _ (by simp [pushStep])))) ?_
          intro y1 hy1 hsoky1
          try dsimp only
          exact Ok_pure (SOK_restore _ _ SOK_rfl) _
    case tAnalyzeSwitchStatement d n =>
      simp only [run]
      try dsimp only
      cases hb : n.childForFieldName "body" with
      | none => exact Ok_pure (SOK_push SOK_rfl _ _) _
      | some b =>
        try dsimp only
        refine Ok_bind ?_ ?_
        · refine Ok_weaken (SOK_push SOK_rfl _ _) (ih _ _ ?_)
          show st.steps.length < (pushStep st _).steps.length
          simp [pushStep]
        · intro v1 st1 hx1 hsok1
          try dsimp only
          have hpu : StepsOK _ st1 := (ih _ _ (by
              show st.steps.length < (pushStep st _).steps.length
              simp [pushStep])).out v1 st1 hx1
          have h01 : st.steps.length < st1.steps.length := by
            have hh := hpu.1
            simp [pushStep] at hh
            omega
          split
          · rename_i dn
            refine Ok_bind
              (Ok_weaken (SOK_push SOK_rfl _ _) (ih (.tDefaultStmts _ _) _ True.intro)) ?_
            intro v2 st2 hx2 hsok2
            try dsimp only
            refine Ok_pure (SOK_tagRange SOK_rfl ?_) _
            exact h01
          · exact Ok_pure SOK_rfl _
    case tCaseList d swIdx cs =>
      simp only [run]
      cases cs with
      | nil => exact Ok_pure SOK_rfl _
      | cons hd rest =>
        obtain ⟨cn, caseValue⟩ := hd
        try dsimp only
        refine Ok_bind
          (Ok_weaken (SOK_push SOK_rfl _ _) (ih (.tCaseStmts _ _) _ True.intro)) ?_
        intro v1 st1 hx1 hsok1
        try dsimp only
        have hp0 : swIdx < st.steps.length := hpre
        have hh : st.steps.length ≤ st1.steps.length ∧ True := by
          refine ⟨?_, True.intro⟩
          have hpu : StepsOK _ st1 :=
            (ih (.tCaseStmts _ _) _ True.intro).out v1 st1 hx1
          have h2 := hpu.1
          simp [pushStep] at h2
          omega
        refine Ok_weaken (SOK_tagRange SOK_rfl hp0) (ih _ _ ?_)
        show swIdx < (tagRange st1 _ _ _).steps.length
        rw [tagRange_length]
        have := hh.1
        omega
    all_goals (
      simp only [run]
      repeat'
        (first
          | exact ih _ _ (by exact True.intro)
          | exact Ok_crash
          | exact Ok_fuelOut
          | refine Ok_bind (ih _ _ (by exact True.intro)) ?_
          | refine OkSt_bind (ih _ _ (by exact True.intro)) ?_
          | refine Ok_bindst ?_ ?_
          | refine Ok_bind ?_ ?_
          | refine Ok_bindv ?_
          | refine Ok_pure ?_ _
          | refine OkSt_pure ?_
          | refine Ok_ite ?_ ?_
          | refine Ok_weaken ?_ (ih _ _ (by exact True.intro))
          | exact SOK_rfl
          | exact SOK_of_eq rfl
          | exact SOK_of_append _ rfl rfl
          | exact SOK_of_append2 _ _ rfl rfl rfl
          | refine SOK_bindParams ?_ _ _ _ _
          | refine SOK_upd ?_ _ _
          | (intro a1 a2 a3 a4; try dsimp only)
          | (intro a1 a2 a3; try dsimp only)
          | (intro a1 a2; try dsimp only)
          | split))

theorem alGet_alSet_self {κ a : Type} [DecidableEq κ] (m : List (κ × a)) (k : κ) (v : a) :
    alGet (alSet m k v) k = some v := by
  induction m with
  | nil => simp [alSet, alGet, List.find?]
  | cons hd tl ih =>
    obtain ⟨k2, v2⟩ := hd
    rw [alSet]
    by_cases hk : k2 = k
    · rw [if_pos hk]
      simp [alGet, List.find?]
    · rw [if_neg hk]
      simpa [alGet, List.find?, hk] using ih

theorem alGet_alSet_ne {κ a : Type} [DecidableEq κ] (m : List (κ × a)) {k k2 : κ} (v : a)
    (h : k2 ≠ k) : alGet (alSet m k2 v) k = alGet m k := by
  induction m with
  | nil => simp [alSet, alGet, List.find?, h]
  | cons hd tl ih =>
    obtain ⟨k3, v3⟩ := hd
    rw [alSet]
    by_cases hk : k3 = k2
    · rw [if_pos hk]
      subst hk
      simp [alGet, List.find?, h]
    · rw [if_neg hk]
      by_cases hk3 : k3 = k
      · simp [alGet, List.find?, hk3]
      · simpa [alGet, List.find?, hk3] using ih

theorem wellTagged_nil : WellTagged [] := by
  intro j stp tag hget
  cases j <;> simp [List.get?] at hget

/-- Every step list the unroller returns is backward tagged. -/
theorem generateSteps_wellTagged {rand : Nat} {root : Node} {steps : List Step}
    (h : generateSteps rand root = .ok steps) : WellTagged steps := by
  unfold generateSteps at h
  dsimp only at h
  rcases hm : alGet (populateFunctionMap root) "main" with _ | mainNode <;> rw [hm] at h <;>
    dsimp only at h
  · rcases hr : run (populateFunctionMap root) (genFuel root) (.tAnalyzeNode 0 root)
        (initialAState rand) with a | _ | _ <;> rw [hr] at h
    · obtain ⟨v, stf⟩ := a
      have hg := (run_stepsOK (populateFunctionMap root) (genFuel root)
        (.tAnalyzeNode 0 root) (initialAState rand) True.intro).out v stf hr
      have hsteps : stf.steps = steps := by injection h
      rw [← hsteps]
      exact hg.2 wellTagged_nil
    · exact Res.noConfusion h
    · exact Res.noConfusion h
  · rcases hr : run (populateFunctionMap root) (genFuel root) (.tAnalyzeNode 0 mainNode)
        (initialAState rand) with a | _ | _ <;> rw [hr] at h
    · obtain ⟨v, stf⟩ := a
      have hg := (run_stepsOK (populateFunctionMap root) (genFuel root)
        (.tAnalyzeNode 0 mainNode) (initialAState rand) True.intro).out v stf hr
      have hsteps : stf.steps = steps := by injection h
      rw [← hsteps]
      exact hg.2 wellTagged_nil
    · exact Res.noConfusion h
    · exact Res.noConfusion h

/-- Reaching an executable IF_STATEMENT whose condition evaluates false
records the skip entry (i, if-true). -/
theorem autoPrefix_skip_at_if (steps : List Step) (es0 : ExecState) (s0 : SinkState)
    {i : Nat} {stpI : Step} {cond : String} {hT hF : Bool}
    (hget : steps.get? i = some stpI)
    (hif : stpI.data = .ifStatement cond hT hF)
    (hreach : shouldSkip stpI.branches (autoPrefix steps es0 s0 i).skip = false)
    (hcond : evaluateConditionFromState (autoPrefix steps es0 s0 i).es cond = false) :
    alGet (autoPrefix steps es0 s0 (i+1)).skip i = some "if-true" := by
  rw [autoPrefix, autoStep, hget]
  try dsimp only
  rw [hreach, if_neg Bool.false_ne_true]
  rcases hE : executeStep stpI (autoPrefix steps es0 s0 i).es (autoPrefix steps es0 s0 i).sink
    with ⟨es2, s2, effs⟩
  try dsimp only
  rw [hif]
  try dsimp only
  rw [hcond, if_neg Bool.false_ne_true]
  exact alGet_alSet_self _ _ _

/-- Skip entries keyed below the loop counter persist. -/
theorem autoPrefix_skip_persist (steps : List Step) (es0 : ExecState) (s0 : SinkState)
    {i n : Nat} {b : String} (hin : i < n)
    (hget : alGet (autoPrefix steps es0 s0 n).skip i = some b) :
    ∀ (m : Nat), n ≤ m → alGet (autoPrefix steps es0 s0 m).skip i = some b := by
  intro m hnm
  induction m, hnm using Nat.le_induction with
  | base => exact hget
  | succ m hm ih =>
    have hne : (m : Nat) ≠ i := by omega
    rw [autoPrefix, autoStep]
    rcases hg : steps.get? m with _ | stp
    · exact ih
    · try dsimp only
      by_cases hs : shouldSkip stp.branches (autoPrefix steps es0 s0 m).skip = true
      · rw [hs, if_pos rfl]
        exact ih
      · rw [Bool.not_eq_true] at hs
        rw [hs, if_neg Bool.false_ne_true]
        rcases hE : executeStep stp (autoPrefix steps es0 s0 m).es (autoPrefix steps es0 s0 m).sink
          with ⟨es2, s2, effs⟩
        try dsimp only
        rcases hd : stp.data with
          _ | _ | _ | _ | _ | _ | _ | _ | _ | _ | _ | _ | _ | ⟨c, t, f⟩ | _ | _ | _ | _ | _ | _
        all_goals (try dsimp only; try exact ih)
        split
        · rw [alGet_alSet_ne _ _ hne]
          exact ih
        · rw [alGet_alSet_ne _ _ hne]
          exact ih

/-- A step index is executed exactly when the loop reaches it and its tags
pass the skip check at that point. -/
theorem autoPrefix_executed (steps : List Step) (es0 : ExecState) (s0 : SinkState) :
    ∀ (n j : Nat), j ∈ (autoPrefix steps es0 s0 n).executed ↔
      (j < n ∧ ∃ stp, steps.get? j = some stp ∧
        shouldSkip stp.branches (autoPrefix steps es0 s0 j).skip = false) := by
  intro n
  induction n with
  | zero => intro j; simp [autoPrefix]
  | succ n ih =>
    intro j
    rw [autoPrefix, autoStep]
    rcases hg : steps.get? n with _ | stp
    · rw [ih j]
      constructor
      · rintro ⟨hj, hst⟩
        exact ⟨Nat.lt_succ_of_lt hj, hst⟩
      · rintro ⟨hj, stp, hget, hsk⟩
        refine ⟨?_, stp, hget, hsk⟩
        rcases Nat.lt_succ_iff_lt_or_eq.mp hj with hlt | rfl
        · exact hlt
        · rw [hg] at hget
          cases hget
    · try dsimp only
      by_cases hs : shouldSkip stp.branches (autoPrefix steps es0 s0 n).skip = true
      · rw [hs, if_pos rfl]
        rw [ih j]
        constructor
        · rintro ⟨hj, hst⟩
          exact ⟨Nat.lt_succ_of_lt hj, hst⟩
        · rintro ⟨hj, stp2, hget2, hsk2⟩
          refine ⟨?_, stp2, hget2, hsk2⟩
          rcases Nat.lt_succ_iff_lt_or_eq.mp hj with hlt | rfl
          · exact hlt
          · rw [hg] at hget2
            cases hget2
            rw [hsk2] at hs
            cases hs
      · rw [Bool.not_eq_true] at hs
        rw [hs, if_neg Bool.false_ne_true]
        rcases hE : executeStep stp (autoPrefix steps es0 s0 n).es (autoPrefix steps es0 s0 n).sink
          with ⟨es2, s2, effs⟩
        try dsimp only
        rw [List.mem_append, List.mem_singleton, ih j]
        constructor
        · rintro (⟨hj, hst⟩ | rfl)
          · exact ⟨Nat.lt_succ_of_lt hj, hst⟩
          · exact ⟨Nat.lt_succ_self _, stp, hg, hs⟩
        · rintro ⟨hj, stp2, hget2, hsk2⟩
          rcases Nat.lt_succ_iff_lt_or_eq.mp hj with hlt | rfl
          · exact Or.inl ⟨hlt, stp2, hget2, hsk2⟩
          · exact Or.inr rfl

/- The C1 walkthrough program:
   int x = 0; if (x > 5) { x = 1; } else { x = 2; } -/

def c1Decl : Node :=
  nd "declaration" "int x = 0;" 1 [
    fch "type" (nd "primitive_type" "int" 1 []),
    nch (nd "init_declarator" "x = 0" 1 [
      fch "declarator" (nd "identifier" "x" 1 []),
      fch "value" (nd "number_literal" "0" 1 [])])]

def c1If : Node :=
  nd "if_statement" "if (x > 5)" 2 [
    fch "condition" (nd "condition_clause" "(x > 5)" 2 [
      nch (nd "binary_expression" "x > 5" 2 [
        fch "left" (nd "identifier" "x" 2 []),
        tok ">",
        fch "right" (nd "number_literal" "5" 2 [])])]),
    fch "consequence" (Node.mk "compound_statement" "" 2 4 [
      nch (nd "expression_statement" "x = 1;" 3 [
        nch (nd "assignment_expression" "x = 1" 3 [
          fch "left" (nd "identifier" "x" 3 []),
          tok "=",
          fch "right" (nd "number_literal" "1" 3 [])])])]),
    fch "alternative" (Node.mk "compound_statement" "" 4 6 [
      nch (nd "expression_statement" "x = 2;" 5 [
        nch (nd "assignment_expression" "x = 2" 5 [
          fch "left" (nd "identifier" "x" 5 []),
          tok "=",
          fch "right" (nd "number_literal" "2" 5 [])])])])]

def c1Tree : Node := mkProgram [mkMain [c1Decl, c1If] 7]

/-- The step list the unroller produces for the C1 program. -/
def c1Steps : List Step :=
  [ { data := .pushFrame "main", line := 1, branches := [] },
    { data := .setVariable "x" (.num 0) "int" "0x7FFE1A00", line := 2, branches := [] },
    { data := .ifStatement "(x > 5)" true true, line := 3, branches := [] },
    { data := .updateVariable "x" (.num 1), line := 4, branches := [⟨"if-true", 2⟩] },
    { data := .updateVariable "x" (.num 2), line := 6, branches := [⟨"if-false", 2⟩] },
    { data := .popFrame "main", line := 8, branches := [] } ]

/-- C1: in every step list the unroller produces, tags point backward, so
once the executor reaches an executable IF_STATEMENT whose condition
evaluates false against the runtime state, the recorded skip entry
(i, if-true) persists, every step carrying the tag (if-true, i) is
suppressed, and every step whose only tag is (if-false, i) executes.
Concretely, for int x = 0; if (x > 5) \x7b x = 1; \x7d else \x7b x = 2; \x7d
the executor skips exactly the if-true step and x ends at 2. -/
theorem C1_if_false_branch_suppression :
    (∀ (rand : Nat) (tree : Node) (steps : List Step) (es0 : ExecState) (s0 : SinkState)
        (i : Nat) (stpI : Step) (cond : String) (hT hF : Bool),
      generateSteps rand tree = .ok steps →
      steps.get? i = some stpI →
      stpI.data = .ifStatement cond hT hF →
      shouldSkip stpI.branches (autoPrefix steps es0 s0 i).skip = false →
      evaluateConditionFromState (autoPrefix steps es0 s0 i).es cond = false →
      (∀ (j : Nat) (stp : Step), steps.get? j = some stp →
          (⟨"if-true", i⟩ : BranchTag) ∈ stp.branches →
          j ∉ (runAuto steps es0 s0).executed) ∧
      (∀ (j : Nat) (stp : Step), steps.get? j = some stp →
          stp.branches = [⟨"if-false", i⟩] →
          j ∈ (runAuto steps es0 s0).executed)) ∧
    generateSteps 0 c1Tree = .ok c1Steps ∧
    (runAuto c1Steps (cleanExec 0x7FFE1A01) (initialSink 0)).executed = [0, 1, 2, 4, 5] ∧
    (alGet (runAuto c1Steps (cleanExec 0x7FFE1A01) (initialSink 0)).es.rv "x").map Binding.value
      = some (.num 2) := by
  refine ⟨?_, rfl, rfl, rfl⟩
  intro rand tree steps es0 s0 i stpI cond hT hF hgen hgetI hifI hreach hcond
  have hwt : WellTagged steps := generateSteps_wellTagged hgen
  have hset : alGet (autoPrefix steps es0 s0 (i+1)).skip i = some "if-true" :=
    autoPrefix_skip_at_if steps es0 s0 hgetI hifI hreach hcond
  constructor
  · intro j stp hgetj htag hmem
    have hij : i < j := hwt j stp ⟨"if-true", i⟩ hgetj htag
    have hskipj : alGet (autoPrefix steps es0 s0 j).skip i = some "if-true" :=
      autoPrefix_skip_persist steps es0 s0 (Nat.lt_succ_self i) hset j hij
    obtain ⟨hjlen, stp2, hgetj2, hsk⟩ :=
      (autoPrefix_executed steps es0 s0 steps.length j).mp hmem
    rw [hgetj] at hgetj2
    have hstp : stp = stp2 := by injection hgetj2
    subst hstp
    have htrue : shouldSkip stp.branches (autoPrefix steps es0 s0 j).skip = true := by
      unfold shouldSkip
      rw [Bool.and_eq_true]
      refine ⟨?_, ?_⟩
      · cases hb : stp.branches with
        | nil => rw [hb] at htag; cases htag
        | cons a l => simp
      · rw [List.any_eq_true]
        refine ⟨⟨"if-true", i⟩, htag, ?_⟩
        rw [hskipj]
        simp
    rw [htrue] at hsk
    cases hsk
  · intro j stp hgetj hbr
    have hij : i < j :=
      hwt j stp ⟨"if-false", i⟩ hgetj (by rw [hbr]; exact List.mem_singleton.mpr rfl)
    have hskipj : alGet (autoPrefix steps es0 s0 j).skip i = some "if-true" :=
      autoPrefix_skip_persist steps es0 s0 (Nat.lt_succ_self i) hset j hij
    refine (autoPrefix_executed steps es0 s0 steps.length j).mpr ⟨?_, stp, hgetj, ?_⟩
    · obtain ⟨hlt, _⟩ := List.get?_eq_some.mp hgetj
      exact hlt
    · rw [hbr]
      unfold shouldSkip
      simp [hskipj]

/-- Witness for C1: at the concrete program the if-marker sits at index 2,
its condition is runtime-false, the if-true step (index 3) is suppressed
and the if-false step (index 4) executes. -/
theorem C1_if_false_branch_suppression_witness :
    3 ∉ (runAuto c1Steps (cleanExec 0x7FFE1A01) (initialSink 0)).executed ∧
    4 ∈ (runAuto c1Steps (cleanExec 0x7FFE1A01) (initialSink 0)).executed :=
  have h := C1_if_false_branch_suppression.1 0 c1Tree c1Steps (cleanExec 0x7FFE1A01)
    (initialSink 0) 2 ⟨.ifStatement "(x > 5)" true true, 3, []⟩ "(x > 5)" true true
    rfl rfl rfl rfl rfl
  ⟨h.1 3 ⟨.updateVariable "x" (.num 1), 4, [⟨"if-true", 2⟩]⟩ rfl
      (List.mem_singleton.mpr rfl),
   h.2 4 ⟨.updateVariable "x" (.num 2), 6, [⟨"if-false", 2⟩]⟩ rfl rfl⟩

/-! ## C4: termination measure for the unroller -/

/-- Remaining call-depth budget of a task: analyzeFunctionCall refuses to
unroll past callDepth 20, so every depth that recurses is at most 20 and
the budget below never truncates on a recursive edge. -/
def taskA : Task → Nat
  | .tEvaluateExpression _ => 0
  | .tEvalList _ => 0
  | .tEvaluateCondition _ => 0
  | .tAnalyzeNode d _ => 21 - d
  | .tNodeList d _ => 21 - d
  | .tAnalyzeFunctionDefinition d _ => 21 - d
  | .tAnalyzeFunctionBody d _ => 21 - d
  | .tStmtList d _ => 21 - d
  | .tAnalyzeStatement d _ => 21 - d
  | .tAnalyzeDeclaration d _ => 21 - d
  | .tDeclarators d _ _ _ => 21 - d
  | .tAnalyzeFunctionCall d _ _ => 21 - d
  | .tAnalyzeExpressionStatement d _ => 21 - d
  | .tAnalyzeAssignment _ _ => 0
  | .tAnalyzeReturnStatement _ => 0
  | .tAnalyzeIfStatement d _ => 21 - d
  | .tAnalyzeSwitchStatement d _ => 21 - d
  | .tCaseList d _ _ => 21 - d
  | .tCaseStmts d _ => 21 - d
  | .tDefaultStmts d _ => 21 - d
  | .tAnalyzeWhileStatement d _ => 21 - d
  | .tWhileIter d _ _ => 21 - d
  | .tAnalyzeForStatement d _ => 21 - d
  | .tForIter d _ _ => 21 - d
  | .tAnalyzeCompoundOrStatement d _ => 21 - d

/-- Total size of the case nodes still pending in a tCaseList task. -/
def caseSize : List (Node × Option String) → Nat
  | [] => 0
  | (n, _) :: rest => nodeSize n + caseSize rest

/-- The syntax-tree payload size of a task. -/
def taskB : Task → Nat
  | .tEvaluateExpression n => optSize n
  | .tEvalList ns => listSizeN ns
  | .tEvaluateCondition n => optSize n
  | .tAnalyzeNode _ n => nodeSize n
  | .tNodeList _ ns => listSizeN ns
  | .tAnalyzeFunctionDefinition _ n => nodeSize n
  | .tAnalyzeFunctionBody _ n => nodeSize n
  | .tStmtList _ ns => listSizeN ns
  | .tAnalyzeStatement _ n => nodeSize n
  | .tAnalyzeDeclaration _ n => nodeSize n
  | .tDeclarators _ _ _ ns => listSizeN ns
  | .tAnalyzeFunctionCall _ n _ => nodeSize n
  | .tAnalyzeExpressionStatement _ n => nodeSize n
  | .tAnalyzeAssignment n _ => nodeSize n
  | .tAnalyzeReturnStatement n => nodeSize n
  | .tAnalyzeIfStatement _ n => nodeSize n
  | .tAnalyzeSwitchStatement _ n => nodeSize n
  | .tCaseList _ _ cs => caseSize cs
  | .tCaseStmts _ ns => listSizeN ns
  | .tDefaultStmts _ ns => listSizeN ns
  | .tAnalyzeWhileStatement _ n => nodeSize n
  | .tWhileIter _ n _ => nodeSize n
  | .tAnalyzeForStatement _ n => nodeSize n
  | .tForIter _ n _ => nodeSize n
  | .tAnalyzeCompoundOrStatement _ n => nodeSize n

/-- Tie-breaking tier of a task, ordered so that every recursive edge of
the unroller that keeps the depth budget and the payload size drops the
tier (or strictly drops one of the two stronger components). -/
def taskC : Task → Nat
  | .tEvaluateExpression _ => 1
  | .tEvalList _ => 2
  | .tEvaluateCondition _ => 2
  | .tAnalyzeNode _ _ => 6
  | .tNodeList _ _ => 7
  | .tAnalyzeFunctionDefinition _ _ => 5
  | .tAnalyzeFunctionBody _ _ => 1
  | .tStmtList _ _ => 5
  | .tAnalyzeStatement _ _ => 4
  | .tAnalyzeDeclaration _ _ => 3
  | .tDeclarators _ _ _ _ => 5
  | .tAnalyzeFunctionCall _ _ _ => 2
  | .tAnalyzeExpressionStatement _ _ => 3
  | .tAnalyzeAssignment _ _ => 3
  | .tAnalyzeReturnStatement _ => 3
  | .tAnalyzeIfStatement _ _ => 3
  | .tAnalyzeSwitchStatement _ _ => 3
  | .tCaseList _ _ _ => 5
  | .tCaseStmts _ _ => 5
  | .tDefaultStmts _ _ => 5
  | .tAnalyzeWhileStatement _ _ => 3
  | .tWhileIter _ _ _ => 2
  | .tAnalyzeForStatement _ _ => 3
  | .tForIter _ _ _ => 2
  | .tAnalyzeCompoundOrStatement _ _ => 5

/-- Remaining loop-iteration countdown: while/for iteration tasks stop
once the iteration counter reaches 10. -/
def taskE : Task → Nat
  | .tWhileIter _ _ it => 11 - it
  | .tForIter _ _ it => 11 - it
  | _ => 0

/-- The four measure components packed lexicographically into one Nat,
assuming the payload stays at most S on depth-dropping edges, the tier at
most 7, and the countdown at most 15. -/
def encM (S a b c e : Nat) : Nat := ((a * (S + 1) + b) * 8 + c) * 16 + e

/-- The task measure: fuel strictly above it never runs out. -/
def taskEnc (S : Nat) (t : Task) : Nat :=
  encM S (taskA t) (taskB t) (taskC t) (taskE t)

theorem encM_expand (S a b c e : Nat) :
    encM S a b c e = 128 * (a * (S + 1)) + 128 * b + 16 * c + e := by
  unfold encM
  ring

/-- Lexicographic drop on the depth-budget component. -/
theorem encA {S a2 a1 : Nat} {b2 b1 c2 c1 e2 e1 : Nat} (ha : a2 < a1) (hb : b2 ≤ S)
    (hc : c2 ≤ 7) (he : e2 ≤ 15) : encM S a2 b2 c2 e2 < encM S a1 b1 c1 e1 := by
  have h1 : a2 * (S + 1) + (S + 1) ≤ a1 * (S + 1) := by
    have h2 : (a2 + 1) * (S + 1) ≤ a1 * (S + 1) :=
      Nat.mul_le_mul (Nat.succ_le_of_lt ha) (Nat.le_refl (S + 1))
    rw [Nat.succ_mul] at h2
    exact h2
  rw [encM_expand, encM_expand]
  linarith

/-- Weak drop on the depth budget with a strict payload-size drop. -/
theorem encB {S a2 a1 : Nat} {b2 b1 c2 c1 e2 e1 : Nat} (ha : a2 ≤ a1) (hb : b2 < b1)
    (hc : c2 ≤ 7) (he : e2 ≤ 15) : encM S a2 b2 c2 e2 < encM S a1 b1 c1 e1 := by
  have h1 : a2 * (S + 1) ≤ a1 * (S + 1) := Nat.mul_le_mul ha (Nat.le_refl (S + 1))
  rw [encM_expand, encM_expand]
  linarith

/-- Weak drops on depth budget and payload with a strict tier drop. -/
theorem encC {S a2 a1 : Nat} {b2 b1 c2 c1 e2 e1 : Nat} (ha : a2 ≤ a1) (hb : b2 ≤ b1)
    (hc : c2 < c1) (he : e2 ≤ 15) : encM S a2 b2 c2 e2 < encM S a1 b1 c1 e1 := by
  have h1 : a2 * (S + 1) ≤ a1 * (S + 1) := Nat.mul_le_mul ha (Nat.le_refl (S + 1))
  rw [encM_expand, encM_expand]
  linarith

/-- Lexicographic drop on the loop-countdown component. -/
theorem encD {S a b c : Nat} {e2 e1 : Nat} (he : e2 < e1) :
    encM S a b c e2 < encM S a b c e1 := by
  rw [encM_expand, encM_expand]
  linarith

/-! Size facts about the node-inspection interface. -/

theorem nodeSize_pos (n : Node) : 0 < nodeSize n := by
  cases n
  unfold nodeSize
  omega

theorem size_le_childListSize {cs : List (Option String × Bool × Node)}
    {c : Option String × Bool × Node} (h : c ∈ cs) :
    nodeSize c.2.2 ≤ childListSize cs := by
  induction cs with
  | nil => cases h
  | cons hd tl ih =>
    obtain ⟨f, b, m⟩ := hd
    rcases List.mem_cons.mp h with h | h
    · subst h
      dsimp [childListSize]
      omega
    · have h2 := ih h
      dsimp [childListSize]
      omega

theorem listSizeN_cons (x : Node) (ns : List Node) :
    listSizeN (x :: ns) = nodeSize x + listSizeN ns := by
  simp [listSizeN]

theorem mem_le_listSizeN {x : Node} {ns : List Node} (h : x ∈ ns) :
    nodeSize x ≤ listSizeN ns := by
  induction ns with
  | nil => cases h
  | cons hd tl ih =>
    rw [listSizeN_cons]
    rcases List.mem_cons.mp h with h | h
    · subst h
      omega
    · have h2 := ih h
      omega

theorem listSizeN_filterMapChildren (p : Option String × Bool × Node → Bool)
    (cs : List (Option String × Bool × Node)) :
    listSizeN ((cs.filter p).map (fun c => c.2.2)) ≤ childListSize cs := by
  induction cs with
  | nil => simp [listSizeN, childListSize]
  | cons hd tl ih =>
    obtain ⟨f, b, m⟩ := hd
    dsimp [childListSize]
    rw [List.filter_cons]
    split
    · rw [List.map_cons, listSizeN_cons]
      dsimp only
      omega
    · omega

theorem listSizeN_namedChildren (n : Node) : listSizeN n.namedChildren < nodeSize n := by
  cases n with
  | mk k t r1 r2 cs =>
    dsimp [Node.namedChildren, Node.children, nodeSize]
    have h := listSizeN_filterMapChildren (fun c => c.2.1) cs
    omega

theorem optSize_namedChild (n : Node) (i : Nat) : optSize (n.namedChild i) < nodeSize n := by
  unfold Node.namedChild
  rcases hg : n.namedChildren.get? i with _ | x
  · dsimp [optSize]
    exact nodeSize_pos n
  · dsimp [optSize]
    have hx : x ∈ n.namedChildren := List.get?_mem hg
    exact Nat.lt_of_le_of_lt (mem_le_listSizeN hx) (listSizeN_namedChildren n)

theorem optSize_cffn (n : Node) (f : String) : optSize (n.childForFieldName f) < nodeSize n := by
  rcases hg : n.childForFieldName f with _ | m
  · dsimp [optSize]
    exact nodeSize_pos n
  · dsimp [optSize]
    unfold Node.childForFieldName at hg
    rcases hf : n.children.find? (fun c => c.1 = some f) with _ | c
    · rw [hf] at hg
      exact Option.noConfusion hg
    · rw [hf] at hg
      dsimp [Option.map] at hg
      have hm := Option.some.inj hg
      have hc : c ∈ n.children := List.mem_of_find?_eq_some hf
      cases n with
      | mk k t r1 r2 cs =>
        have h2 := @size_le_childListSize cs c hc
        dsimp [nodeSize]
        rw [← hm]
        omega

theorem optSize_unwrapCond : ∀ (fuel : Nat) (o : Option Node),
    optSize (unwrapCond fuel o) ≤ optSize o := by
  intro fuel
  induction fuel with
  | zero =>
    intro o
    cases o <;> simp [unwrapCond]
  | succ fuel ih =>
    intro o
    cases o with
    | none => simp [unwrapCond]
    | some n =>
      rw [unwrapCond]
      split
      · have h1 := ih (n.namedChild 0)
        have h2 := optSize_namedChild n 0
        rw [show optSize (some n) = nodeSize n from rfl]
        omega
      · exact Nat.le_refl _

theorem caseSize_filterMap (ns : List Node) (f : Node → Option (Node × Option String))
    (hf : ∀ cn pr, f cn = some pr → pr.1 = cn) :
    caseSize (ns.filterMap f) ≤ listSizeN ns := by
  induction ns with
  | nil => simp [caseSize, listSizeN]
  | cons x rest ih =>
    rw [List.filterMap_cons, listSizeN_cons]
    rcases hx : f x with _ | pr
    · dsimp only
      omega
    · obtain ⟨pn, pv⟩ := pr
      have he := hf x (pn, pv) hx
      dsimp only at he
      subst he
      dsimp only [caseSize]
      omega

/-! Facts about fuelOut-freedom of Res computations. -/

theorem NF_ok {α : Type} (a : α) : (Res.ok a : Res α) ≠ Res.fuelOut :=
  fun h => Res.noConfusion h

theorem NF_crash {α : Type} : (Res.crash : Res α) ≠ Res.fuelOut :=
  fun h => Res.noConfusion h

theorem NF_pure {α : Type} (a : α) : (pure a : Res α) ≠ Res.fuelOut :=
  fun h => Res.noConfusion h

theorem NF_bind {α β : Type} {x : Res α} {f : α → Res β}
    (h1 : x ≠ Res.fuelOut) (h2 : ∀ a, f a ≠ Res.fuelOut) :
    (x >>= f) ≠ Res.fuelOut := by
  cases x with
  | ok a => exact h2 a
  | crash => exact NF_crash
  | fuelOut => exact absurd rfl h1

theorem NF_pure_bind {α β : Type} {a : α} {f : α → Res β}
    (h : f a ≠ Res.fuelOut) : ((pure a : Res α) >>= f) ≠ Res.fuelOut := h

/-- Reduction of a bind whose left side is pure, used as a rewrite so the
unifier never has to see through it. -/
theorem pure_bind_red {α β : Type} (a : α) (f : α → Res β) :
    ((pure a : Res α) >>= f) = f a := rfl

theorem NF_ite {α : Type} {c : Prop} [Decidable c] {A B : Res α}
    (hA : A ≠ Res.fuelOut) (hB : B ≠ Res.fuelOut) :
    (if c then A else B) ≠ Res.fuelOut := by
  split
  · exact hA
  · exact hB

theorem mem_of_getLast?_my {a : Type} {l : List a} {x : a} (h : l.getLast? = some x) :
    x ∈ l := by
  induction l with
  | nil => exact Option.noConfusion h
  | cons y t ih =>
    cases t with
    | nil =>
      rw [List.getLast?_singleton] at h
      cases Option.some.inj h
      exact List.mem_cons_self _ _
    | cons z t2 =>
      rw [List.getLast?_cons_cons] at h
      exact List.mem_cons_of_mem y (ih h)

theorem NF_mkDefaultArray (v : Value) : mkDefaultArray v ≠ Res.fuelOut := by
  unfold mkDefaultArray
  repeat'
    (first
      | exact NF_ok _
      | exact NF_crash
      | split)

/-- The subscript-index extraction chain of evaluateExpression and
analyzeAssignment only produces the index/subscript field child, the second
named child, or a named child of one of those, so its size stays below the
subscript node. -/
theorem optSize_subscript_tower (node : Node) :
    optSize (match (match (match node.childForFieldName "index" with
        | some e => some e
        | none => node.childForFieldName "subscript") with
      | some e => some e
      | none => if node.namedChildren.length ≥ 2 then node.namedChild 1 else none) with
    | some ie =>
        if ie.kind = "subscript_argument" || strStartsWith ie.text "[" then
          if ie.namedChildren.length > 0 then ie.namedChild 0 else some ie
        else some ie
    | none => none) < nodeSize node := by
  rcases hI : node.childForFieldName "index" with _ | e
  · dsimp only
    rcases hS : node.childForFieldName "subscript" with _ | e2
    · dsimp only
      rcases hN : node.namedChild 1 with _ | ie
      · by_cases hlen : node.namedChildren.length ≥ 2
        · rw [if_pos hlen]
          exact nodeSize_pos node
        · rw [if_neg hlen]
          exact nodeSize_pos node
      · by_cases hlen : node.namedChildren.length ≥ 2
        · rw [if_pos hlen]
          dsimp only
          have hIe : nodeSize ie < nodeSize node := by
            have h2 := optSize_namedChild node 1
            rw [hN] at h2
            exact h2
          split
          · split
            · exact Nat.lt_trans (optSize_namedChild ie 0) hIe
            · exact hIe
          · exact hIe
        · rw [if_neg hlen]
          exact nodeSize_pos node
    · dsimp only
      have hE : nodeSize e2 < nodeSize node := by
        have h2 := optSize_cffn node "subscript"
        rw [hS] at h2
        exact h2
      split
      · split
        · exact Nat.lt_trans (optSize_namedChild e2 0) hE
        · exact hE
      · exact hE
  · dsimp only
    have hE : nodeSize e < nodeSize node := by
      have h2 := optSize_cffn node "index"
      rw [hI] at h2
      exact h2
    split
    · split
      · exact Nat.lt_trans (optSize_namedChild e 0) hE
      · exact hE
    · exact hE

set_option maxHeartbeats 2000000 in
set_option maxRecDepth 4096 in
/-- With fuel strictly above the task measure, the unroller never runs
out of fuel: every recursive call strictly drops the measure.  The fm
bound hfm feeds the one edge that enters a function body from a call. -/
theorem run_nf (fm : List (String × Node)) (S : Nat)
    (hfm : ∀ (k : String) (fd : Node), alGet fm k = some fd → nodeSize fd ≤ S) :
    ∀ (fuel : Nat) (t : Task) (st : AState), taskEnc S t < fuel →
      run fm fuel t st ≠ Res.fuelOut := by
  intro fuel
  induction fuel with
  | zero =>
    intro t st h
    exact absurd h (Nat.not_lt_zero _)
  | succ fuel ih =>
    intro t st h
    have hle : taskEnc S t ≤ fuel := Nat.lt_succ_iff.mp h
    have ihE : ∀ (t2 : Task) (st2 : AState), taskEnc S t2 < taskEnc S t →
        run fm fuel t2 st2 ≠ Res.fuelOut :=
      fun t2 st2 hlt => ih t2 st2 (Nat.lt_of_lt_of_le hlt hle)
    cases t
    case tEvaluateExpression nn =>
      simp only [run]
      cases nn with
      | none => exact NF_ok _
      | some node =>
        try dsimp only
        by_cases h1 : node.kind = "parenthesized_expression"
        · rw [if_pos h1]
          refine ihE _ _ ?_
          dsimp only [taskEnc, taskA, taskB, taskC, taskE, optSize]
          exact encB (by omega) (optSize_namedChild node 0) (by omega) (by omega)
        rw [if_neg h1]
        by_cases h2 : node.kind = "number_literal"
        · rw [if_pos h2]
          exact NF_ok _
        rw [if_neg h2]
        by_cases h3 : node.kind = "string_literal"
        · rw [if_pos h3]
          exact NF_ok _
        rw [if_neg h3]
        by_cases h4 : node.kind = "pointer_expression"
        · rw [if_pos h4]
          split
          · split
            · exact NF_ok _
            · exact NF_ok _
          · exact NF_ok _
        rw [if_neg h4]
        by_cases h5 : node.kind = "binary_expression"
        · rw [if_pos h5]
          refine NF_bind (ihE _ _ ?_) ?_
          · dsimp only [taskEnc, taskA, taskB, taskC, taskE, optSize]
            exact encB (by omega) (optSize_cffn node "left") (by omega) (by omega)
          intro a
          obtain ⟨v1, st1⟩ := a
          try dsimp only
          refine NF_bind (ihE _ _ ?_) ?_
          · dsimp only [taskEnc, taskA, taskB, taskC, taskE, optSize]
            exact encB (by omega) (optSize_cffn node "right") (by omega) (by omega)
          intro a
          obtain ⟨v2, st2⟩ := a
          try dsimp only
          repeat'
            (first
              | exact NF_ok _
              | exact NF_crash
              | refine NF_ite ?_ ?_
              | split)
        rw [if_neg h5]
        by_cases h6 : node.kind = "sizeof_expression"
        · rw [if_pos h6]
          repeat' split
          all_goals exact NF_ok _
        rw [if_neg h6]
        by_cases h7 : node.kind = "subscript_expression"
        · rw [if_pos h7]
          try dsimp only
          refine NF_bind (ihE _ _ ?_) ?_
          · dsimp only [taskEnc, taskA, taskB, taskC, taskE, optSize]
            exact encB (by omega) (optSize_cffn node "argument") (by omega) (by omega)
          intro a
          obtain ⟨v1, st1⟩ := a
          try dsimp only
          refine NF_bind (ihE _ _ ?_) ?_
          · dsimp only [taskEnc, taskA, taskB, taskC, taskE, optSize]
            exact encB (by omega) (optSize_subscript_tower node) (by omega) (by omega)
          intro a
          obtain ⟨v2, st2⟩ := a
          try dsimp only
          repeat' split
          all_goals exact NF_ok _
        rw [if_neg h7]
        by_cases h8 : node.kind = "identifier"
        · rw [if_pos h8]
          split
          · exact NF_ok _
          · exact NF_ok _
        rw [if_neg h8]
        exact NF_ok _
    case tEvalList ns =>
      simp only [run]
      cases ns with
      | nil => exact NF_ok _
      | cons x rest =>
        try dsimp only
        refine NF_bind (ihE _ _ ?_) ?_
        · dsimp only [taskEnc, taskA, taskB, taskC, taskE, optSize]
          refine encC (by omega) ?_ (by omega) (by omega)
          rw [listSizeN_cons]
          omega
        intro a
        obtain ⟨v, st1⟩ := a
        try dsimp only
        refine NF_bind (ihE _ _ ?_) ?_
        · dsimp only [taskEnc, taskA, taskB, taskC, taskE]
          refine encB (by omega) ?_ (by omega) (by omega)
          rw [listSizeN_cons]
          have h3 := nodeSize_pos x
          omega
        intro a
        obtain ⟨restArr, st2⟩ := a
        try dsimp only
        split
        · exact NF_ok _
        · exact NF_ok _
    case tEvaluateCondition nn =>
      simp only [run]
      cases nn with
      | none => exact NF_ok _
      | some c0 =>
        try dsimp only
        rcases hu : unwrapCond (nodeSize c0 + 1) (some c0) with _ | condition
        · exact NF_ok _
        · dsimp only
          have hcsz : nodeSize condition ≤ nodeSize c0 := by
            have h2 := optSize_unwrapCond (nodeSize c0 + 1) (some c0)
            rw [hu] at h2
            exact h2
          by_cases hb1 : condition.kind = "binary_expression"
          · rw [if_pos hb1]
            split
            · exact NF_ok _
            · refine NF_bind (ihE _ _ ?_) ?_
              · dsimp only [taskEnc, taskA, taskB, taskC, taskE, optSize]
                refine encC (by omega) ?_ (by omega) (by omega)
                have h3 := optSize_cffn condition "left"
                dsimp only [optSize] at h3
                omega
              intro a
              obtain ⟨lv, st1⟩ := a
              try dsimp only
              refine NF_bind (ihE _ _ ?_) ?_
              · dsimp only [taskEnc, taskA, taskB, taskC, taskE, optSize]
                refine encC (by omega) ?_ (by omega) (by omega)
                have h3 := optSize_cffn condition "right"
                dsimp only [optSize] at h3
                omega
              intro a
              obtain ⟨rv, st2⟩ := a
              try dsimp only
              repeat'
                (first
                  | exact NF_ok _
                  | refine NF_ite ?_ ?_
                  | split)
          · rw [if_neg hb1]
            split
            · refine NF_bind (ihE _ _ ?_) ?_
              · dsimp only [taskEnc, taskA, taskB, taskC, taskE, optSize]
                refine encB (by omega) ?_ (by omega) (by omega)
                have h3 := optSize_namedChild condition 0
                dsimp only [optSize] at h3
                omega
              intro a
              obtain ⟨v, st1⟩ := a
              try dsimp only
              exact NF_ok _
            · split
              · refine NF_bind (ihE _ _ ?_) ?_
                · dsimp only [taskEnc, taskA, taskB, taskC, taskE, optSize]
                  refine encC (by omega) ?_ (by omega) (by omega)
                  exact hcsz
                intro a
                obtain ⟨v, st1⟩ := a
                try dsimp only
                exact NF_ok _
              · repeat'
                  (first
                    | exact NF_ok _
                    | split)
    case tAnalyzeNode d n =>
      simp only [run]
      split
      · refine ihE _ _ ?_
        dsimp only [taskEnc, taskA, taskB, taskC, taskE]
        exact encB (by omega) (listSizeN_namedChildren n) (by omega) (by omega)
      · split
        · refine ihE _ _ ?_
          dsimp only [taskEnc, taskA, taskB, taskC, taskE]
          exact encC (by omega) (Nat.le_refl _) (by omega) (by omega)
        · refine ihE _ _ ?_
          dsimp only [taskEnc, taskA, taskB, taskC, taskE]
          exact encB (by omega) (listSizeN_namedChildren n) (by omega) (by omega)
    case tNodeList d ns =>
      simp only [run]
      cases ns with
      | nil => exact NF_ok _
      | cons x rest =>
        try dsimp only
        refine NF_bind (ihE _ _ ?_) ?_
        · dsimp only [taskEnc, taskA, taskB, taskC, taskE]
          refine encC (by omega) ?_ (by omega) (by omega)
          rw [listSizeN_cons]
          omega
        intro a
        obtain ⟨v, st1⟩ := a
        try dsimp only
        refine ihE _ _ ?_
        dsimp only [taskEnc, taskA, taskB, taskC, taskE]
        refine encB (by omega) ?_ (by omega) (by omega)
        rw [listSizeN_cons]
        have h3 := nodeSize_pos x
        omega
    case tAnalyzeFunctionDefinition d n =>
      simp only [run]
      try dsimp only
      rcases hb : n.childForFieldName "body" with _ | body
      · exact NF_ok _
      · dsimp only
        refine NF_bind (ihE _ _ ?_) ?_
        · dsimp only [taskEnc, taskA, taskB, taskC, taskE]
          refine encC (by omega) ?_ (by omega) (by omega)
          have h2 := optSize_cffn n "body"
          rw [hb] at h2
          dsimp only [optSize] at h2
          omega
        intro a
        obtain ⟨v, st1⟩ := a
        try dsimp only
        exact NF_ok _
    case tAnalyzeFunctionBody d n =>
      simp only [run]
      refine ihE _ _ ?_
      dsimp only [taskEnc, taskA, taskB, taskC, taskE]
      exact encB (by omega) (listSizeN_namedChildren n) (by omega) (by omega)
    case tStmtList d ns =>
      simp only [run]
      cases ns with
      | nil => exact NF_ok _
      | cons x rest =>
        try dsimp only
        refine NF_bind (ihE _ _ ?_) ?_
        · dsimp only [taskEnc, taskA, taskB, taskC, taskE]
          refine encC (by omega) ?_ (by omega) (by omega)
          rw [listSizeN_cons]
          omega
        intro a
        obtain ⟨v, st1⟩ := a
        try dsimp only
        refine ihE _ _ ?_
        dsimp only [taskEnc, taskA, taskB, taskC, taskE]
        refine encB (by omega) ?_ (by omega) (by omega)
        rw [listSizeN_cons]
        have h3 := nodeSize_pos x
        omega
    case tAnalyzeStatement d n =>
      simp only [run]
      split
      · refine ihE _ _ ?_
        dsimp only [taskEnc, taskA, taskB, taskC, taskE]
        exact encC (by omega) (Nat.le_refl _) (by omega) (by omega)
      · split
        · rcases hc0 : n.namedChild 0 with _ | c
          · dsimp only
            refine ihE _ _ ?_
            dsimp only [taskEnc, taskA, taskB, taskC, taskE]
            exact encC (by omega) (Nat.le_refl _) (by omega) (by omega)
          · dsimp only
            split
            · refine ihE _ _ ?_
              dsimp only [taskEnc, taskA, taskB, taskC, taskE]
              refine encC (by omega) ?_ (by omega) (by omega)
              have h2 := optSize_namedChild n 0
              rw [hc0] at h2
              dsimp only [optSize] at h2
              omega
            · refine ihE _ _ ?_
              dsimp only [taskEnc, taskA, taskB, taskC, taskE]
              exact encC (by omega) (Nat.le_refl _) (by omega) (by omega)
        · split
          · refine ihE _ _ ?_
            dsimp only [taskEnc, taskA, taskB, taskC, taskE]
            exact encC (by omega) (Nat.le_refl _) (by omega) (by omega)
          · split
            · refine ihE _ _ ?_
              dsimp only [taskEnc, taskA, taskB, taskC, taskE]
              exact encC (by omega) (Nat.le_refl _) (by omega) (by omega)
            · split
              · refine ihE _ _ ?_
                dsimp only [taskEnc, taskA, taskB, taskC, taskE]
                exact encC (by omega) (Nat.le_refl _) (by omega) (by omega)
              · split
                · refine ihE _ _ ?_
                  dsimp only [taskEnc, taskA, taskB, taskC, taskE]
                  exact encC (by omega) (Nat.le_refl _) (by omega) (by omega)
                · split
                  · refine ihE _ _ ?_
                    dsimp only [taskEnc, taskA, taskB, taskC, taskE]
                    exact encC (by omega) (Nat.le_refl _) (by omega) (by omega)
                  · refine ihE _ _ ?_
                    dsimp only [taskEnc, taskA, taskB, taskC, taskE]
                    exact encB (by omega) (listSizeN_namedChildren n) (by omega) (by omega)
    case tAnalyzeDeclaration d n =>
      simp only [run]
      try dsimp only
      refine ihE _ _ ?_
      dsimp only [taskEnc, taskA, taskB, taskC, taskE]
      exact encB (by omega) (listSizeN_namedChildren n) (by omega) (by omega)
    case tDeclarators d line tto ns =>
      simp only [run]
      cases ns with
      | nil => exact NF_ok _
      | cons child rest =>
        try dsimp only
        have htail : taskEnc S (Task.tDeclarators d line tto rest) <
            taskEnc S (Task.tDeclarators d line tto (child :: rest)) := by
          dsimp only [taskEnc, taskA, taskB, taskC, taskE]
          refine encB (by omega) ?_ (by omega) (by omega)
          rw [listSizeN_cons]
          have h2 := nodeSize_pos child
          omega
        have hcl : nodeSize child ≤ listSizeN (child :: rest) := by
          rw [listSizeN_cons]
          omega
        refine NF_ite ?_ (ihE _ _ htail)
        rcases hv : child.childForFieldName "value" with _ | v
        · try dsimp only
          try simp only [pure_bind_red]
          try dsimp only [generateAddress]
          refine NF_ite ?_ (NF_ite ?_ ?_)
          · refine NF_bind (NF_mkDefaultArray _) ?_
            intro a2
            try dsimp only
            try simp only [pure_bind_red]
            try dsimp only
            exact ihE _ _ htail
          · exact ihE _ _ htail
          · exact ihE _ _ htail
        · try dsimp only
          have hvs : nodeSize v < nodeSize child := by
            have h2 := optSize_cffn child "value"
            rw [hv] at h2
            dsimp only [optSize] at h2
            exact h2
          refine NF_bind (ihE _ _ ?_) ?_
          · dsimp only [taskEnc, taskA, taskB, taskC, taskE]
            refine encB (by omega) ?_ (by omega) (by omega)
            have hov : optSize (some v) = nodeSize v := rfl
            omega
          intro a
          obtain ⟨varValue0, st1⟩ := a
          try dsimp only [generateAddress]
          refine NF_ite ?_ (NF_ite ?_ ?_)
          · -- array path
            refine NF_ite ?_ ?_
            · refine NF_bind (ihE _ _ ?_) ?_
              · dsimp only [taskEnc, taskA, taskB, taskC, taskE]
                refine encB (by omega) ?_ (by omega) (by omega)
                have h2 := listSizeN_namedChildren v
                omega
              intro a2
              try dsimp only
              exact ihE _ _ htail
            · refine NF_bind (NF_mkDefaultArray _) ?_
              intro a2
              try dsimp only
              try simp only [pure_bind_red]
              try dsimp only
              exact ihE _ _ htail
          · -- pointer path
            refine NF_ite ?_ (NF_ite ?_ (NF_ite ?_ ?_))
            · -- new_expression
              try dsimp only [generateHeapAddress]
              rcases han : v.childForFieldName "arguments" with _ | an
              · try dsimp only
                try simp only [pure_bind_red]
                try dsimp only
                exact NF_ite (ihE _ _ htail) (ihE _ _ htail)
              · try dsimp only
                have hans : nodeSize an < nodeSize v := by
                  have h2 := optSize_cffn v "arguments"
                  rw [han] at h2
                  dsimp only [optSize] at h2
                  exact h2
                have hanc : ∀ (st6 : AState),
                    run fm fuel (Task.tEvaluateExpression (an.namedChild 0)) st6 ≠ Res.fuelOut := by
                  intro st6
                  refine ihE _ _ ?_
                  dsimp only [taskEnc, taskA, taskB, taskC, taskE]
                  refine encB (by omega) ?_ (by omega) (by omega)
                  have h2 := optSize_namedChild an 0
                  omega
                refine NF_ite ?_ ?_
                · refine NF_bind (hanc _) ?_
                  intro a2
                  try dsimp only
                  try simp only [pure_bind_red]
                  try dsimp only
                  refine NF_ite ?_ ?_
                  · refine NF_ite ?_ ?_
                    · refine NF_bind (hanc _) ?_
                      intro a3
                      try dsimp only
                      try simp only [pure_bind_red]
                      try dsimp only
                      exact ihE _ _ htail
                    · refine NF_pure_bind ?_
                      try dsimp only
                      exact ihE _ _ htail
                  · refine NF_pure_bind ?_
                    try dsimp only
                    exact ihE _ _ htail
                · refine NF_pure_bind ?_
                  try dsimp only
                  refine NF_ite ?_ ?_
                  · refine NF_ite ?_ ?_
                    · refine NF_bind (hanc _) ?_
                      intro a3
                      try dsimp only
                      try simp only [pure_bind_red]
                      try dsimp only
                      exact ihE _ _ htail
                    · refine NF_pure_bind ?_
                      try dsimp only
                      exact ihE _ _ htail
                  · refine NF_pure_bind ?_
                    try dsimp only
                    exact ihE _ _ htail
            · -- pointer_expression
              rcases hvt : v.namedChild 0 with _ | target
              · try dsimp only
                exact ihE _ _ htail
              · try dsimp only
                refine NF_ite ?_ (NF_ite ?_ ?_)
                · -- subscript target
                  try dsimp only
                  have hts : nodeSize target < nodeSize v := by
                    have h2 := optSize_namedChild v 0
                    rw [hvt] at h2
                    dsimp only [optSize] at h2
                    exact h2
                  split
                  · refine NF_pure_bind ?_
                    try dsimp only
                    split
                    · refine NF_ite (ihE _ _ htail) (ihE _ _ htail)
                    · exact ihE _ _ htail
                  · split
                    · rename_i idxN hidx
                      refine NF_ite ?_ ?_
                      · refine NF_pure_bind ?_
                        try dsimp only
                        split
                        · refine NF_ite (ihE _ _ htail) (ihE _ _ htail)
                        · exact ihE _ _ htail
                      · refine NF_ite ?_ ?_
                        · refine NF_pure_bind ?_
                          try dsimp only
                          split
                          · refine NF_ite (ihE _ _ htail) (ihE _ _ htail)
                          · exact ihE _ _ htail
                        · refine NF_bind (ihE _ _ ?_) ?_
                          · dsimp only [taskEnc, taskA, taskB, taskC, taskE]
                            refine encB (by omega) ?_ (by omega) (by omega)
                            have hov : optSize (some idxN) = nodeSize idxN := rfl
                            have hix : nodeSize idxN < nodeSize target := by
                              split at hidx
                              · have h2 := optSize_namedChild target 1
                                rw [hidx] at h2
                                dsimp only [optSize] at h2
                                exact h2
                              · have h2 := optSize_cffn target "index"
                                rw [hidx] at h2
                                dsimp only [optSize] at h2
                                exact h2
                            omega
                          intro a2
                          try dsimp only
                          split
                          · refine NF_ite (ihE _ _ htail) (ihE _ _ htail)
                          · exact ihE _ _ htail
                    · refine NF_pure_bind ?_
                      try dsimp only
                      split
                      · refine NF_ite (ihE _ _ htail) (ihE _ _ htail)
                      · exact ihE _ _ htail
                · exact ihE _ _ htail
                · exact ihE _ _ htail
            · exact ihE _ _ htail
            · exact ihE _ _ htail
          · -- plain value path
            refine NF_ite ?_ ?_
            · try dsimp only
              refine NF_bind (ihE _ _ ?_) ?_
              · dsimp only [taskEnc, taskA, taskB, taskC, taskE]
                refine encB (by omega) ?_ (by omega) (by omega)
                omega
              intro a2
              try dsimp only
              exact ihE _ _ htail
            · try dsimp only
              exact ihE _ _ htail
    case tAnalyzeFunctionCall d n tv =>
      simp only [run]
      try dsimp only
      by_cases hd : d > 20
      · rw [if_pos hd]
        exact NF_ok _
      · rw [if_neg hd]
        split
        · exact NF_ok _
        · rename_i funcDef hfd
          try dsimp only
          refine NF_bind (ihE _ _ ?_) ?_
          · dsimp only [taskEnc, taskA, taskB, taskC, taskE]
            refine encB (by omega) ?_ (by omega) (by omega)
            rcases ha2 : n.childForFieldName "arguments" with _ | an
            · dsimp only
              have h3 := nodeSize_pos n
              have h4 : listSizeN [] = 0 := rfl
              omega
            · dsimp only
              have h2 := optSize_cffn n "arguments"
              rw [ha2] at h2
              dsimp only [optSize] at h2
              have h3 := listSizeN_namedChildren an
              omega
          intro a
          obtain ⟨argVals, st1⟩ := a
          try dsimp only
          rcases hdecl : funcDef.childForFieldName "declarator" with _ | decl
          · exact NF_crash
          · dsimp only
            rcases hbody : funcDef.childForFieldName "body" with _ | body
            · dsimp only
              refine NF_bind (NF_pure _) ?_
              intro a
              obtain ⟨v2, st2⟩ := a
              try dsimp only
              exact NF_ok _
            · dsimp only
              refine NF_bind (ihE _ _ ?_) ?_
              · dsimp only [taskEnc, taskA, taskB, taskC, taskE]
                refine encA (by omega) ?_ (by omega) (by omega)
                have h4 := hfm _ _ hfd
                have h5 := optSize_cffn funcDef "body"
                rw [hbody] at h5
                dsimp only [optSize] at h5
                omega
              intro a
              obtain ⟨v2, st2⟩ := a
              try dsimp only
              exact NF_ok _
    case tAnalyzeExpressionStatement d n =>
      simp only [run]
      split
      · exact NF_ok _
      · rcases hc0 : n.namedChild 0 with _ | expr
        · exact NF_ok _
        · dsimp only
          split
          · refine ihE _ _ ?_
            dsimp only [taskEnc, taskA, taskB, taskC, taskE]
            refine encB (by omega) ?_ (by omega) (by omega)
            have h2 := optSize_namedChild n 0
            rw [hc0] at h2
            dsimp only [optSize] at h2
            exact h2
          · split
            · exact NF_ok _
            · exact NF_ok _
    case tAnalyzeAssignment expr line =>
      simp only [run]
      rcases hL : expr.childForFieldName "left" with _ | left
      · try dsimp only
        exact NF_ok _
      · rcases hR : expr.childForFieldName "right" with _ | right
        · try dsimp only
          exact NF_ok _
        · try dsimp only
          have hLs : nodeSize left < nodeSize expr := by
            have h2 := optSize_cffn expr "left"
            rw [hL] at h2
            dsimp only [optSize] at h2
            exact h2
          have hRs : nodeSize right < nodeSize expr := by
            have h2 := optSize_cffn expr "right"
            rw [hR] at h2
            dsimp only [optSize] at h2
            exact h2
          have hrightc : ∀ (st6 : AState),
              run fm fuel (Task.tEvaluateExpression (some right)) st6 ≠ Res.fuelOut := by
            intro st6
            refine ihE _ _ ?_
            dsimp only [taskEnc, taskA, taskB, taskC, taskE]
            refine encC (by omega) ?_ (by omega) (by omega)
            have hov : optSize (some right) = nodeSize right := rfl
            omega
          refine NF_ite ?_ (NF_ite ?_ (NF_ite ?_ (NF_ite ?_ ?_)))
          · -- subscript_expression left
            split
            · rename_i an ie harg hidx
              refine NF_bind (ihE _ _ ?_) ?_
              · dsimp only [taskEnc, taskA, taskB, taskC, taskE]
                refine encC (by omega) ?_ (by omega) (by omega)
                have h3 := optSize_subscript_tower left
                rw [hidx] at h3
                have hov : optSize (some ie) = nodeSize ie := rfl
                omega
              intro a
              obtain ⟨iv, st1⟩ := a
              try dsimp only
              refine NF_bind (hrightc _) ?_
              intro a
              obtain ⟨nv, st2⟩ := a
              try dsimp only
              exact NF_ok _
            all_goals exact NF_ok _
          · -- pointer_expression left
            refine NF_bind (hrightc _) ?_
            intro a
            obtain ⟨nv, st1⟩ := a
            try dsimp only
            exact NF_ok _
          · -- field_expression left
            split
            · rename_i objA fieldA h1 h2
              refine NF_bind (hrightc _) ?_
              intro a
              obtain ⟨rv, st1⟩ := a
              try dsimp only
              exact NF_ok _
            all_goals exact NF_ok _
          · -- identifier left
            try dsimp only
            refine NF_ite ?_ (NF_ite ?_ (NF_ite ?_ (NF_ite ?_ ?_)))
            · -- right pointer-of
              repeat'
                (first
                  | exact NF_ok _
                  | refine NF_ite ?_ ?_
                  | split)
            · exact NF_ok _
            · exact NF_ok _
            · -- right binary_expression
              refine NF_ite ?_ ?_
              · split
                · rename_i lo ro opv h1 h2 h3
                  refine NF_bind (ihE _ _ ?_) ?_
                  · dsimp only [taskEnc, taskA, taskB, taskC, taskE]
                    refine encC (by omega) ?_ (by omega) (by omega)
                    have h4 := optSize_cffn right "left"
                    rw [h1] at h4
                    dsimp only [optSize] at h4
                    have hov : optSize (some lo) = nodeSize lo := rfl
                    omega
                  intro a
                  obtain ⟨cv, st1⟩ := a
                  try dsimp only
                  refine NF_bind (ihE _ _ ?_) ?_
                  · dsimp only [taskEnc, taskA, taskB, taskC, taskE]
                    refine encC (by omega) ?_ (by omega) (by omega)
                    have h4 := optSize_cffn right "right"
                    rw [h2] at h4
                    dsimp only [optSize] at h4
                    have hov : optSize (some ro) = nodeSize ro := rfl
                    omega
                  intro a
                  obtain ⟨dv, st2⟩ := a
                  try dsimp only
                  repeat'
                    (first
                      | exact NF_ok _
                      | refine NF_ite ?_ ?_
                      | split)
                all_goals exact NF_ok _
              · repeat'
                  (first
                    | exact NF_ok _
                    | split)
            · exact NF_ok _
          · exact NF_ok _
    case tAnalyzeReturnStatement n =>
      simp only [run]
      split
      · refine NF_bind (ihE _ _ ?_) ?_
        · dsimp only [taskEnc, taskA, taskB, taskC, taskE]
          exact encC (by omega) (Nat.le_of_lt (optSize_namedChild n 0)) (by omega) (by omega)
        · intro a
          obtain ⟨rv, st1⟩ := a
          try dsimp only
          exact NF_ok _
      · refine NF_bind (NF_pure _) ?_
        intro a
        obtain ⟨rv, st1⟩ := a
        try dsimp only
        exact NF_ok _
    case tAnalyzeIfStatement d n =>
      simp only [run]
      refine NF_bind (ihE _ _ ?_) ?_
      · dsimp only [taskEnc, taskA, taskB, taskC, taskE]
        exact encC (by omega) (Nat.le_of_lt (optSize_cffn n "condition")) (by omega) (by omega)
      intro a
      obtain ⟨conditionResult, st1⟩ := a
      try dsimp only
      rcases hcq : n.childForFieldName "consequence" with _ | cq
      · refine NF_pure_bind ?_
        try dsimp only
        rcases halt : n.childForFieldName "alternative" with _ | alt
        · refine NF_pure_bind ?_
          exact NF_ok _
        · refine NF_bind (ihE _ _ ?_) ?_
          · dsimp only [taskEnc, taskA, taskB, taskC, taskE]
            refine encB (by omega) ?_ (by omega) (by omega)
            have h2 := optSize_cffn n "alternative"
            rw [halt] at h2
            dsimp only [optSize] at h2
            exact h2
          intro a
          obtain ⟨v3, st3⟩ := a
          try dsimp only
          try simp only [pure_bind_red]
          exact NF_ok _
      · refine NF_bind (ihE _ _ ?_) ?_
        · dsimp only [taskEnc, taskA, taskB, taskC, taskE]
          refine encB (by omega) ?_ (by omega) (by omega)
          have h2 := optSize_cffn n "consequence"
          rw [hcq] at h2
          dsimp only [optSize] at h2
          exact h2
        intro a
        obtain ⟨v2, st2⟩ := a
        try dsimp only
        try simp only [pure_bind_red]
        try dsimp only
        rcases halt : n.childForFieldName "alternative" with _ | alt
        · refine NF_pure_bind ?_
          exact NF_ok _
        · refine NF_bind (ihE _ _ ?_) ?_
          · dsimp only [taskEnc, taskA, taskB, taskC, taskE]
            refine encB (by omega) ?_ (by omega) (by omega)
            have h2 := optSize_cffn n "alternative"
            rw [halt] at h2
            dsimp only [optSize] at h2
            exact h2
          intro a
          obtain ⟨v3, st3⟩ := a
          try dsimp only
          try simp only [pure_bind_red]
          exact NF_ok _
    case tAnalyzeSwitchStatement d n =>
      simp only [run]
      try dsimp only
      rcases hbody : n.childForFieldName "body" with _ | b
      · exact NF_ok _
      · dsimp only
        refine NF_bind (ihE _ _ ?_) ?_
        · dsimp only [taskEnc, taskA, taskB, taskC, taskE]
          refine encB (by omega) ?_ (by omega) (by omega)
          have hf : ∀ (cn : Node) (pr : Node × Option String),
              (if cn.kind = "case_statement" then
                some (cn, (cn.childForFieldName "value").map Node.text) else none) = some pr →
              pr.1 = cn := by
            intro cn pr h3
            split at h3
            · cases Option.some.inj h3
              rfl
            · exact Option.noConfusion h3
          have h2 := caseSize_filterMap b.namedChildren _ hf
          have h3 := listSizeN_namedChildren b
          have h4 := optSize_cffn n "body"
          rw [hbody] at h4
          dsimp only [optSize] at h4
          omega
        intro a
        obtain ⟨v1, st1⟩ := a
        try dsimp only
        split
        · rename_i dn hdn
          try dsimp only
          refine NF_bind (ihE _ _ ?_) ?_
          · dsimp only [taskEnc, taskA, taskB, taskC, taskE]
            refine encB (by omega) ?_ (by omega) (by omega)
            have h5 : dn ∈ b.namedChildren := List.mem_of_mem_filter (mem_of_getLast?_my hdn)
            have h6 := mem_le_listSizeN h5
            have h7 := listSizeN_namedChildren b
            have h8 := listSizeN_namedChildren dn
            have h4 := optSize_cffn n "body"
            rw [hbody] at h4
            dsimp only [optSize] at h4
            omega
          intro a
          obtain ⟨v2, st2⟩ := a
          try dsimp only
          exact NF_ok _
        · exact NF_ok _
    case tCaseList d swIdx cs =>
      simp only [run]
      cases cs with
      | nil => exact NF_ok _
      | cons hd2 rest =>
        obtain ⟨cn, caseValue⟩ := hd2
        try dsimp only
        refine NF_bind (ihE _ _ ?_) ?_
        · dsimp only [taskEnc, taskA, taskB, taskC, taskE, caseSize]
          refine encB (by omega) ?_ (by omega) (by omega)
          have h2 := listSizeN_namedChildren cn
          omega
        intro a
        obtain ⟨v1, st1⟩ := a
        try dsimp only
        refine ihE _ _ ?_
        dsimp only [taskEnc, taskA, taskB, taskC, taskE, caseSize]
        refine encB (by omega) ?_ (by omega) (by omega)
        have h3 := nodeSize_pos cn
        omega
    case tCaseStmts d ns =>
      simp only [run]
      cases ns with
      | nil => exact NF_ok _
      | cons x rest =>
        try dsimp only
        split
        · split
          · refine ihE _ _ ?_
            dsimp only [taskEnc, taskA, taskB, taskC, taskE]
            refine encB (by omega) ?_ (by omega) (by omega)
            rw [listSizeN_cons]
            have h3 := nodeSize_pos x
            omega
          · refine NF_bind (ihE _ _ ?_) ?_
            · dsimp only [taskEnc, taskA, taskB, taskC, taskE]
              refine encC (by omega) ?_ (by omega) (by omega)
              rw [listSizeN_cons]
              omega
            intro a
            obtain ⟨v, st1⟩ := a
            try dsimp only
            refine ihE _ _ ?_
            dsimp only [taskEnc, taskA, taskB, taskC, taskE]
            refine encB (by omega) ?_ (by omega) (by omega)
            rw [listSizeN_cons]
            have h3 := nodeSize_pos x
            omega
        · refine ihE _ _ ?_
          dsimp only [taskEnc, taskA, taskB, taskC, taskE]
          refine encB (by omega) ?_ (by omega) (by omega)
          rw [listSizeN_cons]
          have h3 := nodeSize_pos x
          omega
    case tDefaultStmts d ns =>
      simp only [run]
      cases ns with
      | nil => exact NF_ok _
      | cons x rest =>
        try dsimp only
        split
        · refine ihE _ _ ?_
          dsimp only [taskEnc, taskA, taskB, taskC, taskE]
          refine encB (by omega) ?_ (by omega) (by omega)
          rw [listSizeN_cons]
          have h3 := nodeSize_pos x
          omega
        · refine NF_bind (ihE _ _ ?_) ?_
          · dsimp only [taskEnc, taskA, taskB, taskC, taskE]
            refine encC (by omega) ?_ (by omega) (by omega)
            rw [listSizeN_cons]
            omega
          intro a
          obtain ⟨v, st1⟩ := a
          try dsimp only
          refine ihE _ _ ?_
          dsimp only [taskEnc, taskA, taskB, taskC, taskE]
          refine encB (by omega) ?_ (by omega) (by omega)
          rw [listSizeN_cons]
          have h3 := nodeSize_pos x
          omega
    case tAnalyzeWhileStatement d n =>
      simp only [run]
      refine ihE _ _ ?_
      dsimp only [taskEnc, taskA, taskB, taskC, taskE]
      exact encC (by omega) (Nat.le_refl _) (by omega) (by omega)
    case tWhileIter d n it =>
      simp only [run]
      by_cases hit : it ≥ 10
      · rw [if_pos hit]
        exact NF_ok _
      · rw [if_neg hit]
        try dsimp only
        refine NF_bind (ihE _ _ ?_) ?_
        · dsimp only [taskEnc, taskA, taskB, taskC, taskE]
          exact encB (by omega) (optSize_cffn n "condition") (by omega) (by omega)
        intro a
        obtain ⟨conditionResult, st1⟩ := a
        try dsimp only
        split
        · exact NF_ok _
        · try dsimp only
          rcases hbody : n.childForFieldName "body" with _ | body
          · refine ihE _ _ ?_
            dsimp only [taskEnc, taskA, taskB, taskC, taskE]
            exact encD (by omega)
          · refine NF_bind (ihE _ _ ?_) ?_
            · dsimp only [taskEnc, taskA, taskB, taskC, taskE]
              refine encB (by omega) ?_ (by omega) (by omega)
              have h2 := optSize_cffn n "body"
              rw [hbody] at h2
              dsimp only [optSize] at h2
              exact h2
            intro a
            obtain ⟨v2, st2⟩ := a
            try dsimp only
            refine ihE _ _ ?_
            dsimp only [taskEnc, taskA, taskB, taskC, taskE]
            exact encD (by omega)
    case tAnalyzeForStatement d n =>
      simp only [run]
      rcases hini : n.childForFieldName "initializer" with _ | ini
      · refine ihE _ _ ?_
        dsimp only [taskEnc, taskA, taskB, taskC, taskE]
        exact encC (by omega) (Nat.le_refl _) (by omega) (by omega)
      · try dsimp only
        refine NF_bind (ihE _ _ ?_) ?_
        · dsimp only [taskEnc, taskA, taskB, taskC, taskE]
          refine encB (by omega) ?_ (by omega) (by omega)
          have h2 := optSize_cffn n "initializer"
          rw [hini] at h2
          dsimp only [optSize] at h2
          exact h2
        intro a
        obtain ⟨v1, st1⟩ := a
        try dsimp only
        refine NF_bind (NF_pure _) ?_
        intro st2
        try dsimp only
        refine ihE _ _ ?_
        dsimp only [taskEnc, taskA, taskB, taskC, taskE]
        exact encC (by omega) (Nat.le_refl _) (by omega) (by omega)
    case tForIter d n it =>
      simp only [run]
      by_cases hit : it ≥ 10
      · rw [if_pos hit]
        exact NF_ok _
      · rw [if_neg hit]
        try dsimp only
        have hnext : ∀ (st4 : AState), run fm fuel (Task.tForIter d n (it + 1)) st4 ≠ Res.fuelOut := by
          intro st4
          refine ihE _ _ ?_
          dsimp only [taskEnc, taskA, taskB, taskC, taskE]
          exact encD (by omega)
        have hassign : ∀ (u : Node), nodeSize u < nodeSize n →
            ∀ (st4 : AState), run fm fuel (Task.tAnalyzeAssignment u (n.startRow + 1)) st4 ≠ Res.fuelOut := by
          intro u hus st4
          refine ihE _ _ ?_
          dsimp only [taskEnc, taskA, taskB, taskC, taskE]
          exact encB (by omega) hus (by omega) (by omega)
        have hexpst : ∀ (u : Node), nodeSize u < nodeSize n →
            ∀ (st4 : AState), run fm fuel (Task.tAnalyzeExpressionStatement d u) st4 ≠ Res.fuelOut := by
          intro u hus st4
          refine ihE _ _ ?_
          dsimp only [taskEnc, taskA, taskB, taskC, taskE]
          exact encB (by omega) hus (by omega) (by omega)
        have hbodyc : ∀ (body : Node), nodeSize body < nodeSize n →
            ∀ (st4 : AState), run fm fuel (Task.tAnalyzeCompoundOrStatement d body) st4 ≠ Res.fuelOut := by
          intro body hbs st4
          refine ihE _ _ ?_
          dsimp only [taskEnc, taskA, taskB, taskC, taskE]
          exact encB (by omega) hbs (by omega) (by omega)
        have hub : ∀ (u : Node), n.childForFieldName "update" = some u → nodeSize u < nodeSize n := by
          intro u hupd
          have h2 := optSize_cffn n "update"
          rw [hupd] at h2
          dsimp only [optSize] at h2
          exact h2
        have hbb : ∀ (body : Node), n.childForFieldName "body" = some body → nodeSize body < nodeSize n := by
          intro body hbody
          have h2 := optSize_cffn n "body"
          rw [hbody] at h2
          dsimp only [optSize] at h2
          exact h2
        rcases hcnd : n.childForFieldName "condition" with _ | cnd
        case _ =>
          try dsimp only
          try simp only [pure_bind_red]
          try dsimp only
          split
          · exact NF_ok _
          · try dsimp only
            rcases hbody : n.childForFieldName "body" with _ | body
            · try dsimp only
              try simp only [pure_bind_red]
              try dsimp only
              rcases hupd : n.childForFieldName "update" with _ | u
              · try dsimp only
                try simp only [pure_bind_red]
                exact hnext _
              · try dsimp only
                split
                · refine NF_pure_bind ?_
                  exact hnext _
                · split
                  · refine NF_bind (hassign u (hub u hupd) _) ?_
                    intro a2
                    try dsimp only
                    try simp only [pure_bind_red]
                    exact hnext _
                  · refine NF_bind (hexpst u (hub u hupd) _) ?_
                    intro a2
                    try dsimp only
                    try simp only [pure_bind_red]
                    exact hnext _
            · try dsimp only
              refine NF_bind (hbodyc body (hbb body hbody) _) ?_
              intro a2
              try dsimp only
              rcases hupd : n.childForFieldName "update" with _ | u
              · try dsimp only
                try simp only [pure_bind_red]
                exact hnext _
              · try dsimp only
                split
                · refine NF_pure_bind ?_
                  exact hnext _
                · split
                  · refine NF_bind (hassign u (hub u hupd) _) ?_
                    intro a2
                    try dsimp only
                    try simp only [pure_bind_red]
                    exact hnext _
                  · refine NF_bind (hexpst u (hub u hupd) _) ?_
                    intro a2
                    try dsimp only
                    try simp only [pure_bind_red]
                    exact hnext _
        case _ =>
          try dsimp only
          refine NF_bind (ihE _ _ ?_) ?_
          · dsimp only [taskEnc, taskA, taskB, taskC, taskE]
            refine encB (by omega) ?_ (by omega) (by omega)
            have h2 := optSize_cffn n "condition"
            rw [hcnd] at h2
            dsimp only [optSize] at h2
            exact h2
          intro a
          obtain ⟨conditionResult, st1⟩ := a
          try dsimp only
          split
          · exact NF_ok _
          · try dsimp only
            rcases hbody : n.childForFieldName "body" with _ | body
            · try dsimp only
              try simp only [pure_bind_red]
              try dsimp only
              rcases hupd : n.childForFieldName "update" with _ | u
              · try dsimp only
                try simp only [pure_bind_red]
                exact hnext _
              · try dsimp only
                split
                · refine NF_pure_bind ?_
                  exact hnext _
                · split
                  · refine NF_bind (hassign u (hub u hupd) _) ?_
                    intro a2
                    try dsimp only
                    try simp only [pure_bind_red]
                    exact hnext _
                  · refine NF_bind (hexpst u (hub u hupd) _) ?_
                    intro a2
                    try dsimp only
                    try simp only [pure_bind_red]
                    exact hnext _
            · try dsimp only
              refine NF_bind (hbodyc body (hbb body hbody) _) ?_
              intro a2
              try dsimp only
              rcases hupd : n.childForFieldName "update" with _ | u
              · try dsimp only
                try simp only [pure_bind_red]
                exact hnext _
              · try dsimp only
                split
                · refine NF_pure_bind ?_
                  exact hnext _
                · split
                  · refine NF_bind (hassign u (hub u hupd) _) ?_
                    intro a2
                    try dsimp only
                    try simp only [pure_bind_red]
                    exact hnext _
                  · refine NF_bind (hexpst u (hub u hupd) _) ?_
                    intro a2
                    try dsimp only
                    try simp only [pure_bind_red]
                    exact hnext _
    case tAnalyzeCompoundOrStatement d n =>
      simp only [run]
      split
      · refine ihE _ _ ?_
        dsimp only [taskEnc, taskA, taskB, taskC, taskE]
        exact encB (by omega) (listSizeN_namedChildren n) (by omega) (by omega)
      · refine ihE _ _ ?_
        dsimp only [taskEnc, taskA, taskB, taskC, taskE]
        exact encC (by omega) (Nat.le_refl _) (by omega) (by omega)

theorem alGet_alSet_cases {κ α : Type} [DecidableEq κ] {m : List (κ × α)} {k k2 : κ} {v w : α}
    (h : alGet (alSet m k v) k2 = some w) : (k2 = k ∧ w = v) ∨ alGet m k2 = some w := by
  by_cases hk : k2 = k
  · subst hk
    rw [alGet_alSet_self] at h
    exact Or.inl ⟨rfl, (Option.some.inj h).symm⟩
  · rw [alGet_alSet_ne _ _ (fun he => hk he.symm)] at h
    exact Or.inr h

/-- Every function the map built from the root records is a top-level
child of the root, so its size stays below the root size. -/
theorem populateFunctionMap_size {root : Node} {k : String} {fd : Node}
    (h : alGet (populateFunctionMap root) k = some fd) : nodeSize fd ≤ nodeSize root := by
  have h2 : ∀ (ns : List Node) (acc : List (String × Node)),
      alGet (ns.foldl (fun fm node =>
        if node.kind = "function_definition" then
          alSet fm (getFunctionName (node.childForFieldName "declarator")) node
        else fm) acc) k = some fd →
      fd ∈ ns ∨ alGet acc k = some fd := by
    intro ns
    induction ns with
    | nil =>
      intro acc h3
      exact Or.inr h3
    | cons x rest ih =>
      intro acc h3
      rw [List.foldl_cons] at h3
      rcases ih _ h3 with hm | hacc
      · exact Or.inl (List.mem_cons_of_mem _ hm)
      · by_cases hx : x.kind = "function_definition"
        · rw [if_pos hx] at hacc
          rcases alGet_alSet_cases hacc with ⟨hk2, hw⟩ | hplain
          · subst hw
            exact Or.inl (List.mem_cons_self _ _)
          · exact Or.inr hplain
        · rw [if_neg hx] at hacc
          exact Or.inr hacc
  unfold populateFunctionMap at h
  rcases h2 root.namedChildren [] h with hmem | hacc
  · have h3 := mem_le_listSizeN hmem
    have h4 := listSizeN_namedChildren root
    omega
  · simp [alGet] at hacc

/-- The fuel generateSteps allots strictly dominates the measure of the
root task over any node no larger than the root. -/
theorem taskEnc_lt_genFuel {root X : Node} (hX : nodeSize X ≤ nodeSize root) :
    taskEnc (nodeSize root) (Task.tAnalyzeNode 0 X) < genFuel root := by
  have hb : genFuel root
      = 128 * (21 * (nodeSize root + 1)) + 128 * (nodeSize root) + 128 := by
    show ((21 * (nodeSize root + 1) + nodeSize root) * 8 + 7) * 16 + 16 = _
    ring
  dsimp only [taskEnc, taskA, taskB, taskC, taskE]
  rw [show (21 - 0 : Nat) = 21 from rfl]
  rw [encM_expand, hb]
  linarith

/-- The unroller never exhausts its fuel: step generation always returns
ok or crash, for every input tree and oracle. -/
theorem generateSteps_nf (rand : Nat) (root : Node) :
    generateSteps rand root ≠ Res.fuelOut := by
  unfold generateSteps
  dsimp only
  have hfm : ∀ (k : String) (fd : Node), alGet (populateFunctionMap root) k = some fd →
      nodeSize fd ≤ nodeSize root := fun k fd h => populateFunctionMap_size h
  rcases hm : alGet (populateFunctionMap root) "main" with _ | mainNode
  · have hnf := run_nf (populateFunctionMap root) (nodeSize root) hfm (genFuel root)
      (Task.tAnalyzeNode 0 root) (initialAState rand) (taskEnc_lt_genFuel (Nat.le_refl _))
    rcases hr : run (populateFunctionMap root) (genFuel root) (Task.tAnalyzeNode 0 root)
        (initialAState rand) with a | _ | _
    · obtain ⟨v, stf⟩ := a
      exact NF_ok _
    · exact NF_crash
    · exact absurd hr hnf
  · try dsimp only
    have hnf := run_nf (populateFunctionMap root) (nodeSize root) hfm (genFuel root)
      (Task.tAnalyzeNode 0 mainNode) (initialAState rand)
      (taskEnc_lt_genFuel (hfm _ _ hm))
    rcases hr : run (populateFunctionMap root) (genFuel root) (Task.tAnalyzeNode 0 mainNode)
        (initialAState rand) with a | _ | _
    · obtain ⟨v, stf⟩ := a
      exact NF_ok _
    · exact NF_crash
    · exact absurd hr hnf

/- The two ceiling-exercising programs of C4: an infinite while loop and
an unboundedly recursive main. -/

/-- A main whose body is while (1) with an empty compound body: the loop condition never goes false. -/
def c4LoopTree : Node :=
  mkProgram [mkMain [
    nd "while_statement" "while (1)" 2 [
      fch "condition" (nd "condition_clause" "(1)" 2 [
        nch (nd "number_literal" "1" 2 [])]),
      fch "body" (nd "compound_statement" "" 2 [])]] 3]

/-- A main whose body is the single statement main(); so the unrolling recurses unboundedly. -/
def c4RecTree : Node :=
  mkProgram [mkMain [
    nd "expression_statement" "main();" 1 [
      nch (nd "call_expression" "main()" 1 [
        fch "function" (nd "identifier" "main" 1 []),
        fch "arguments" (nd "argument_list" "()" 1 [])])]] 2]

/-- C4: for every input syntax tree, step generation terminates and
returns a finite step list (the unroller never exhausts the fuel that
generateSteps allots, proved by the strictly decreasing task measure
taskEnc), even for programs with an infinite loop or unbounded recursion:
the infinite while (1) program yields exactly 32 steps with the loop
unrolled for exactly 10 iterations, and the self-recursive main program
yields exactly 44 steps with exactly 21 CALL steps, the unrolling stopping
once the call depth exceeds the ceiling of 20. -/
theorem C4_unrolling_terminates :
    (∀ (rand : Nat) (root : Node), generateSteps rand root ≠ Res.fuelOut) ∧
    (∃ steps : List Step, generateSteps 0 c4LoopTree = Res.ok steps ∧
      steps.length = 32 ∧
      (steps.filter (fun (s : Step) => s.data matches StepData.enterLoop _)).length = 10) ∧
    (∃ steps : List Step, generateSteps 0 c4RecTree = Res.ok steps ∧
      steps.length = 44 ∧
      (steps.filter (fun (s : Step) => s.data matches StepData.call _ _ _)).length = 21) :=
  ⟨generateSteps_nf, ⟨_, rfl, rfl, rfl⟩, ⟨_, rfl, rfl, rfl⟩⟩


end Structura